import Mathlib

/-!
Atomic Register Toolkit (ART): single-writer / single-reader registers

A shallow embedding of the five register classes of the toolkit

* `B_AR_1`    (BLK,   `B_AR_1.hpp`),
* `NB_ARSS_1` (NB-4a, `NB_ARSS_1.hpp`),
* `NB_ARSS_2` (NB-4b, `NB_ARSS_2.hpp`),
* `NB_ARSS_3` (NB-3c, `NB_ARSS_3.hpp`),
* `NB_ARSS_4` (NB-3d, `NB_ARSS_4.hpp`),

first as methods executed one at a time, then as transition systems whose
steps are the atomic accesses of one writer thread and one reader thread.

Conventions.  An `unsigned char` is a natural number and every assignment of
an `int` expression to an `unsigned char` goes through `u8`.  A timestamp
(`int_fast64_t`) is an integer; the registers never compute with it.  A user
callback that throws is a function returning `none`.
-/

namespace ART

/-! ## `ART.hpp` -/

/-- Content of a register: the stored object and its timestamp (`ARContent<T>`). -/
structure ARContent (T : Type) where
  obj : T
  ts : Int

/-- Timestamp value associated to a register entry that contains no data. -/
def NO_VALUE_TS : Int := -1

/-- Default register content copy function. -/
def COPY_FNC {T : Type} (obj : T) : T := obj

/-- Default register content get function: `*dest = source`.  The second
argument is the value held by `*dest` before the call, the result the value
held after it. -/
def GET_FNC {T : Type} (source : T) (_dest : T) : T := source

/-- Default register content memory release function: it does nothing. -/
def FREE_FNC {T : Type} (_obj : T) : Unit := ()

/-- The three callbacks bound at construction (`m_copy_fnc`, `m_get_fnc`,
`m_free_fnc`).  `none` stands for an exception leaving the callback.
`get_fnc source dest` receives the current content of `*dest` and yields its
new content. -/
structure Fncs (T : Type) where
  copy_fnc : T → Option T
  get_fnc : T → T → Option T
  free_fnc : T → Option Unit

/-- Callbacks that always return. -/
def Fncs.total {T : Type} (copy : T → T) (get : T → T → T) : Fncs T where
  copy_fnc := fun obj => some (copy obj)
  get_fnc := fun source dest => some (get source dest)
  free_fnc := fun _ => some ()

/-- The default arguments of every constructor: `COPY_FNC`, `GET_FNC`, `FREE_FNC`. -/
def Fncs.dflt {T : Type} : Fncs T where
  copy_fnc := fun obj => some (COPY_FNC obj)
  get_fnc := fun source dest => some (GET_FNC source dest)
  free_fnc := fun obj => some (FREE_FNC obj)

/-- One invocation of a user callback, with the object it was applied to
(for `get`: the source object). -/
inductive Call (T : Type) where
  | free (obj : T)
  | copy (obj : T)
  | get (source : T)

/-- How a method call ends. -/
inductive Outcome (α : Type) where
  /-- The method returned; for `read`, with the contents of `*obj` and `*ts`. -/
  | returned (a : α)
  /-- An exception thrown by a callback left the method. -/
  | threw
  /-- The method waits for a mutex that is held. -/
  | blocked
  /-- A buffer index outside the array: undefined behaviour. -/
  | ub
  /-- The iteration bound given to a CAS loop was used up. -/
  | fuel

/-- Result of running one method: the state it leaves, the callbacks it
invoked (in order) and how it ended. -/
structure Ret (σ α T : Type) where
  state : σ
  calls : List (Call T)
  out : Outcome α

/-- Conversion of an `int` value to `unsigned char`. -/
def u8 (x : Nat) : Nat := x % 256

/-- Bit pattern of `~x`, for an `unsigned char` `x` promoted to a 32-bit `int`. -/
def bitNot (x : Nat) : Nat := x ^^^ 0xFFFFFFFF

/-- Buffer assignment `m_buffer[i].obj = o`. -/
def setObj {T : Type} (b : Nat → ARContent T) (i : Nat) (o : T) : Nat → ARContent T :=
  Function.update b i { obj := o, ts := (b i).ts }

/-- Buffer assignment `m_buffer[i].ts = ts`. -/
def setTs {T : Type} (b : Nat → ARContent T) (i : Nat) (ts : Int) : Nat → ARContent T :=
  Function.update b i { obj := (b i).obj, ts := ts }

/-- The sequence `free(m_buffer[i].obj)` for `i = k, k+1, ...` over `n` slots,
stopping at the first exception. -/
def free_slots {T : Type} (f : Fncs T) (b : Nat → ARContent T) : Nat → Nat → List (Call T) × Bool
  | _, 0 => ([], true)
  | k, n + 1 =>
    match f.free_fnc (b k).obj with
    | none => ([.free (b k).obj], false)
    | some _ => (.free (b k).obj :: (free_slots f b (k + 1) n).1, (free_slots f b (k + 1) n).2)

/-- The method `compare_exchange_strong(expected, desired)` on an atomic holding `m`:
the success flag, the new value of the atomic and the new value of `expected`. -/
def compare_exchange_strong (m expected desired : Nat) : Bool × Nat × Nat :=
  if m = expected then (true, desired, expected) else (false, m, m)

/-- The method `compare_exchange_weak`: as the strong form, except that it may
fail although the comparison succeeds (`spurious`). -/
def compare_exchange_weak (spurious : Bool) (m expected desired : Nat) : Bool × Nat × Nat :=
  if spurious then (false, m, m) else compare_exchange_strong m expected desired

/-! ## `B_AR_1.hpp`: blocking register (BLK) -/

/-- State of a `B_AR_1<T>`: the single cell and whether the mutex is held. -/
structure B_AR_1 (T : Type) where
  m_reg : ARContent T
  m_mutex : Bool

namespace B_AR_1

/-- Constructor. -/
def init {T : Type} (no_value_indicator : T) : B_AR_1 T where
  m_reg := { obj := no_value_indicator, ts := NO_VALUE_TS }
  m_mutex := false

/-- Method `B_AR_1::write`. -/
def write {T : Type} (f : Fncs T) (s : B_AR_1 T) (obj : T) (ts : Int) :
    Ret (B_AR_1 T) Unit T :=
  if s.m_mutex then { state := s, calls := [], out := .blocked } else
  let s := { s with m_mutex := true }
  match f.free_fnc s.m_reg.obj with
  | none => { state := s, calls := [.free s.m_reg.obj], out := .threw }
  | some _ =>
    match f.copy_fnc obj with
    | none => { state := s, calls := [.free s.m_reg.obj, .copy obj], out := .threw }
    | some c =>
      let old := s.m_reg.obj
      let s := { s with m_reg := { obj := c, ts := s.m_reg.ts } }
      let s := { s with m_reg := { obj := s.m_reg.obj, ts := ts } }
      let s := { s with m_mutex := false }
      { state := s, calls := [.free old, .copy obj], out := .returned () }

/-- Method `B_AR_1::read`; `dest` is the content of `*obj` on entry. -/
def read {T : Type} (f : Fncs T) (s : B_AR_1 T) (dest : T) :
    Ret (B_AR_1 T) (T × Int) T :=
  if s.m_mutex then { state := s, calls := [], out := .blocked } else
  let s := { s with m_mutex := true }
  match f.get_fnc s.m_reg.obj dest with
  | none => { state := s, calls := [.get s.m_reg.obj], out := .threw }
  | some o =>
    let ts := s.m_reg.ts
    let src := s.m_reg.obj
    let s := { s with m_mutex := false }
    { state := s, calls := [.get src], out := .returned (o, ts) }

/-- Destructor: the callbacks invoked and whether it completed. -/
def destroy {T : Type} (f : Fncs T) (s : B_AR_1 T) : List (Call T) × Bool :=
  ([.free s.m_reg.obj], (f.free_fnc s.m_reg.obj).isSome)

end B_AR_1

/-! ## `NB_ARSS_4.hpp`: three slots, one 4-bit control word (NB-3d) -/

/-- State of a `NB_ARSS_4<T>`. -/
structure NB_ARSS_4 (T : Type) where
  m_buffer : Nat → ARContent T
  m_status : Nat
  m_write_slot : Nat

namespace NB_ARSS_4

/-- Constructor: every slot holds the no-value indicator, status and write slot are 0. -/
def init {T : Type} (no_value_indicator : T) : NB_ARSS_4 T where
  m_buffer := fun _ => { obj := no_value_indicator, ts := NO_VALUE_TS }
  m_status := 0
  m_write_slot := 0

/-- Method `NB_ARSS_4::write`. -/
def write {T : Type} (f : Fncs T) (s : NB_ARSS_4 T) (obj : T) (ts : Int) :
    Ret (NB_ARSS_4 T) Unit T :=
  let local_status := s.m_status
  let s := { s with m_write_slot := u8 ((s.m_write_slot + 1) % 3) }
  let s := if s.m_write_slot = local_status &&& 0x3
    then { s with m_write_slot := u8 ((s.m_write_slot + 1) % 3) } else s
  if s.m_write_slot < 3 then
    let old := (s.m_buffer s.m_write_slot).obj
    match f.free_fnc old with
    | none => { state := s, calls := [.free old], out := .threw }
    | some _ =>
      match f.copy_fnc obj with
      | none => { state := s, calls := [.free old, .copy obj], out := .threw }
      | some c =>
        let s := { s with m_buffer := setObj s.m_buffer s.m_write_slot c }
        let s := { s with m_buffer := setTs s.m_buffer s.m_write_slot ts }
        match compare_exchange_strong s.m_status local_status
            (u8 ((s.m_write_slot <<< 2) ||| (local_status &&& 0x3))) with
        | (true, m, _) =>
          { state := { s with m_status := m }, calls := [.free old, .copy obj],
            out := .returned () }
        | (false, m, local_status) =>
          let r := compare_exchange_strong m local_status
            (u8 ((s.m_write_slot <<< 2) ||| (local_status &&& 0x3)))
          { state := { s with m_status := r.2.1 }, calls := [.free old, .copy obj],
            out := .returned () }
  else { state := s, calls := [], out := .ub }

/-- The CAS loop of `NB_ARSS_4::read`, run for at most `fuel` iterations on the
atomic `m_status`: the new `m_status`, the final `local_status` and the number
of iterations made. -/
def read_loop (m_status : Nat) : Nat → Nat → Nat → Option (Nat × Nat × Nat)
  | 0, _, _ => none
  | fuel + 1, local_status, nretry =>
    match compare_exchange_strong m_status local_status
        (u8 ((local_status &&& 0xC) ||| (local_status >>> 2))) with
    | (true, m, l) => some (m, l, nretry)
    | (false, _, l) => read_loop m_status fuel l (nretry + 1)

/-- Method `NB_ARSS_4::read(T*, int_fast64_t*, int_fast64_t*)`; the result
carries `*obj`, `*ts` and `*nretry`. -/
def read3 {T : Type} (f : Fncs T) (fuel : Nat) (s : NB_ARSS_4 T) (dest : T) :
    Ret (NB_ARSS_4 T) (T × Int × Int) T :=
  let local_status := s.m_status
  match read_loop s.m_status fuel local_status 1 with
  | none => { state := s, calls := [], out := .fuel }
  | some (m, local_status, nretry) =>
    let s := { s with m_status := m }
    let read_slot := u8 (local_status >>> 2)
    if read_slot < 3 then
      match f.get_fnc (s.m_buffer read_slot).obj dest with
      | none => { state := s, calls := [.get (s.m_buffer read_slot).obj], out := .threw }
      | some o =>
        { state := s, calls := [.get (s.m_buffer read_slot).obj],
          out := .returned (o, (s.m_buffer read_slot).ts, (nretry : Int)) }
    else { state := s, calls := [], out := .ub }

/-- Method `NB_ARSS_4::read(T*, int_fast64_t*)`. -/
def read {T : Type} (f : Fncs T) (fuel : Nat) (s : NB_ARSS_4 T) (dest : T) :
    Ret (NB_ARSS_4 T) (T × Int) T :=
  let local_status := s.m_status
  match read_loop s.m_status fuel local_status 1 with
  | none => { state := s, calls := [], out := .fuel }
  | some (m, local_status, _) =>
    let s := { s with m_status := m }
    let read_slot := u8 (local_status >>> 2)
    if read_slot < 3 then
      match f.get_fnc (s.m_buffer read_slot).obj dest with
      | none => { state := s, calls := [.get (s.m_buffer read_slot).obj], out := .threw }
      | some o =>
        { state := s, calls := [.get (s.m_buffer read_slot).obj],
          out := .returned (o, (s.m_buffer read_slot).ts) }
    else { state := s, calls := [], out := .ub }

/-- Destructor: `free` on the three slots. -/
def destroy {T : Type} (f : Fncs T) (s : NB_ARSS_4 T) : List (Call T) × Bool :=
  free_slots f s.m_buffer 0 3

end NB_ARSS_4

/-! ## `NB_ARSS_1.hpp`: four slots, wait-free writer and reader (NB-4a) -/

/-- State of one `NB_ARSS_1<T>` object.  The writer's `next_write` is a
function-scoped `static` of `write`, hence not a member: it is passed to
`write` and returned by it. -/
structure NB_ARSS_1 (T : Type) where
  m_buffer : Nat → ARContent T
  m_next_read : Nat

namespace NB_ARSS_1

/-- Constructor: next read from slot 0, currently not reading. -/
def init {T : Type} (no_value_indicator : T) : NB_ARSS_1 T where
  m_buffer := fun _ => { obj := no_value_indicator, ts := NO_VALUE_TS }
  m_next_read := 0

/-- Initial value of the static `next_write` of `write`. -/
def next_write_init : Nat := 1

/-- Method `NB_ARSS_1::write`, on the static `next_write` and the object `s`. -/
def write {T : Type} (f : Fncs T) (next_write : Nat) (s : NB_ARSS_1 T) (obj : T) (ts : Int) :
    Ret (Nat × NB_ARSS_1 T) Unit T :=
  let local_next_read := s.m_next_read
  let s := { s with m_next_read := s.m_next_read &&& 0x3 }
  let next_write := if local_next_read >>> 2 ≠ 0
    then u8 ((next_write &&& 0x2) ||| (bitNot local_next_read &&& 0x1)) else next_write
  let write_slot := next_write
  if write_slot < 4 then
    let old := (s.m_buffer write_slot).obj
    match f.free_fnc old with
    | none => { state := (next_write, s), calls := [.free old], out := .threw }
    | some _ =>
      match f.copy_fnc obj with
      | none => { state := (next_write, s), calls := [.free old, .copy obj], out := .threw }
      | some c =>
        let s := { s with m_buffer := setObj s.m_buffer write_slot c }
        let s := { s with m_buffer := setTs s.m_buffer write_slot ts }
        let new_next_read := write_slot
        let next_write := u8 (write_slot ^^^ 0x2)
        let local_next_read := u8 (local_next_read &&& 0x3)
        match compare_exchange_strong s.m_next_read local_next_read new_next_read with
        | (true, m, _) =>
          { state := (next_write, { s with m_next_read := m }),
            calls := [.free old, .copy obj], out := .returned () }
        | (false, m, local_next_read) =>
          let next_write := u8 ((next_write &&& 0x2) ||| (bitNot local_next_read &&& 0x1))
          let r := compare_exchange_strong m local_next_read new_next_read
          { state := (next_write, { s with m_next_read := r.2.1 }),
            calls := [.free old, .copy obj], out := .returned () }
  else { state := (next_write, s), calls := [], out := .ub }

/-- Method `NB_ARSS_1::read`. -/
def read {T : Type} (f : Fncs T) (s : NB_ARSS_1 T) (dest : T) :
    Ret (NB_ARSS_1 T) (T × Int) T :=
  let read_slot := u8 (s.m_next_read &&& 0x3)
  let s := { s with m_next_read := s.m_next_read ||| 0x4 }
  if read_slot < 4 then
    match f.get_fnc (s.m_buffer read_slot).obj dest with
    | none => { state := s, calls := [.get (s.m_buffer read_slot).obj], out := .threw }
    | some o =>
      { state := s, calls := [.get (s.m_buffer read_slot).obj],
        out := .returned (o, (s.m_buffer read_slot).ts) }
  else { state := s, calls := [], out := .ub }

/-- The class declares no destructor: destroying the object invokes no callback. -/
def destroy {T : Type} (_f : Fncs T) (_s : NB_ARSS_1 T) : List (Call T) × Bool :=
  ([], true)

end NB_ARSS_1

/-! ## `NB_ARSS_2.hpp`: four slots, wait-free writer, lock-free reader (NB-4b) -/

/-- State of a `NB_ARSS_2<T>`. -/
structure NB_ARSS_2 (T : Type) where
  m_buffer : Nat → ARContent T
  m_status : Nat

namespace NB_ARSS_2

/-- Constructor: read from 0, write into 1. -/
def init {T : Type} (no_value_indicator : T) : NB_ARSS_2 T where
  m_buffer := fun _ => { obj := no_value_indicator, ts := NO_VALUE_TS }
  m_status := 1

/-- Method `NB_ARSS_2::write`. -/
def write {T : Type} (f : Fncs T) (s : NB_ARSS_2 T) (obj : T) (ts : Int) :
    Ret (NB_ARSS_2 T) Unit T :=
  let local_status := s.m_status
  let write_slot := u8 (local_status &&& 0x3)
  if write_slot < 4 then
    let old := (s.m_buffer write_slot).obj
    match f.free_fnc old with
    | none => { state := s, calls := [.free old], out := .threw }
    | some _ =>
      match f.copy_fnc obj with
      | none => { state := s, calls := [.free old, .copy obj], out := .threw }
      | some c =>
        let s := { s with m_buffer := setObj s.m_buffer write_slot c }
        let s := { s with m_buffer := setTs s.m_buffer write_slot ts }
        let new_status := u8 ((write_slot <<< 2) ||| (write_slot ^^^ 0x2))
        match compare_exchange_strong s.m_status local_status new_status with
        | (true, m, _) =>
          { state := { s with m_status := m }, calls := [.free old, .copy obj],
            out := .returned () }
        | (false, _, local_status) =>
          { state := { s with m_status := u8 ((write_slot <<< 2) ||| (local_status &&& 0x3)) },
            calls := [.free old, .copy obj], out := .returned () }
  else { state := s, calls := [], out := .ub }

/-- The CAS loop of `NB_ARSS_2::read`, run for at most `fuel` iterations on the
atomic `m_status`; the first `spur` iterations fail spuriously.  The result is
the new `m_status` and the final `local_status`. -/
def read_loop (m_status : Nat) : Nat → Nat → Nat → Option (Nat × Nat)
  | 0, _, _ => none
  | fuel + 1, spur, local_status =>
    let new_status := u8 ((local_status &&& 0xE) ||| ((bitNot local_status >>> 2) &&& 0x1))
    match compare_exchange_weak (decide (0 < spur)) m_status local_status new_status with
    | (true, m, l) => some (m, l)
    | (false, _, l) => read_loop m_status fuel (spur - 1) l

/-- Method `NB_ARSS_2::read`. -/
def read {T : Type} (f : Fncs T) (fuel spur : Nat) (s : NB_ARSS_2 T) (dest : T) :
    Ret (NB_ARSS_2 T) (T × Int) T :=
  let local_status := s.m_status
  match read_loop s.m_status fuel spur local_status with
  | none => { state := s, calls := [], out := .fuel }
  | some (m, local_status) =>
    let s := { s with m_status := m }
    let read_slot := u8 (local_status >>> 2)
    if read_slot < 4 then
      match f.get_fnc (s.m_buffer read_slot).obj dest with
      | none => { state := s, calls := [.get (s.m_buffer read_slot).obj], out := .threw }
      | some o =>
        { state := s, calls := [.get (s.m_buffer read_slot).obj],
          out := .returned (o, (s.m_buffer read_slot).ts) }
    else { state := s, calls := [], out := .ub }

/-- Destructor: `free` on the four slots. -/
def destroy {T : Type} (f : Fncs T) (s : NB_ARSS_2 T) : List (Call T) × Bool :=
  free_slots f s.m_buffer 0 4

end NB_ARSS_2

/-! ## `NB_ARSS_3.hpp`: the three-slot protocol of Chen and Burns (NB-3c) -/

/-- State of a `NB_ARSS_3<T>`. -/
structure NB_ARSS_3 (T : Type) where
  m_buffer : Nat → ARContent T
  m_reading : Nat
  m_latest : Nat

namespace NB_ARSS_3

/-- Constructor. -/
def init {T : Type} (no_value_indicator : T) : NB_ARSS_3 T where
  m_buffer := fun _ => { obj := no_value_indicator, ts := NO_VALUE_TS }
  m_reading := 3
  m_latest := 0

/-- The table `static const int next[4][3]` of `write`. -/
def next : List (List Nat) := [[1, 2, 1], [2, 2, 0], [1, 0, 0], [1, 2, 0]]

/-- The lookup `next[widx1][widx2]`; `none` outside the table. -/
def next_at (widx1 widx2 : Nat) : Option Nat :=
  match next.get? widx1 with
  | none => none
  | some row => row.get? widx2

/-- Method `NB_ARSS_3::write`. -/
def write {T : Type} (f : Fncs T) (s : NB_ARSS_3 T) (obj : T) (ts : Int) :
    Ret (NB_ARSS_3 T) Unit T :=
  let widx1 := s.m_reading
  let widx2 := s.m_latest
  match next_at widx1 widx2 with
  | none => { state := s, calls := [], out := .ub }
  | some n =>
    let windex := u8 n
    if windex < 3 then
      let old := (s.m_buffer windex).obj
      match f.free_fnc old with
      | none => { state := s, calls := [.free old], out := .threw }
      | some _ =>
        match f.copy_fnc obj with
        | none => { state := s, calls := [.free old, .copy obj], out := .threw }
        | some c =>
          let s := { s with m_buffer := setObj s.m_buffer windex c }
          let s := { s with m_buffer := setTs s.m_buffer windex ts }
          let s := { s with m_latest := windex }
          let tmp := 3
          let r := compare_exchange_strong s.m_reading tmp windex
          { state := { s with m_reading := r.2.1 }, calls := [.free old, .copy obj],
            out := .returned () }
    else { state := s, calls := [], out := .ub }

/-- Method `NB_ARSS_3::read`. -/
def read {T : Type} (f : Fncs T) (s : NB_ARSS_3 T) (dest : T) :
    Ret (NB_ARSS_3 T) (T × Int) T :=
  let s := { s with m_reading := 3 }
  let rindex := s.m_latest
  let tmp := 3
  let r := compare_exchange_strong s.m_reading tmp rindex
  let s := { s with m_reading := r.2.1 }
  let rindex := s.m_reading
  if rindex < 3 then
    match f.get_fnc (s.m_buffer rindex).obj dest with
    | none => { state := s, calls := [.get (s.m_buffer rindex).obj], out := .threw }
    | some o =>
      { state := s, calls := [.get (s.m_buffer rindex).obj],
        out := .returned (o, (s.m_buffer rindex).ts) }
  else { state := s, calls := [], out := .ub }

/-- Destructor: `free` on the three slots. -/
def destroy {T : Type} (f : Fncs T) (s : NB_ARSS_3 T) : List (Call T) × Bool :=
  free_slots f s.m_buffer 0 3

end NB_ARSS_3

/-! ## Sequential executions -/

/-- One operation issued on a register; a read carries the content of the
caller's `*obj` on entry. -/
inductive Op (T : Type) where
  | write (obj : T) (ts : Int)
  | read (dest : T)

/-- The caller goes on to its next operation after a method that returned or
threw; it never does after one that blocks, has undefined behaviour or did
not finish within the iteration bound. -/
def Outcome.goes_on {α : Type} : Outcome α → Bool
  | .returned _ => true
  | .threw => true
  | _ => false

/-- Outcomes of the reads of `ops`, executed one at a time by the methods
`wr` and `rd` from the state `s`. -/
def exec {σ T : Type} (wr : σ → T → Int → Ret σ Unit T) (rd : σ → T → Ret σ (T × Int) T) :
    σ → List (Op T) → List (Outcome (T × Int))
  | _, [] => []
  | s, .write obj ts :: ops =>
    if (wr s obj ts).out.goes_on then exec wr rd (wr s obj ts).state ops else []
  | s, .read dest :: ops =>
    (rd s dest).out :: (if (rd s dest).out.goes_on then exec wr rd (rd s dest).state ops else [])

/-- Sequential execution on a `B_AR_1`. -/
def B_AR_1.exec {T : Type} (f : Fncs T) (s : B_AR_1 T) (ops : List (Op T)) :
    List (Outcome (T × Int)) :=
  ART.exec (B_AR_1.write f) (B_AR_1.read f) s ops

/-- Method `write` of the `NB_ARSS_1` object `s.2` in a process whose static
`next_write` is `s.1`. -/
def NB_ARSS_1.write_in {T : Type} (f : Fncs T) (s : Nat × NB_ARSS_1 T) (obj : T) (ts : Int) :
    Ret (Nat × NB_ARSS_1 T) Unit T :=
  NB_ARSS_1.write f s.1 s.2 obj ts

/-- Method `read` of the `NB_ARSS_1` object `s.2`; the static `s.1` is not accessed. -/
def NB_ARSS_1.read_in {T : Type} (f : Fncs T) (s : Nat × NB_ARSS_1 T) (dest : T) :
    Ret (Nat × NB_ARSS_1 T) (T × Int) T :=
  { state := (s.1, (NB_ARSS_1.read f s.2 dest).state),
    calls := (NB_ARSS_1.read f s.2 dest).calls,
    out := (NB_ARSS_1.read f s.2 dest).out }

/-- Sequential execution on a `NB_ARSS_1` in a process whose static
`next_write` is the first component of the state. -/
def NB_ARSS_1.exec {T : Type} (f : Fncs T) (s : Nat × NB_ARSS_1 T) (ops : List (Op T)) :
    List (Outcome (T × Int)) :=
  ART.exec (NB_ARSS_1.write_in f) (NB_ARSS_1.read_in f) s ops

/-- Method `write` of the `NB_ARSS_2` object `s.2`; `s.1` lists, operation by
operation, how often the weak CAS of a read fails spuriously. -/
def NB_ARSS_2.write_in {T : Type} (f : Fncs T) (s : (Nat → Nat) × NB_ARSS_2 T) (obj : T)
    (ts : Int) : Ret ((Nat → Nat) × NB_ARSS_2 T) Unit T :=
  { state := (fun k => s.1 (k + 1), (NB_ARSS_2.write f s.2 obj ts).state),
    calls := (NB_ARSS_2.write f s.2 obj ts).calls,
    out := (NB_ARSS_2.write f s.2 obj ts).out }

/-- Method `read` of the `NB_ARSS_2` object `s.2`, its CAS loop bounded by
`fuel` iterations and failing spuriously `s.1 0` times. -/
def NB_ARSS_2.read_in {T : Type} (f : Fncs T) (fuel : Nat) (s : (Nat → Nat) × NB_ARSS_2 T)
    (dest : T) : Ret ((Nat → Nat) × NB_ARSS_2 T) (T × Int) T :=
  { state := (fun k => s.1 (k + 1), (NB_ARSS_2.read f fuel (s.1 0) s.2 dest).state),
    calls := (NB_ARSS_2.read f fuel (s.1 0) s.2 dest).calls,
    out := (NB_ARSS_2.read f fuel (s.1 0) s.2 dest).out }

/-- Sequential execution on a `NB_ARSS_2`. -/
def NB_ARSS_2.exec {T : Type} (f : Fncs T) (fuel : Nat) (s : (Nat → Nat) × NB_ARSS_2 T)
    (ops : List (Op T)) : List (Outcome (T × Int)) :=
  ART.exec (NB_ARSS_2.write_in f) (NB_ARSS_2.read_in f fuel) s ops

/-- Sequential execution on a `NB_ARSS_3`. -/
def NB_ARSS_3.exec {T : Type} (f : Fncs T) (s : NB_ARSS_3 T) (ops : List (Op T)) :
    List (Outcome (T × Int)) :=
  ART.exec (NB_ARSS_3.write f) (NB_ARSS_3.read f) s ops

/-- Sequential execution on a `NB_ARSS_4`, each CAS loop bounded by `fuel` iterations. -/
def NB_ARSS_4.exec {T : Type} (f : Fncs T) (fuel : Nat) (s : NB_ARSS_4 T) (ops : List (Op T)) :
    List (Outcome (T × Int)) :=
  ART.exec (NB_ARSS_4.write f) (NB_ARSS_4.read f fuel) s ops

/-- The arguments of the last write of `ops`, if there is one. -/
def last_write {T : Type} : List (Op T) → Option (T × Int)
  | [] => none
  | .write obj ts :: ops => (last_write ops).orElse (fun _ => some (obj, ts))
  | .read _ :: ops => last_write ops

/-! ## Abstraction and invariants used in the proofs -/

/-- States reached from `s₀` by finitely many calls of the write method `wr`
and of the read methods `rd i`, one at a time, whatever their arguments and
however each call ended. -/
inductive Reach {σ T ι : Type} (wr : σ → T → Int → Ret σ Unit T)
    (rd : ι → σ → T → Ret σ (T × Int) T) (s₀ : σ) : σ → Prop where
  | init : Reach wr rd s₀ s₀
  | write (s : σ) (obj : T) (ts : Int) : Reach wr rd s₀ s → Reach wr rd s₀ (wr s obj ts).state
  | read (i : ι) (s : σ) (dest : T) : Reach wr rd s₀ s → Reach wr rd s₀ (rd i s dest).state

/-- Sequentially reachable states of a `B_AR_1` constructed with `nvi`. -/
def B_AR_1.Reachable {T : Type} (f : Fncs T) (nvi : T) (s : B_AR_1 T) : Prop :=
  Reach (B_AR_1.write f) (fun (_ : Unit) => B_AR_1.read f) (B_AR_1.init nvi) s

/-- Sequentially reachable states of a process with one `NB_ARSS_1`
constructed with `nvi`: the static `next_write` and the object. -/
def NB_ARSS_1.Reachable {T : Type} (f : Fncs T) (nvi : T) (s : Nat × NB_ARSS_1 T) : Prop :=
  Reach (NB_ARSS_1.write_in f) (fun (_ : Unit) => NB_ARSS_1.read_in f)
    (NB_ARSS_1.next_write_init, NB_ARSS_1.init nvi) s

/-- Sequentially reachable states of a `NB_ARSS_2` constructed with `nvi`; a
read is indexed by its iteration bound and its number of spurious failures. -/
def NB_ARSS_2.Reachable {T : Type} (f : Fncs T) (nvi : T) (s : NB_ARSS_2 T) : Prop :=
  Reach (NB_ARSS_2.write f) (fun (i : Nat × Nat) => NB_ARSS_2.read f i.1 i.2)
    (NB_ARSS_2.init nvi) s

/-- Sequentially reachable states of a `NB_ARSS_3` constructed with `nvi`. -/
def NB_ARSS_3.Reachable {T : Type} (f : Fncs T) (nvi : T) (s : NB_ARSS_3 T) : Prop :=
  Reach (NB_ARSS_3.write f) (fun (_ : Unit) => NB_ARSS_3.read f) (NB_ARSS_3.init nvi) s

/-- Sequentially reachable states of a `NB_ARSS_4` constructed with `nvi`; a
read is indexed by its iteration bound. -/
def NB_ARSS_4.Reachable {T : Type} (f : Fncs T) (nvi : T) (s : NB_ARSS_4 T) : Prop :=
  Reach (NB_ARSS_4.write f) (fun (fuel : Nat) => NB_ARSS_4.read f fuel) (NB_ARSS_4.init nvi) s

/-- Control state of a `NB_ARSS_1` within its ranges. -/
def NB_ARSS_1.Valid {T : Type} (s : Nat × NB_ARSS_1 T) : Prop :=
  s.1 < 4 ∧ s.2.m_next_read < 8

/-- Control state of a `NB_ARSS_2` within its range. -/
def NB_ARSS_2.Valid {T : Type} (s : NB_ARSS_2 T) : Prop :=
  s.m_status < 16

/-- Control state of a `NB_ARSS_3` within its ranges. -/
def NB_ARSS_3.Valid {T : Type} (s : NB_ARSS_3 T) : Prop :=
  s.m_reading < 4 ∧ s.m_latest < 3

/-- Control state of a `NB_ARSS_4` within its ranges: both fields of the
status and the write slot are below 3. -/
def NB_ARSS_4.Valid {T : Type} (s : NB_ARSS_4 T) : Prop :=
  s.m_status < 12 ∧ s.m_status % 4 < 3 ∧ s.m_write_slot < 3

/-- Under `I s c` the methods `wr` and `rd` act on the state `s` as writes and
reads of a single cell holding `c`, for callbacks `copy` and `get` that return. -/
structure ActsAsCell {σ T : Type} (wr : σ → T → Int → Ret σ Unit T)
    (rd : σ → T → Ret σ (T × Int) T) (copy : T → T) (get : T → T → T)
    (I : σ → ARContent T → Prop) : Prop where
  write : ∀ s c obj ts, I s c →
    (wr s obj ts).out = .returned () ∧ I (wr s obj ts).state { obj := copy obj, ts := ts }
  read : ∀ s c dest, I s c →
    (rd s dest).out = .returned (get c.obj dest, c.ts) ∧ I (rd s dest).state c

/-- The cell after the writes of `ops`, starting from the cell `c`. -/
def cell_after {T : Type} (copy : T → T) (c : ARContent T) (ops : List (Op T)) : ARContent T :=
  match last_write ops with
  | none => c
  | some (obj, ts) => { obj := copy obj, ts := ts }

/-- What a sequentially used `NB_ARSS_4` stands for: the slot named by the
upper field of the status. -/
def NB_ARSS_4.Cell {T : Type} (s : NB_ARSS_4 T) (c : ARContent T) : Prop :=
  NB_ARSS_4.Valid s ∧ s.m_buffer (s.m_status / 4) = c

/-- What a sequentially used `NB_ARSS_1` stands for: the slot named by the two
low bits of the control word. -/
def NB_ARSS_1.Cell {T : Type} (s : Nat × NB_ARSS_1 T) (c : ARContent T) : Prop :=
  NB_ARSS_1.Valid s ∧ s.2.m_buffer (s.2.m_next_read % 4) = c

/-- What a sequentially used `NB_ARSS_2` stands for: the slot named by the
upper field of the status; every read has more fuel than spurious failures. -/
def NB_ARSS_2.Cell {T : Type} (fuel : Nat) (s : (Nat → Nat) × NB_ARSS_2 T)
    (c : ARContent T) : Prop :=
  (∀ k, s.1 k < fuel) ∧ NB_ARSS_2.Valid s.2 ∧ s.2.m_buffer (s.2.m_status / 4) = c

/-- What a sequentially used `NB_ARSS_3` stands for: the slot named by `m_latest`. -/
def NB_ARSS_3.Cell {T : Type} (s : NB_ARSS_3 T) (c : ARContent T) : Prop :=
  NB_ARSS_3.Valid s ∧ s.m_buffer s.m_latest = c

/-- The slot `NB_ARSS_4::write` selects in state `s`: the successor modulo 3 of
the last write slot, advanced once more if it is the lower field of the status. -/
def NB_ARSS_4.slot_for {T : Type} (s : NB_ARSS_4 T) : Nat :=
  if (s.m_write_slot + 1) % 3 = s.m_status % 4 then (s.m_write_slot + 2) % 3
  else (s.m_write_slot + 1) % 3

/-- The slot `NB_ARSS_1::write` selects when the static `next_write` is `n` and
the control word `m`: `n`, or with the reader active the slot of the half of
`n` whose low bit differs from the low bit of `m`. -/
def NB_ARSS_1.slot_for (n m : Nat) : Nat :=
  if 4 ≤ m then 2 * (n / 2 % 2) + (1 - m % 2) else n

/-- The slot `NB_ARSS_3::write` selects in state `s`: the entry of `next` for
`m_reading` and `m_latest` (0 outside the table). -/
def NB_ARSS_3.slot_for {T : Type} (s : NB_ARSS_3 T) : Nat :=
  (NB_ARSS_3.next_at s.m_reading s.m_latest).getD 0

/-- The control word a `NB_ARSS_2::read` installs over `m`: bits 1 to 3 kept,
bit 0 the complement of bit 2. -/
def NB_ARSS_2.claimed (m : Nat) : Nat :=
  m - m % 2 + (1 - m / 4 % 2)

/-- A `NB_ARSS_4` of integers after write (10,1), read, write (20,2), read,
write (30,3), with the default callbacks: slots 0, 1, 2 hold 30, 10, 20, the
status is `(latest = 0, last_read = 2)` and the write slot is 0. -/
def NB_ARSS_4.after_three_writes : NB_ARSS_4 Int :=
  (NB_ARSS_4.write Fncs.dflt
    (NB_ARSS_4.read Fncs.dflt 1
      (NB_ARSS_4.write Fncs.dflt
        (NB_ARSS_4.read Fncs.dflt 1
          (NB_ARSS_4.write Fncs.dflt (NB_ARSS_4.init (-1)) 10 1).state 0).state 20 2).state
      0).state 30 3).state

/-! ## One writer thread and one reader thread

The transition systems below run the methods of one writer and one reader
on one register.  A step is one access to an atomic variable (together with
the thread-local computation that follows it) or one access to a buffer
cell: the call of `free`, the store of the copy, the store of the timestamp,
the call of `get`, the load of the timestamp.  In the systems of `NB_ARSS_1`,
`NB_ARSS_2` and `NB_ARSS_3` the callbacks return; the system of `NB_ARSS_4`
also has the steps by which an exception of a callback leaves `write` or
`read`. -/

/-- What the scheduler lets happen next: the writer enters `write(obj, ts)`,
the writer makes its next step, the reader enters `read` with `dest` in
`*obj`, the reader makes its next step, or the reader's weak CAS fails
spuriously. -/
inductive Act (T : Type) where
  | write (obj : T) (ts : Int)
  | writer
  | read (dest : T)
  | reader
  | reader_spurious

namespace NB_ARSS_4

/-- Where the writer stands in `NB_ARSS_4::write`: outside, or about to call
`free`, to store the copy, to store the timestamp, to do its first CAS, to do
its second CAS. -/
inductive WPc where
  | idle | free | copy | ts | cas1 | cas2
  deriving DecidableEq, Repr

/-- Where the reader stands in `NB_ARSS_4::read`: outside, about to do a CAS
of its loop, about to call `get`, about to load the timestamp. -/
inductive RPc where
  | idle | cas | get | ts
  deriving DecidableEq, Repr

/-- A `NB_ARSS_4` shared by a writer and a reader, with the locals of both
methods, the contents of the reader's `*obj` and `*ts`, and two records kept
for the statements only: the arguments of the writes entered so far and the
results of the reads completed so far (latest first). -/
structure Sys (T : Type) where
  m_buffer : Nat → ARContent T
  m_status : Nat
  m_write_slot : Nat
  wpc : WPc
  w_obj : T
  w_ts : Int
  w_local_status : Nat
  rpc : RPc
  r_local_status : Nat
  r_read_slot : Nat
  r_obj : T
  r_ts : Int
  w_log : List (T × Int)
  r_log : List (T × Int)

/-- The register just constructed, both threads outside their methods. -/
def Sys.init {T : Type} (no_value_indicator : T) : Sys T where
  m_buffer := fun _ => { obj := no_value_indicator, ts := NO_VALUE_TS }
  m_status := 0
  m_write_slot := 0
  wpc := .idle
  w_obj := no_value_indicator
  w_ts := NO_VALUE_TS
  w_local_status := 0
  rpc := .idle
  r_local_status := 0
  r_read_slot := 0
  r_obj := no_value_indicator
  r_ts := NO_VALUE_TS
  w_log := []
  r_log := []

/-- One step of the system; `none` when the scheduled thread cannot make it.
When `free` or `copy` throws, the exception leaves `write` (with `m_write_slot`
already advanced); when `get` throws, it leaves `read`. -/
def Sys.step {T : Type} (f : Fncs T) : Act T → Sys T → Option (Sys T)
  | .write obj ts, s =>
    match s.wpc with
    | .idle =>
      let local_status := s.m_status
      let w := u8 ((s.m_write_slot + 1) % 3)
      let w := if w = local_status &&& 0x3 then u8 ((w + 1) % 3) else w
      some { s with wpc := .free, w_obj := obj, w_ts := ts, w_local_status := local_status,
                    m_write_slot := w, w_log := (obj, ts) :: s.w_log }
    | _ => none
  | .writer, s =>
    match s.wpc with
    | .idle => none
    | .free =>
      match f.free_fnc (s.m_buffer s.m_write_slot).obj with
      | none => some { s with wpc := .idle }
      | some _ => some { s with wpc := .copy }
    | .copy =>
      match f.copy_fnc s.w_obj with
      | none => some { s with wpc := .idle }
      | some c => some { s with wpc := .ts, m_buffer := setObj s.m_buffer s.m_write_slot c }
    | .ts => some { s with wpc := .cas1, m_buffer := setTs s.m_buffer s.m_write_slot s.w_ts }
    | .cas1 =>
      match compare_exchange_strong s.m_status s.w_local_status
          (u8 ((s.m_write_slot <<< 2) ||| (s.w_local_status &&& 0x3))) with
      | (true, m, _) => some { s with wpc := .idle, m_status := m }
      | (false, m, l) => some { s with wpc := .cas2, m_status := m, w_local_status := l }
    | .cas2 =>
      match compare_exchange_strong s.m_status s.w_local_status
          (u8 ((s.m_write_slot <<< 2) ||| (s.w_local_status &&& 0x3))) with
      | (_, m, l) => some { s with wpc := .idle, m_status := m, w_local_status := l }
  | .read dest, s =>
    match s.rpc with
    | .idle => some { s with rpc := .cas, r_obj := dest, r_local_status := s.m_status }
    | _ => none
  | .reader, s =>
    match s.rpc with
    | .idle => none
    | .cas =>
      match compare_exchange_strong s.m_status s.r_local_status
          (u8 ((s.r_local_status &&& 0xC) ||| (s.r_local_status >>> 2))) with
      | (true, m, l) =>
        some { s with rpc := .get, m_status := m, r_local_status := l, r_read_slot := u8 (l >>> 2) }
      | (false, m, l) => some { s with m_status := m, r_local_status := l }
    | .get =>
      match f.get_fnc (s.m_buffer s.r_read_slot).obj s.r_obj with
      | none => some { s with rpc := .idle }
      | some o => some { s with rpc := .ts, r_obj := o }
    | .ts =>
      some { s with rpc := .idle, r_ts := (s.m_buffer s.r_read_slot).ts,
                    r_log := (s.r_obj, (s.m_buffer s.r_read_slot).ts) :: s.r_log }
  | .reader_spurious, _ => none

/-- States the system reaches from the fresh register under some schedule. -/
inductive Sys.Reachable {T : Type} (f : Fncs T) (nvi : T) : Sys T → Prop where
  | init : Sys.Reachable f nvi (Sys.init nvi)
  | step (a : Act T) (s s' : Sys T) :
      Sys.Reachable f nvi s → Sys.step f a s = some s' → Sys.Reachable f nvi s'

/-- The state after the schedule `acts`, if every action of it can be made. -/
def Sys.run {T : Type} (f : Fncs T) : List (Act T) → Sys T → Option (Sys T)
  | [], s => some s
  | a :: acts, s =>
    match Sys.step f a s with
    | none => none
    | some s' => Sys.run f acts s'

/-- A state in which the writer, in its first write (42,1), is about to call
`free` while the reader has done its CAS and is about to call `get`. -/
def Sys.demo : Sys Int :=
  (Sys.run Fncs.dflt [.write 42 1, .read 0, .reader] (Sys.init (-1))).getD (Sys.init (-1))

/-- The writer is freeing or overwriting its slot. -/
def Sys.writing {T : Type} (s : Sys T) : Prop :=
  s.wpc = .free ∨ s.wpc = .copy ∨ s.wpc = .ts

/-- The reader has selected its slot and not yet returned. -/
def Sys.reading {T : Type} (s : Sys T) : Prop :=
  s.rpc = .get ∨ s.rpc = .ts

/-- Inductive invariant of the control state, whatever the callbacks do: the
status and the write slot stay in their ranges, the status changes under a
write in progress only by the reader's CAS, which makes its two fields equal,
and a read in progress is on the slot named by the lower field. -/
def Sys.Ctl {T : Type} (s : Sys T) : Prop :=
  s.m_status < 12 ∧ s.m_status % 4 < 3 ∧ s.m_write_slot < 3
  ∧ ((s.wpc = .free ∨ s.wpc = .copy ∨ s.wpc = .ts ∨ s.wpc = .cas1) →
      s.w_local_status / 4 = s.m_status / 4
      ∧ (s.m_status = s.w_local_status ∨ s.m_status % 4 = s.m_status / 4))
  ∧ (s.wpc = .cas2 → s.w_local_status = s.m_status ∧ s.m_status % 4 = s.m_status / 4)
  ∧ ((s.rpc = .get ∨ s.rpc = .ts) → s.r_read_slot = s.m_status % 4)

/-- Inductive invariant of the control state when `free` and `copy` return:
in addition, the write slot is the latest slot between two writes and differs
from it during a write. -/
def Sys.Inv {T : Type} (s : Sys T) : Prop :=
  s.m_status < 12 ∧ s.m_status % 4 < 3 ∧ s.m_write_slot < 3
  ∧ (s.wpc = .idle → s.m_write_slot = s.m_status / 4)
  ∧ (s.wpc ≠ .idle → s.m_write_slot ≠ s.m_status / 4)
  ∧ ((s.wpc = .free ∨ s.wpc = .copy ∨ s.wpc = .ts ∨ s.wpc = .cas1) →
      s.m_write_slot ≠ s.w_local_status % 4 ∧ s.w_local_status / 4 = s.m_status / 4
      ∧ (s.m_status = s.w_local_status ∨ s.m_status % 4 = s.m_status / 4))
  ∧ (s.wpc = .cas2 → s.w_local_status = s.m_status ∧ s.m_status % 4 = s.m_status / 4)
  ∧ ((s.rpc = .get ∨ s.rpc = .ts) → s.r_read_slot = s.m_status % 4)

end NB_ARSS_4

namespace NB_ARSS_1

/-- Where the writer stands in `NB_ARSS_1::write`: outside, or about to call
`free`, to store the copy, to store the timestamp, to do its first CAS, to do
its second CAS. -/
inductive WPc where
  | idle | free | copy | ts | cas1 | cas2
  deriving DecidableEq, Repr

/-- Where the reader stands in `NB_ARSS_1::read`: outside, about to call
`get`, about to load the timestamp. -/
inductive RPc where
  | idle | get | ts
  deriving DecidableEq, Repr

/-- One `NB_ARSS_1` shared by a writer and a reader, with the static
`next_write` of `write`, the locals of both methods, the contents of the
reader's `*obj` and `*ts`, and the records of the writes entered and of the
reads completed (latest first). -/
structure Sys (T : Type) where
  m_buffer : Nat → ARContent T
  m_next_read : Nat
  next_write : Nat
  wpc : WPc
  w_obj : T
  w_ts : Int
  w_local_next_read : Nat
  w_write_slot : Nat
  rpc : RPc
  r_read_slot : Nat
  r_obj : T
  r_ts : Int
  w_log : List (T × Int)
  r_log : List (T × Int)

/-- The register just constructed in a fresh process, both threads outside
their methods. -/
def Sys.init {T : Type} (no_value_indicator : T) : Sys T where
  m_buffer := fun _ => { obj := no_value_indicator, ts := NO_VALUE_TS }
  m_next_read := 0
  next_write := 1
  wpc := .idle
  w_obj := no_value_indicator
  w_ts := NO_VALUE_TS
  w_local_next_read := 0
  w_write_slot := 0
  rpc := .idle
  r_read_slot := 0
  r_obj := no_value_indicator
  r_ts := NO_VALUE_TS
  w_log := []
  r_log := []

/-- One step of the system; `none` when the scheduled thread cannot make it. -/
def Sys.step {T : Type} (copy : T → T) (get : T → T → T) : Act T → Sys T → Option (Sys T)
  | .write obj ts, s =>
    match s.wpc with
    | .idle =>
      let local_next_read := s.m_next_read
      let next_write := if local_next_read >>> 2 ≠ 0
        then u8 ((s.next_write &&& 0x2) ||| (bitNot local_next_read &&& 0x1)) else s.next_write
      some { s with wpc := .free, w_obj := obj, w_ts := ts,
                    m_next_read := s.m_next_read &&& 0x3,
                    w_local_next_read := local_next_read, next_write := next_write,
                    w_write_slot := next_write, w_log := (obj, ts) :: s.w_log }
    | _ => none
  | .writer, s =>
    match s.wpc with
    | .idle => none
    | .free => some { s with wpc := .copy }
    | .copy =>
      some { s with wpc := .ts, m_buffer := setObj s.m_buffer s.w_write_slot (copy s.w_obj) }
    | .ts => some { s with wpc := .cas1, m_buffer := setTs s.m_buffer s.w_write_slot s.w_ts }
    | .cas1 =>
      let new_next_read := s.w_write_slot
      let next_write := u8 (s.w_write_slot ^^^ 0x2)
      let local_next_read := u8 (s.w_local_next_read &&& 0x3)
      match compare_exchange_strong s.m_next_read local_next_read new_next_read with
      | (true, m, l) =>
        some { s with wpc := .idle, m_next_read := m, w_local_next_read := l,
                      next_write := next_write }
      | (false, m, l) =>
        some { s with wpc := .cas2, m_next_read := m, w_local_next_read := l,
                      next_write := next_write }
    | .cas2 =>
      let next_write := u8 ((s.next_write &&& 0x2) ||| (bitNot s.w_local_next_read &&& 0x1))
      match compare_exchange_strong s.m_next_read s.w_local_next_read s.w_write_slot with
      | (_, m, l) =>
        some { s with wpc := .idle, m_next_read := m, w_local_next_read := l,
                      next_write := next_write }
  | .read dest, s =>
    match s.rpc with
    | .idle =>
      some { s with rpc := .get, r_obj := dest, r_read_slot := u8 (s.m_next_read &&& 0x3),
                    m_next_read := s.m_next_read ||| 0x4 }
    | _ => none
  | .reader, s =>
    match s.rpc with
    | .idle => none
    | .get => some { s with rpc := .ts, r_obj := get (s.m_buffer s.r_read_slot).obj s.r_obj }
    | .ts =>
      some { s with rpc := .idle, r_ts := (s.m_buffer s.r_read_slot).ts,
                    r_log := (s.r_obj, (s.m_buffer s.r_read_slot).ts) :: s.r_log }
  | .reader_spurious, _ => none

/-- States the system reaches from the fresh register under some schedule. -/
inductive Sys.Reachable {T : Type} (copy : T → T) (get : T → T → T) (nvi : T) : Sys T → Prop where
  | init : Sys.Reachable copy get nvi (Sys.init nvi)
  | step (a : Act T) (s s' : Sys T) :
      Sys.Reachable copy get nvi s → Sys.step copy get a s = some s' →
      Sys.Reachable copy get nvi s'

/-- The state after the schedule `acts`, if every action of it can be made. -/
def Sys.run {T : Type} (copy : T → T) (get : T → T → T) : List (Act T) → Sys T → Option (Sys T)
  | [], s => some s
  | a :: acts, s =>
    match Sys.step copy get a s with
    | none => none
    | some s' => Sys.run copy get acts s'

/-- A state in which the reader is about to call `get` on slot 1, written by
the first write (42,1), while the writer, in its second write (43,2), is
about to call `free`. -/
def Sys.demo : Sys Int :=
  (Sys.run COPY_FNC GET_FNC
    [.write 42 1, .writer, .writer, .writer, .writer, .read 0, .write 43 2]
    (Sys.init (-1))).getD (Sys.init (-1))

/-- The writer is freeing or overwriting its slot. -/
def Sys.writing {T : Type} (s : Sys T) : Prop :=
  s.wpc = .free ∨ s.wpc = .copy ∨ s.wpc = .ts

/-- The reader has obtained its slot from the fetch-or and not yet returned. -/
def Sys.reading {T : Type} (s : Sys T) : Prop :=
  s.rpc = .get ∨ s.rpc = .ts

/-- Inductive invariant of the control state. -/
def Sys.Inv {T : Type} (s : Sys T) : Prop :=
  s.m_next_read < 8 ∧ s.next_write < 4
  ∧ (s.wpc = .idle → s.next_write ≠ s.m_next_read % 4)
  ∧ (s.wpc ≠ .idle → s.w_write_slot < 4 ∧ s.w_write_slot ≠ s.m_next_read % 4)
  ∧ ((s.wpc = .free ∨ s.wpc = .copy ∨ s.wpc = .ts ∨ s.wpc = .cas1) →
      s.w_local_next_read % 4 = s.m_next_read % 4 ∧ s.w_local_next_read < 8)
  ∧ (s.wpc = .cas2 →
      s.w_local_next_read = s.m_next_read ∧ 4 ≤ s.m_next_read
      ∧ s.next_write = (s.w_write_slot + 2) % 4)
  ∧ ((s.rpc = .get ∨ s.rpc = .ts) →
      s.r_read_slot < 4 ∧ (4 ≤ s.m_next_read → s.r_read_slot = s.m_next_read % 4)
      ∧ (s.m_next_read < 4 →
          (s.wpc = .idle → s.next_write % 2 ≠ s.r_read_slot % 2)
          ∧ (s.wpc ≠ .idle → s.w_write_slot % 2 ≠ s.r_read_slot % 2)))

end NB_ARSS_1

namespace NB_ARSS_3

/-- Where the writer stands in `NB_ARSS_3::write`: outside, or about to load
`m_latest`, to call `free`, to store the copy, to store the timestamp, to
store `m_latest`, to do its CAS on `m_reading`. -/
inductive WPc where
  | idle | ld_latest | free | copy | ts | st_latest | cas
  deriving DecidableEq, Repr

/-- Where the reader stands in `NB_ARSS_3::read`: outside, or about to load
`m_latest`, to do its CAS on `m_reading`, to load `m_reading`, to call `get`,
to load the timestamp. -/
inductive RPc where
  | idle | ld_latest | cas | ld_reading | get | ts
  deriving DecidableEq, Repr

/-- A `NB_ARSS_3` shared by a writer and a reader, with the locals of both
methods, the contents of the reader's `*obj` and `*ts`, and the records of
the writes entered and of the reads completed (latest first). -/
structure Sys (T : Type) where
  m_buffer : Nat → ARContent T
  m_reading : Nat
  m_latest : Nat
  wpc : WPc
  w_obj : T
  w_ts : Int
  w_widx1 : Nat
  w_windex : Nat
  rpc : RPc
  r_rindex : Nat
  r_obj : T
  r_ts : Int
  w_log : List (T × Int)
  r_log : List (T × Int)

/-- The register just constructed, both threads outside their methods. -/
def Sys.init {T : Type} (no_value_indicator : T) : Sys T where
  m_buffer := fun _ => { obj := no_value_indicator, ts := NO_VALUE_TS }
  m_reading := 3
  m_latest := 0
  wpc := .idle
  w_obj := no_value_indicator
  w_ts := NO_VALUE_TS
  w_widx1 := 0
  w_windex := 0
  rpc := .idle
  r_rindex := 0
  r_obj := no_value_indicator
  r_ts := NO_VALUE_TS
  w_log := []
  r_log := []

/-- One step of the system; `none` when the scheduled thread cannot make it
(the writer has no step when its table lookup is out of range). -/
def Sys.step {T : Type} (copy : T → T) (get : T → T → T) : Act T → Sys T → Option (Sys T)
  | .write obj ts, s =>
    match s.wpc with
    | .idle =>
      some { s with wpc := .ld_latest, w_obj := obj, w_ts := ts, w_widx1 := s.m_reading,
                    w_log := (obj, ts) :: s.w_log }
    | _ => none
  | .writer, s =>
    match s.wpc with
    | .idle => none
    | .ld_latest =>
      match next_at s.w_widx1 s.m_latest with
      | none => none
      | some n => some { s with wpc := .free, w_windex := u8 n }
    | .free => some { s with wpc := .copy }
    | .copy =>
      some { s with wpc := .ts, m_buffer := setObj s.m_buffer s.w_windex (copy s.w_obj) }
    | .ts => some { s with wpc := .st_latest, m_buffer := setTs s.m_buffer s.w_windex s.w_ts }
    | .st_latest => some { s with wpc := .cas, m_latest := s.w_windex }
    | .cas =>
      some { s with wpc := .idle,
                    m_reading := (compare_exchange_strong s.m_reading 3 s.w_windex).2.1 }
  | .read dest, s =>
    match s.rpc with
    | .idle => some { s with rpc := .ld_latest, r_obj := dest, m_reading := 3 }
    | _ => none
  | .reader, s =>
    match s.rpc with
    | .idle => none
    | .ld_latest => some { s with rpc := .cas, r_rindex := s.m_latest }
    | .cas =>
      some { s with rpc := .ld_reading,
                    m_reading := (compare_exchange_strong s.m_reading 3 s.r_rindex).2.1 }
    | .ld_reading => some { s with rpc := .get, r_rindex := s.m_reading }
    | .get => some { s with rpc := .ts, r_obj := get (s.m_buffer s.r_rindex).obj s.r_obj }
    | .ts =>
      some { s with rpc := .idle, r_ts := (s.m_buffer s.r_rindex).ts,
                    r_log := (s.r_obj, (s.m_buffer s.r_rindex).ts) :: s.r_log }
  | .reader_spurious, _ => none

/-- States the system reaches from the fresh register under some schedule. -/
inductive Sys.Reachable {T : Type} (copy : T → T) (get : T → T → T) (nvi : T) : Sys T → Prop where
  | init : Sys.Reachable copy get nvi (Sys.init nvi)
  | step (a : Act T) (s s' : Sys T) :
      Sys.Reachable copy get nvi s → Sys.step copy get a s = some s' →
      Sys.Reachable copy get nvi s'

/-- The state after the schedule `acts`, if every action of it can be made. -/
def Sys.run {T : Type} (copy : T → T) (get : T → T → T) : List (Act T) → Sys T → Option (Sys T)
  | [], s => some s
  | a :: acts, s =>
    match Sys.step copy get a s with
    | none => none
    | some s' => Sys.run copy get acts s'

/-- The state after a read of the fresh register, the complete write (42,1)
and a second read that overlaps the write (43,2). -/
def Sys.demo : Sys Int :=
  (Sys.run COPY_FNC GET_FNC
    [.read 0, .reader, .reader, .reader, .reader, .reader,
     .write 42 1, .writer, .writer, .writer, .writer, .writer, .writer,
     .read 0, .write 43 2, .reader, .writer, .reader, .writer, .reader, .writer, .reader,
     .writer, .reader]
    (Sys.init (-1))).getD (Sys.init (-1))

/-- The writer is freeing or overwriting its slot. -/
def Sys.writing {T : Type} (s : Sys T) : Prop :=
  s.wpc = .free ∨ s.wpc = .copy ∨ s.wpc = .ts

/-- The reader has loaded its final index and not yet returned. -/
def Sys.reading {T : Type} (s : Sys T) : Prop :=
  s.rpc = .get ∨ s.rpc = .ts

/-- A cell as the constructor or one write leaves it: the no-value indicator
with timestamp -1, or the copy of the object and the timestamp of one and the
same write entered so far. -/
def Good {T : Type} (copy : T → T) (nvi : T) (w_log : List (T × Int)) (c : ARContent T) : Prop :=
  c = { obj := nvi, ts := NO_VALUE_TS } ∨ ∃ w ∈ w_log, c = { obj := copy w.1, ts := w.2 }

/-- Inductive invariant: control state and buffer contents. -/
def Sys.Inv {T : Type} (copy : T → T) (get : T → T → T) (nvi : T) (s : Sys T) : Prop :=
  (s.m_reading ≤ 3 ∧ s.m_latest ≤ 2)
  ∧ ((s.rpc = .ld_reading ∨ s.rpc = .get ∨ s.rpc = .ts) → s.m_reading ≠ 3)
  ∧ ((s.rpc = .get ∨ s.rpc = .ts) → s.r_rindex = s.m_reading)
  ∧ (s.rpc = .cas → s.r_rindex ≤ 2
      ∧ (s.m_reading = 3 → s.r_rindex ≠ s.m_latest → s.wpc = .cas))
  ∧ (s.wpc = .ld_latest → s.w_widx1 ≤ 3
      ∧ (s.w_widx1 = s.m_reading ∨ s.m_reading = 3 ∨ s.m_reading = s.m_latest))
  ∧ ((s.wpc = .free ∨ s.wpc = .copy ∨ s.wpc = .ts ∨ s.wpc = .st_latest) →
      s.w_windex ≤ 2 ∧ s.w_windex ≠ s.m_latest ∧ s.w_windex ≠ s.m_reading)
  ∧ (s.wpc = .cas → s.w_windex = s.m_latest)
  ∧ (s.wpc ≠ .idle → (s.w_obj, s.w_ts) ∈ s.w_log)
  ∧ (∀ i, (s.wpc = .ts → i ≠ s.w_windex) → Good copy nvi s.w_log (s.m_buffer i))
  ∧ (s.wpc = .ts → (s.m_buffer s.w_windex).obj = copy s.w_obj)
  ∧ (s.rpc = .ts →
      ∃ c d, Good copy nvi s.w_log c ∧ s.r_obj = get c.obj d ∧ s.m_buffer s.r_rindex = c)
  ∧ (∀ p ∈ s.r_log, ∃ c d, Good copy nvi s.w_log c ∧ p = (get c.obj d, c.ts))

end NB_ARSS_3

namespace NB_ARSS_2

/-- Where the writer stands in `NB_ARSS_2::write`: outside, or about to call
`free`, to store the copy, to store the timestamp, to do its CAS, to do the
plain store that follows a failed CAS. -/
inductive WPc where
  | idle | free | copy | ts | cas | store
  deriving DecidableEq, Repr

/-- Where the reader stands in `NB_ARSS_2::read`: outside, about to do a CAS
of its loop, about to call `get`, about to load the timestamp. -/
inductive RPc where
  | idle | cas | get | ts
  deriving DecidableEq, Repr

/-- One `NB_ARSS_2` shared by a writer and a reader, with the locals of both
methods, the contents of the reader's `*obj` and `*ts`, and the records of the
writes entered and of the reads completed (latest first). -/
structure Sys (T : Type) where
  m_buffer : Nat → ARContent T
  m_status : Nat
  wpc : WPc
  w_obj : T
  w_ts : Int
  w_local_status : Nat
  w_write_slot : Nat
  rpc : RPc
  r_local_status : Nat
  r_read_slot : Nat
  r_obj : T
  r_ts : Int
  w_log : List (T × Int)
  r_log : List (T × Int)

/-- The register just constructed, both threads outside their methods. -/
def Sys.init {T : Type} (no_value_indicator : T) : Sys T where
  m_buffer := fun _ => { obj := no_value_indicator, ts := NO_VALUE_TS }
  m_status := 1
  wpc := .idle
  w_obj := no_value_indicator
  w_ts := NO_VALUE_TS
  w_local_status := 0
  w_write_slot := 0
  rpc := .idle
  r_local_status := 0
  r_read_slot := 0
  r_obj := no_value_indicator
  r_ts := NO_VALUE_TS
  w_log := []
  r_log := []

/-- One step of the system; `none` when the scheduled thread cannot make it.
Entering `write` includes the load of `m_status`, entering `read` likewise;
every later step has at most one access to `m_status` or to a slot field. -/
def Sys.step {T : Type} (copy : T → T) (get : T → T → T) : Act T → Sys T → Option (Sys T)
  | .write obj ts, s =>
    match s.wpc with
    | .idle =>
      let local_status := s.m_status
      some { s with wpc := .free, w_obj := obj, w_ts := ts, w_local_status := local_status,
                    w_write_slot := u8 (local_status &&& 0x3), w_log := (obj, ts) :: s.w_log }
    | _ => none
  | .writer, s =>
    match s.wpc with
    | .idle => none
    | .free => some { s with wpc := .copy }
    | .copy =>
      some { s with wpc := .ts, m_buffer := setObj s.m_buffer s.w_write_slot (copy s.w_obj) }
    | .ts => some { s with wpc := .cas, m_buffer := setTs s.m_buffer s.w_write_slot s.w_ts }
    | .cas =>
      match compare_exchange_strong s.m_status s.w_local_status
          (u8 ((s.w_write_slot <<< 2) ||| (s.w_write_slot ^^^ 0x2))) with
      | (true, m, _) => some { s with wpc := .idle, m_status := m }
      | (false, m, l) => some { s with wpc := .store, m_status := m, w_local_status := l }
    | .store =>
      some { s with wpc := .idle,
                    m_status := u8 ((s.w_write_slot <<< 2) ||| (s.w_local_status &&& 0x3)) }
  | .read dest, s =>
    match s.rpc with
    | .idle => some { s with rpc := .cas, r_obj := dest, r_local_status := s.m_status }
    | _ => none
  | .reader, s =>
    match s.rpc with
    | .idle => none
    | .cas =>
      match compare_exchange_weak false s.m_status s.r_local_status
          (u8 ((s.r_local_status &&& 0xE) ||| ((bitNot s.r_local_status >>> 2) &&& 0x1))) with
      | (true, m, l) =>
        some { s with rpc := .get, m_status := m, r_local_status := l, r_read_slot := u8 (l >>> 2) }
      | (false, m, l) => some { s with m_status := m, r_local_status := l }
    | .get => some { s with rpc := .ts, r_obj := get (s.m_buffer s.r_read_slot).obj s.r_obj }
    | .ts =>
      some { s with rpc := .idle, r_ts := (s.m_buffer s.r_read_slot).ts,
                    r_log := (s.r_obj, (s.m_buffer s.r_read_slot).ts) :: s.r_log }
  | .reader_spurious, s =>
    match s.rpc with
    | .cas =>
      match compare_exchange_weak true s.m_status s.r_local_status
          (u8 ((s.r_local_status &&& 0xE) ||| ((bitNot s.r_local_status >>> 2) &&& 0x1))) with
      | (true, m, l) =>
        some { s with rpc := .get, m_status := m, r_local_status := l, r_read_slot := u8 (l >>> 2) }
      | (false, m, l) => some { s with m_status := m, r_local_status := l }
    | _ => none

/-- States the system reaches from the fresh register under some schedule. -/
inductive Sys.Reachable {T : Type} (copy : T → T) (get : T → T → T) (nvi : T) : Sys T → Prop where
  | init : Sys.Reachable copy get nvi (Sys.init nvi)
  | step (a : Act T) (s s' : Sys T) :
      Sys.Reachable copy get nvi s → Sys.step copy get a s = some s' →
      Sys.Reachable copy get nvi s'

/-- The state after the schedule `acts`, if every action of it can be made. -/
def Sys.run {T : Type} (copy : T → T) (get : T → T → T) : List (Act T) → Sys T → Option (Sys T)
  | [], s => some s
  | a :: acts, s =>
    match Sys.step copy get a s with
    | none => none
    | some s' => Sys.run copy get acts s'

/-- The timestamps of a record (latest first) are strictly increasing in time. -/
def increasing {T : Type} (log : List (T × Int)) : Prop :=
  log.Pairwise (fun a b => b.2 < a.2)

/-- The timestamps of a record (latest first) are non-decreasing in time. -/
def non_decreasing {T : Type} (log : List (T × Int)) : Prop :=
  log.Pairwise (fun a b => b.2 ≤ a.2)

instance {T : Type} (log : List (T × Int)) : Decidable (increasing log) := by
  unfold increasing; infer_instance

instance {T : Type} (log : List (T × Int)) : Decidable (non_decreasing log) := by
  unfold non_decreasing; infer_instance

/-- A read of the fresh register, then the write (7,-5), then a second read. -/
def Sys.below : Sys Int :=
  (Sys.run COPY_FNC GET_FNC
    [.read 0, .reader, .reader, .reader,
     .write 7 (-5), .writer, .writer, .writer, .writer,
     .read 0, .reader, .reader, .reader] (Sys.init (-1))).getD (Sys.init (-1))

/-- Three reads around the writes (42,1) and (43,2): the first of the fresh
register, the second meeting a spurious CAS failure, then a CAS failure caused
by the first write, and overlapping the second write, the third afterwards. -/
def Sys.demo : Sys Int :=
  (Sys.run COPY_FNC GET_FNC
    [.read 0, .reader, .reader, .reader,
     .write 42 1, .writer, .writer, .writer, .read 0, .reader_spurious, .writer, .reader,
     .reader, .write 43 2, .reader, .writer, .writer, .reader, .writer, .writer,
     .read 0, .reader, .reader, .reader] (Sys.init (-1))).getD (Sys.init (-1))

/-- The writer is freeing or overwriting its slot. -/
def Sys.writing {T : Type} (s : Sys T) : Prop :=
  s.wpc = .free ∨ s.wpc = .copy ∨ s.wpc = .ts

/-- The reader has selected its slot and not yet returned. -/
def Sys.reading {T : Type} (s : Sys T) : Prop :=
  s.rpc = .get ∨ s.rpc = .ts

/-- Inductive invariant of the control state: the slot of the next write is
never the latest one, the writer's slot is neither the latest one nor the one
being read, and after the reader's CAS the next-write index differs in its
low bit from the slot being read. -/
def Sys.Ctl {T : Type} (s : Sys T) : Prop :=
  (s.m_status < 16 ∧ s.m_status / 4 ≠ s.m_status % 4)
  ∧ ((s.wpc = .free ∨ s.wpc = .copy ∨ s.wpc = .ts ∨ s.wpc = .cas) →
      s.w_local_status < 16 ∧ s.w_write_slot = s.w_local_status % 4
      ∧ s.w_local_status / 4 = s.m_status / 4 ∧ s.w_write_slot ≠ s.m_status / 4
      ∧ (s.m_status = s.w_local_status ∨ s.m_status % 2 ≠ s.m_status / 4 % 2))
  ∧ (s.wpc = .store →
      s.w_local_status = s.m_status ∧ s.w_write_slot < 4 ∧ s.w_write_slot ≠ s.m_status % 4
      ∧ s.w_write_slot ≠ s.m_status / 4 ∧ s.m_status % 2 ≠ s.m_status / 4 % 2)
  ∧ ((s.rpc = .get ∨ s.rpc = .ts) →
      s.r_read_slot < 4 ∧ s.m_status % 2 ≠ s.r_read_slot % 2
      ∧ (s.wpc ≠ .idle → s.r_read_slot ≠ s.w_write_slot))

/-- Invariant of the timestamps, with `M` the timestamp of the latest slot:
`M` is -1 or the timestamp of a write entered, the write in progress has a
timestamp not below `M`, every read completed returned at most `M`, the slot
being read holds at most `M` and at least what the reads before returned, and
the reads completed are non-decreasing. -/
def Sys.Dat {T : Type} (s : Sys T) : Prop :=
  (s.wpc = .idle →
      (s.m_buffer (s.m_status / 4)).ts = NO_VALUE_TS
      ∨ ∃ w ∈ s.w_log, w.2 = (s.m_buffer (s.m_status / 4)).ts)
  ∧ (s.wpc ≠ .idle →
      (s.m_buffer (s.m_status / 4)).ts ≤ s.w_ts ∧ (s.w_obj, s.w_ts) ∈ s.w_log)
  ∧ ((s.wpc = .cas ∨ s.wpc = .store) → (s.m_buffer s.w_write_slot).ts = s.w_ts)
  ∧ (∀ p ∈ s.r_log, p.2 ≤ (s.m_buffer (s.m_status / 4)).ts)
  ∧ ((s.rpc = .get ∨ s.rpc = .ts) →
      (s.m_buffer s.r_read_slot).ts ≤ (s.m_buffer (s.m_status / 4)).ts
      ∧ ∀ p ∈ s.r_log, p.2 ≤ (s.m_buffer s.r_read_slot).ts)
  ∧ non_decreasing s.r_log

/-- The two invariants together; the second under the assumption that the
writer's timestamps so far are strictly increasing and none is below -1. -/
def Sys.Inv {T : Type} (s : Sys T) : Prop :=
  s.Ctl ∧ (increasing s.w_log → (∀ w ∈ s.w_log, NO_VALUE_TS ≤ w.2) → s.Dat)

end NB_ARSS_2

/-- Integer callbacks whose `free` always throws; `copy` and `get` are the defaults. -/
def Fncs.free_throws : Fncs Int where
  copy_fnc := fun obj => some (COPY_FNC obj)
  get_fnc := fun source dest => some (GET_FNC source dest)
  free_fnc := fun _ => none

/-- A `NB_ARSS_1` and a `NB_ARSS_2` of integers, each after the single write
(10,1) with the default callbacks: slot 1 holds the copy of 10. -/
def NB_ARSS_1.written_once : NB_ARSS_1 Int :=
  (NB_ARSS_1.write Fncs.dflt NB_ARSS_1.next_write_init (NB_ARSS_1.init (-1)) 10 1).state.2

/-- The `NB_ARSS_2` counterpart of `NB_ARSS_1.written_once`. -/
def NB_ARSS_2.written_once : NB_ARSS_2 Int :=
  (NB_ARSS_2.write Fncs.dflt (NB_ARSS_2.init (-1)) 10 1).state

/-- Two `NB_ARSS_1<int>` objects `a` and `b` in one process: the call
`a.write(10, 1)` made first, on the fresh static `next_write`. -/
def NB_ARSS_1.on_a : Ret (Nat × NB_ARSS_1 Int) Unit Int :=
  NB_ARSS_1.write Fncs.dflt NB_ARSS_1.next_write_init (NB_ARSS_1.init (-1)) 10 1

/-- The call `b.write(20, 2)` made next, on the static `next_write` that
`a.write(10, 1)` left. -/
def NB_ARSS_1.then_on_b : Ret (Nat × NB_ARSS_1 Int) Unit Int :=
  NB_ARSS_1.write Fncs.dflt NB_ARSS_1.on_a.state.1 (NB_ARSS_1.init (-1)) 20 2

/-- The call `a.write(11, 3)` made after these two, on the static `next_write`
that `b.write(20, 2)` left. -/
def NB_ARSS_1.again_on_a : Ret (Nat × NB_ARSS_1 Int) Unit Int :=
  NB_ARSS_1.write Fncs.dflt NB_ARSS_1.then_on_b.state.1 NB_ARSS_1.on_a.state.2 11 3

/-- The outcome of a method with its result passed through `g`. -/
def Outcome.map {α β : Type} (g : α → β) : Outcome α → Outcome β
  | .returned a => .returned (g a)
  | .threw => .threw
  | .blocked => .blocked
  | .ub => .ub
  | .fuel => .fuel

/-- The CAS loop of the two `read` methods of `NB_ARSS_4` while the writer may
store to `m_status` between two attempts: the attempt number `k` finds the
value `seen k` in `m_status`.  The result is the new `m_status`, the final
`local_status` and the final `*nretry`. -/
def NB_ARSS_4.read_loop_seen (seen : Nat → Nat) : Nat → Nat → Nat → Nat → Option (Nat × Nat × Nat)
  | 0, _, _, _ => none
  | fuel + 1, k, local_status, nretry =>
    match compare_exchange_strong (seen k) local_status
        (u8 ((local_status &&& 0xC) ||| (local_status >>> 2))) with
    | (true, m, l) => some (m, l, nretry)
    | (false, _, l) => NB_ARSS_4.read_loop_seen seen fuel (k + 1) l (nretry + 1)

/-- The number of CASes that fail in that loop, from attempt `k` on with
`local_status` as the expected value, within `fuel` attempts. -/
def NB_ARSS_4.failed_cas (seen : Nat → Nat) : Nat → Nat → Nat → Nat
  | 0, _, _ => 0
  | fuel + 1, k, local_status =>
    if (compare_exchange_strong (seen k) local_status
        (u8 ((local_status &&& 0xC) ||| (local_status >>> 2)))).1 then 0
    else 1 + NB_ARSS_4.failed_cas seen fuel (k + 1) (seen k)

/-- A state of the `NB_ARSS_4` system in which the writer, in its second write
(43,2), is about to do its second CAS: its first CAS expected the status 4 and
found 5, installed by the CAS of a read that started after the timestamp was
stored. -/
def NB_ARSS_4.Sys.retry : NB_ARSS_4.Sys Int :=
  (NB_ARSS_4.Sys.run Fncs.dflt
    [.write 42 1, .writer, .writer, .writer, .writer,
     .write 43 2, .writer, .writer, .writer, .read 0, .reader, .writer]
    (NB_ARSS_4.Sys.init (-1))).getD (NB_ARSS_4.Sys.init (-1))

/-- A state of the `NB_ARSS_1` system in which the writer, in its first write
(42,1), is about to do its second CAS: its first CAS expected the control
word 0 and found 4, installed by the fetch-or of a read. -/
def NB_ARSS_1.Sys.retry : NB_ARSS_1.Sys Int :=
  (NB_ARSS_1.Sys.run COPY_FNC GET_FNC
    [.write 42 1, .writer, .writer, .writer, .read 0, .writer]
    (NB_ARSS_1.Sys.init (-1))).getD (NB_ARSS_1.Sys.init (-1))

/-- The `NB_ARSS_1` system after one complete read of the fresh register: the
control word is 4 (reader active on slot 0) and nothing has been written. -/
def NB_ARSS_1.Sys.read_once : NB_ARSS_1.Sys Int :=
  (NB_ARSS_1.Sys.run COPY_FNC GET_FNC [.read 0, .reader, .reader]
    (NB_ARSS_1.Sys.init (-1))).getD (NB_ARSS_1.Sys.init (-1))

/-- The `NB_ARSS_1` system after the complete write (42,1) and one complete
read: the control word is 5 (reader active on slot 1), `next_write` is 3. -/
def NB_ARSS_1.Sys.written_read : NB_ARSS_1.Sys Int :=
  (NB_ARSS_1.Sys.run COPY_FNC GET_FNC
    [.write 42 1, .writer, .writer, .writer, .writer, .read 0, .reader, .reader]
    (NB_ARSS_1.Sys.init (-1))).getD (NB_ARSS_1.Sys.init (-1))

/-- Invariant of the pairs {0,1} and {2,3}: as long as no write has been
entered the writer is outside `write`, `next_write` is 1 and the latest slot
is 0; once a write has been entered, whenever the writer is outside `write`
(so that a write has completed) `next_write` lies in the pair that does not
contain the latest slot. -/
def NB_ARSS_1.Sys.Paired {T : Type} (s : NB_ARSS_1.Sys T) : Prop :=
  (s.w_log = [] → s.wpc = .idle ∧ s.next_write = 1 ∧ s.m_next_read % 4 = 0)
  ∧ (s.wpc = .idle → s.w_log ≠ [] → s.next_write / 2 ≠ s.m_next_read % 4 / 2)

/-- A state of the `NB_ARSS_2` system in which the writer, in its first write
(42,1), has chosen slot 1 and is about to store the copy. -/
def NB_ARSS_2.Sys.mid : NB_ARSS_2.Sys Int :=
  (NB_ARSS_2.Sys.run COPY_FNC GET_FNC [.write 42 1, .writer]
    (NB_ARSS_2.Sys.init (-1))).getD (NB_ARSS_2.Sys.init (-1))

/-- A state of the `NB_ARSS_2` system in which the writer, in its second
write (43,2), is about to do the plain store: its CAS expected the status 7
and found 6, installed by the CAS of a read. -/
def NB_ARSS_2.Sys.fallback : NB_ARSS_2.Sys Int :=
  (NB_ARSS_2.Sys.run COPY_FNC GET_FNC
    [.write 42 1, .writer, .writer, .writer, .writer,
     .write 43 2, .writer, .writer, .writer, .read 0, .reader, .writer]
    (NB_ARSS_2.Sys.init (-1))).getD (NB_ARSS_2.Sys.init (-1))

/-- A state of the `NB_ARSS_3` system in which the reader of the fresh
register has done its CAS and is about to load `m_reading` again. -/
def NB_ARSS_3.Sys.after_cas : NB_ARSS_3.Sys Int :=
  (NB_ARSS_3.Sys.run COPY_FNC GET_FNC [.read 0, .reader, .reader]
    (NB_ARSS_3.Sys.init (-1))).getD (NB_ARSS_3.Sys.init (-1))

/-- Integer callbacks whose `copy` throws on a negative object and otherwise
copies; `get` and `free` are the defaults. -/
def Fncs.copy_picky : Fncs Int where
  copy_fnc := fun obj => if obj < 0 then none else some (COPY_FNC obj)
  get_fnc := fun source dest => some (GET_FNC source dest)
  free_fnc := fun obj => some (FREE_FNC obj)

/-- A state of the `NB_ARSS_4` system with the callbacks `Fncs.copy_picky`:
after the complete write (10,1) and the write (-7,2), which the exception of
`copy` left with `m_write_slot` at 2, the writer has entered the write (20,3)
and is about to call `free`, and the reader has done its CAS and is about to
call `get`. -/
def NB_ARSS_4.Sys.clash : NB_ARSS_4.Sys Int :=
  (NB_ARSS_4.Sys.run Fncs.copy_picky
    [.write 10 1, .writer, .writer, .writer, .writer,
     .write (-7) 2, .writer, .writer, .write 20 3, .read 0, .reader]
    (NB_ARSS_4.Sys.init (-1))).getD (NB_ARSS_4.Sys.init (-1))

/-- Two `NB_ARSS_1<int>` objects `a` and `b` in one process: the static
`next_write` and the object `a` after `a.write(10,1)`, `a.read`, `a.write(11,2)`. -/
def NB_ARSS_1.a_written_twice : Nat × NB_ARSS_1 Int :=
  (NB_ARSS_1.write Fncs.dflt NB_ARSS_1.on_a.state.1
    (NB_ARSS_1.read Fncs.dflt NB_ARSS_1.on_a.state.2 0).state 11 2).state

/-- The first write on the fresh register `b`, the call `b.write(20,3)`, made
on the static `next_write` that these calls on `a` left. -/
def NB_ARSS_1.first_on_b : Ret (Nat × NB_ARSS_1 Int) Unit Int :=
  NB_ARSS_1.write Fncs.dflt NB_ARSS_1.a_written_twice.1 (NB_ARSS_1.init (-1)) 20 3

/-! # Theorems -/

/-! ## Masks as arithmetic -/

theorem land_1 (x : Nat) : x &&& 1 = x % 2 := Nat.and_one_is_mod x

theorem land_3 (x : Nat) : x &&& 3 = x % 4 := Nat.and_pow_two_sub_one_eq_mod x 2

theorem land_15 (x : Nat) : x &&& 15 = x % 16 := Nat.and_pow_two_sub_one_eq_mod x 4

theorem land_2 (x : Nat) : x &&& 2 = 2 * (x / 2 % 2) := by
  have h : ∀ y < 4, y &&& 2 = 2 * (y / 2 % 2) := by decide
  have e : x &&& 2 = (x &&& 3) &&& 2 := by rw [Nat.and_assoc]; rfl
  rw [e, land_3, h _ (Nat.mod_lt _ (by norm_num))]
  omega

theorem land_12 (x : Nat) : x &&& 12 = 4 * (x / 4 % 4) := by
  have h : ∀ y < 16, y &&& 12 = 4 * (y / 4 % 4) := by decide
  have e : x &&& 12 = (x &&& 15) &&& 12 := by rw [Nat.and_assoc]; rfl
  rw [e, land_15, h _ (Nat.mod_lt _ (by norm_num))]
  omega

theorem land_14 (x : Nat) : x &&& 14 = 2 * (x / 2 % 8) := by
  have h : ∀ y < 16, y &&& 14 = 2 * (y / 2 % 8) := by decide
  have e : x &&& 14 = (x &&& 15) &&& 14 := by rw [Nat.and_assoc]; rfl
  rw [e, land_15, h _ (Nat.mod_lt _ (by norm_num))]
  omega

set_option maxRecDepth 100000 in
theorem bitNot_mod_two_all : ∀ x < 256, bitNot x % 2 = 1 - x % 2 := by
  unfold bitNot; decide

set_option maxRecDepth 100000 in
theorem bitNot_shr_mod_two_all : ∀ x < 256, (bitNot x >>> 2) % 2 = 1 - x / 4 % 2 := by
  unfold bitNot; decide

theorem bitNot_mod_two (x : Nat) (h : x < 256) : bitNot x % 2 = 1 - x % 2 :=
  bitNot_mod_two_all x h

theorem bitNot_shr_mod_two (x : Nat) (h : x < 256) : (bitNot x >>> 2) % 2 = 1 - x / 4 % 2 :=
  bitNot_shr_mod_two_all x h

theorem setTs_setObj {T : Type} (b : Nat → ARContent T) (i : Nat) (o : T) (ts : Int) :
    setTs (setObj b i o) i ts = Function.update b i { obj := o, ts := ts } := by
  simp [setTs, setObj]

/-! ## The CAS loops terminate when no other thread runs -/

theorem read_loop_self_nb3d (m fuel n : Nat) :
    NB_ARSS_4.read_loop m (fuel + 1) m n = some (u8 ((m &&& 0xC) ||| (m >>> 2)), m, n) := by
  simp [NB_ARSS_4.read_loop, compare_exchange_strong]

theorem read_loop_self_nb4b (m k : Nat) : ∀ spur : Nat,
    NB_ARSS_2.read_loop m (spur + k + 1) spur m
      = some (u8 ((m &&& 0xE) ||| ((bitNot m >>> 2) &&& 0x1)), m)
  | 0 => by simp [NB_ARSS_2.read_loop, compare_exchange_weak, compare_exchange_strong]
  | spur + 1 => by
    have ih := read_loop_self_nb4b m k spur
    have e : spur + 1 + k + 1 = (spur + k + 1) + 1 := by omega
    rw [e, NB_ARSS_2.read_loop]
    simpa [compare_exchange_weak] using ih

theorem read_loop_nb4b_eq (m : Nat) : ∀ (fuel spur l : Nat) (r : Nat × Nat),
    NB_ARSS_2.read_loop m fuel spur l = some r →
      r = (u8 ((m &&& 0xE) ||| ((bitNot m >>> 2) &&& 0x1)), m)
  | 0, _, _, _ => by simp [NB_ARSS_2.read_loop]
  | fuel + 1, spur, l, r => by
    have ih := read_loop_nb4b_eq m fuel (spur - 1)
    rw [NB_ARSS_2.read_loop]
    simp only [compare_exchange_weak, compare_exchange_strong]
    by_cases hs : 0 < spur
    · simpa [hs] using ih m r
    · by_cases hl : m = l
      · subst hl
        simp only [hs, decide_False, Bool.false_eq_true, if_false, if_true]
        rintro h
        cases h
        rfl
      · simpa [hs, hl] using ih m r

theorem read_loop_nb3d_eq (m : Nat) : ∀ (fuel l n : Nat) (r : Nat × Nat × Nat),
    NB_ARSS_4.read_loop m fuel l n = some r →
      r.1 = u8 ((m &&& 0xC) ||| (m >>> 2)) ∧ r.2.1 = m
  | 0, _, _, _ => by simp [NB_ARSS_4.read_loop]
  | fuel + 1, l, n, r => by
    have ih := read_loop_nb3d_eq m fuel m (n + 1) r
    rw [NB_ARSS_4.read_loop]
    simp only [compare_exchange_strong]
    by_cases hl : m = l
    · subst hl
      simp only [if_true]
      rintro h
      cases h
      exact ⟨rfl, rfl⟩
    · simpa [hl] using ih

theorem claimed_eq : ∀ m < 16,
    u8 ((m &&& 0xE) ||| ((bitNot m >>> 2) &&& 0x1)) = NB_ARSS_2.claimed m := by
  unfold bitNot u8 NB_ARSS_2.claimed; decide

theorem status_after_read_nb3d : ∀ m < 12, u8 ((m &&& 0xC) ||| (m >>> 2)) = 5 * (m / 4) := by
  unfold u8; decide

/-! ## The methods in closed form -/

theorem write_eq_nb3d {T : Type} (f : Fncs T) (s : NB_ARSS_4 T) (obj : T) (ts : Int)
    (hv : NB_ARSS_4.Valid s) :
    NB_ARSS_4.write f s obj ts =
      match f.free_fnc (s.m_buffer s.slot_for).obj with
      | none =>
        { state := { s with m_write_slot := s.slot_for },
          calls := [.free (s.m_buffer s.slot_for).obj], out := .threw }
      | some _ =>
        match f.copy_fnc obj with
        | none =>
          { state := { s with m_write_slot := s.slot_for },
            calls := [.free (s.m_buffer s.slot_for).obj, .copy obj], out := .threw }
        | some c =>
          { state :=
              { m_buffer := Function.update s.m_buffer s.slot_for { obj := c, ts := ts },
                m_status := 4 * s.slot_for + s.m_status % 4,
                m_write_slot := s.slot_for },
            calls := [.free (s.m_buffer s.slot_for).obj, .copy obj], out := .returned () } := by
  obtain ⟨b, m, w⟩ := s
  obtain ⟨h1, h2, h3⟩ := hv
  simp only at h1 h2 h3
  interval_cases m <;> interval_cases w <;>
    simp [NB_ARSS_4.write, NB_ARSS_4.slot_for, compare_exchange_strong, u8, land_3,
      setTs_setObj] at h2 ⊢

theorem read_eq_nb3d {T : Type} (f : Fncs T) (k : Nat) (s : NB_ARSS_4 T) (d : T)
    (hv : NB_ARSS_4.Valid s) :
    NB_ARSS_4.read f (k + 1) s d =
      match f.get_fnc (s.m_buffer (s.m_status / 4)).obj d with
      | none =>
        { state := { s with m_status := 5 * (s.m_status / 4) },
          calls := [.get (s.m_buffer (s.m_status / 4)).obj], out := .threw }
      | some o =>
        { state := { s with m_status := 5 * (s.m_status / 4) },
          calls := [.get (s.m_buffer (s.m_status / 4)).obj],
          out := .returned (o, (s.m_buffer (s.m_status / 4)).ts) } := by
  obtain ⟨b, m, w⟩ := s
  obtain ⟨h1, h2, h3⟩ := hv
  simp only at h1 h2 h3
  have e : u8 (m >>> 2) = m / 4 := by
    rw [Nat.shiftRight_eq_div_pow]; unfold u8; omega
  have hlt : m / 4 < 3 := by omega
  simp only [NB_ARSS_4.read, read_loop_self_nb3d, status_after_read_nb3d m h1, e, hlt, if_true]

theorem read3_eq_nb3d {T : Type} (f : Fncs T) (k : Nat) (s : NB_ARSS_4 T) (d : T)
    (hv : NB_ARSS_4.Valid s) :
    NB_ARSS_4.read3 f (k + 1) s d =
      match f.get_fnc (s.m_buffer (s.m_status / 4)).obj d with
      | none =>
        { state := { s with m_status := 5 * (s.m_status / 4) },
          calls := [.get (s.m_buffer (s.m_status / 4)).obj], out := .threw }
      | some o =>
        { state := { s with m_status := 5 * (s.m_status / 4) },
          calls := [.get (s.m_buffer (s.m_status / 4)).obj],
          out := .returned (o, (s.m_buffer (s.m_status / 4)).ts, 1) } := by
  obtain ⟨b, m, w⟩ := s
  obtain ⟨h1, h2, h3⟩ := hv
  simp only at h1 h2 h3
  have e : u8 (m >>> 2) = m / 4 := by
    rw [Nat.shiftRight_eq_div_pow]; unfold u8; omega
  have hlt : m / 4 < 3 := by omega
  simp only [NB_ARSS_4.read3, read_loop_self_nb3d, status_after_read_nb3d m h1, e, hlt, if_true]
  cases f.get_fnc _ d <;> simp

theorem write_eq_nb4a {T : Type} (f : Fncs T) (s : Nat × NB_ARSS_1 T) (obj : T) (ts : Int)
    (hv : NB_ARSS_1.Valid s) :
    NB_ARSS_1.write f s.1 s.2 obj ts =
      match f.free_fnc (s.2.m_buffer (NB_ARSS_1.slot_for s.1 s.2.m_next_read)).obj with
      | none =>
        { state := (NB_ARSS_1.slot_for s.1 s.2.m_next_read,
            { s.2 with m_next_read := s.2.m_next_read % 4 }),
          calls := [.free (s.2.m_buffer (NB_ARSS_1.slot_for s.1 s.2.m_next_read)).obj],
          out := .threw }
      | some _ =>
        match f.copy_fnc obj with
        | none =>
          { state := (NB_ARSS_1.slot_for s.1 s.2.m_next_read,
              { s.2 with m_next_read := s.2.m_next_read % 4 }),
            calls := [.free (s.2.m_buffer (NB_ARSS_1.slot_for s.1 s.2.m_next_read)).obj,
              .copy obj],
            out := .threw }
        | some c =>
          { state := ((NB_ARSS_1.slot_for s.1 s.2.m_next_read + 2) % 4,
              { m_buffer := Function.update s.2.m_buffer
                  (NB_ARSS_1.slot_for s.1 s.2.m_next_read) { obj := c, ts := ts },
                m_next_read := NB_ARSS_1.slot_for s.1 s.2.m_next_read }),
            calls := [.free (s.2.m_buffer (NB_ARSS_1.slot_for s.1 s.2.m_next_read)).obj,
              .copy obj],
            out := .returned () } := by
  obtain ⟨n, b, m⟩ := s
  obtain ⟨h1, h2⟩ := hv
  simp only at h1 h2
  have hb : ∀ x < 8, bitNot x &&& 1 = 1 - x % 2 := by unfold bitNot; decide
  rw [NB_ARSS_1.write]
  simp only [hb m h2]
  interval_cases m <;> interval_cases n <;>
    simp [NB_ARSS_1.slot_for, compare_exchange_strong, u8, land_3, land_2, setTs_setObj]

theorem read_eq_nb4a {T : Type} (f : Fncs T) (s : NB_ARSS_1 T) (d : T)
    (hv : s.m_next_read < 8) :
    NB_ARSS_1.read f s d =
      match f.get_fnc (s.m_buffer (s.m_next_read % 4)).obj d with
      | none =>
        { state := { s with m_next_read := s.m_next_read % 4 + 4 },
          calls := [.get (s.m_buffer (s.m_next_read % 4)).obj], out := .threw }
      | some o =>
        { state := { s with m_next_read := s.m_next_read % 4 + 4 },
          calls := [.get (s.m_buffer (s.m_next_read % 4)).obj],
          out := .returned (o, (s.m_buffer (s.m_next_read % 4)).ts) } := by
  obtain ⟨b, m⟩ := s
  simp only at hv
  have e1 : u8 (m &&& 3) = m % 4 := by rw [land_3]; unfold u8; omega
  have e2 : m ||| 4 = m % 4 + 4 := by interval_cases m <;> rfl
  have hlt : m % 4 < 4 := by omega
  simp only [NB_ARSS_1.read, e1, e2, hlt, if_true]

theorem write_eq_nb4b {T : Type} (f : Fncs T) (s : NB_ARSS_2 T) (obj : T) (ts : Int)
    (hv : NB_ARSS_2.Valid s) :
    NB_ARSS_2.write f s obj ts =
      match f.free_fnc (s.m_buffer (s.m_status % 4)).obj with
      | none =>
        { state := s, calls := [.free (s.m_buffer (s.m_status % 4)).obj], out := .threw }
      | some _ =>
        match f.copy_fnc obj with
        | none =>
          { state := s, calls := [.free (s.m_buffer (s.m_status % 4)).obj, .copy obj],
            out := .threw }
        | some c =>
          { state :=
              { m_buffer := Function.update s.m_buffer (s.m_status % 4) { obj := c, ts := ts },
                m_status := 4 * (s.m_status % 4) + (s.m_status + 2) % 4 },
            calls := [.free (s.m_buffer (s.m_status % 4)).obj, .copy obj],
            out := .returned () } := by
  obtain ⟨b, m⟩ := s
  simp only [NB_ARSS_2.Valid] at hv
  interval_cases m <;>
    simp [NB_ARSS_2.write, compare_exchange_strong, u8, land_3, setTs_setObj]

theorem read_eq_nb4b {T : Type} (f : Fncs T) (k spur : Nat) (s : NB_ARSS_2 T) (d : T)
    (hv : NB_ARSS_2.Valid s) :
    NB_ARSS_2.read f (spur + k + 1) spur s d =
      match f.get_fnc (s.m_buffer (s.m_status / 4)).obj d with
      | none =>
        { state := { s with m_status := NB_ARSS_2.claimed s.m_status },
          calls := [.get (s.m_buffer (s.m_status / 4)).obj], out := .threw }
      | some o =>
        { state := { s with m_status := NB_ARSS_2.claimed s.m_status },
          calls := [.get (s.m_buffer (s.m_status / 4)).obj],
          out := .returned (o, (s.m_buffer (s.m_status / 4)).ts) } := by
  obtain ⟨b, m⟩ := s
  simp only [NB_ARSS_2.Valid] at hv
  have e : u8 (m >>> 2) = m / 4 := by
    rw [Nat.shiftRight_eq_div_pow]; unfold u8; omega
  have hlt : m / 4 < 4 := by omega
  simp only [NB_ARSS_2.read, read_loop_self_nb4b, claimed_eq m hv, e, hlt, if_true]

theorem write_eq_nb3c {T : Type} (f : Fncs T) (s : NB_ARSS_3 T) (obj : T) (ts : Int)
    (hv : NB_ARSS_3.Valid s) :
    NB_ARSS_3.write f s obj ts =
      match f.free_fnc (s.m_buffer s.slot_for).obj with
      | none =>
        { state := s, calls := [.free (s.m_buffer s.slot_for).obj], out := .threw }
      | some _ =>
        match f.copy_fnc obj with
        | none =>
          { state := s, calls := [.free (s.m_buffer s.slot_for).obj, .copy obj], out := .threw }
        | some c =>
          { state :=
              { m_buffer := Function.update s.m_buffer s.slot_for { obj := c, ts := ts },
                m_reading := if s.m_reading = 3 then s.slot_for else s.m_reading,
                m_latest := s.slot_for },
            calls := [.free (s.m_buffer s.slot_for).obj, .copy obj], out := .returned () } := by
  obtain ⟨b, r, l⟩ := s
  obtain ⟨h1, h2⟩ := hv
  simp only at h1 h2
  interval_cases r <;> interval_cases l <;>
    simp [NB_ARSS_3.write, NB_ARSS_3.slot_for, NB_ARSS_3.next_at, NB_ARSS_3.next,
      compare_exchange_strong, u8, setTs_setObj]

theorem read_eq_nb3c {T : Type} (f : Fncs T) (s : NB_ARSS_3 T) (d : T)
    (hv : NB_ARSS_3.Valid s) :
    NB_ARSS_3.read f s d =
      match f.get_fnc (s.m_buffer s.m_latest).obj d with
      | none =>
        { state := { s with m_reading := s.m_latest },
          calls := [.get (s.m_buffer s.m_latest).obj], out := .threw }
      | some o =>
        { state := { s with m_reading := s.m_latest },
          calls := [.get (s.m_buffer s.m_latest).obj],
          out := .returned (o, (s.m_buffer s.m_latest).ts) } := by
  obtain ⟨b, r, l⟩ := s
  obtain ⟨h1, h2⟩ := hv
  simp only at h1 h2
  simp only [NB_ARSS_3.read, compare_exchange_strong, if_true, h2]

theorem read_cases_nb3d {T : Type} (f : Fncs T) (fuel : Nat) (s : NB_ARSS_4 T) (d : T)
    (hv : NB_ARSS_4.Valid s) :
    NB_ARSS_4.read f fuel s d = { state := s, calls := [], out := .fuel }
    ∨ NB_ARSS_4.read f fuel s d = NB_ARSS_4.read f 1 s d := by
  cases fuel with
  | zero => left; simp [NB_ARSS_4.read, NB_ARSS_4.read_loop]
  | succ k => right; rw [read_eq_nb3d f k s d hv, read_eq_nb3d f 0 s d hv]

theorem read_cases_nb4b {T : Type} (f : Fncs T) (fuel spur : Nat) (s : NB_ARSS_2 T) (d : T) :
    NB_ARSS_2.read f fuel spur s d = { state := s, calls := [], out := .fuel }
    ∨ NB_ARSS_2.read f fuel spur s d = NB_ARSS_2.read f 1 0 s d := by
  cases hr : NB_ARSS_2.read_loop s.m_status fuel spur s.m_status with
  | none => left; simp [NB_ARSS_2.read, hr]
  | some r =>
    right
    have e := read_loop_nb4b_eq _ fuel spur _ r hr
    subst e
    have h1 := read_loop_self_nb4b s.m_status 0 0
    simp only [NB_ARSS_2.read, hr]
    simp only [Nat.zero_add] at h1
    simp only [h1]

/-! ## Ranges of the control state in sequential executions -/

theorem reach_induction {σ T ι : Type} {wr : σ → T → Int → Ret σ Unit T}
    {rd : ι → σ → T → Ret σ (T × Int) T} {s₀ : σ} (P : σ → Prop) (h0 : P s₀)
    (hw : ∀ s obj ts, P s → P (wr s obj ts).state)
    (hr : ∀ i s dest, P s → P (rd i s dest).state) :
    ∀ s, Reach wr rd s₀ s → P s := by
  intro s h
  induction h with
  | init => exact h0
  | write s obj ts _ ih => exact hw s obj ts ih
  | read i s dest _ ih => exact hr i s dest ih

theorem slot_for_lt_nb3d {T : Type} (s : NB_ARSS_4 T) : s.slot_for < 3 := by
  unfold NB_ARSS_4.slot_for; split <;> omega

theorem slot_for_lt_nb4a (n m : Nat) (hn : n < 4) : NB_ARSS_1.slot_for n m < 4 := by
  unfold NB_ARSS_1.slot_for; split <;> omega

theorem slot_for_lt_nb3c {T : Type} (s : NB_ARSS_3 T) (hv : NB_ARSS_3.Valid s) :
    s.slot_for < 3 := by
  obtain ⟨b, r, l⟩ := s
  obtain ⟨h1, h2⟩ := hv
  simp only at h1 h2
  interval_cases r <;> interval_cases l <;>
    simp [NB_ARSS_3.slot_for, NB_ARSS_3.next_at, NB_ARSS_3.next]

theorem claimed_lt (m : Nat) (h : m < 16) : NB_ARSS_2.claimed m < 16 := by
  unfold NB_ARSS_2.claimed; omega

theorem claimed_div (m : Nat) (h : m < 16) : NB_ARSS_2.claimed m / 4 = m / 4 := by
  unfold NB_ARSS_2.claimed; omega

theorem claimed_idem_all : ∀ m < 16,
    NB_ARSS_2.claimed (NB_ARSS_2.claimed m) = NB_ARSS_2.claimed m := by
  unfold NB_ARSS_2.claimed; decide

theorem claimed_idem (m : Nat) (h : m < 16) :
    NB_ARSS_2.claimed (NB_ARSS_2.claimed m) = NB_ARSS_2.claimed m :=
  claimed_idem_all m h

theorem valid_write_nb3d {T : Type} (f : Fncs T) (s : NB_ARSS_4 T) (obj : T) (ts : Int)
    (h : NB_ARSS_4.Valid s) : NB_ARSS_4.Valid (NB_ARSS_4.write f s obj ts).state := by
  have hl := slot_for_lt_nb3d s
  obtain ⟨h1, h2, h3⟩ := h
  rw [write_eq_nb3d f s obj ts ⟨h1, h2, h3⟩]
  cases f.free_fnc _ <;> [skip; cases f.copy_fnc obj] <;>
    simp only [NB_ARSS_4.Valid] <;> omega

theorem valid_read_nb3d {T : Type} (f : Fncs T) (fuel : Nat) (s : NB_ARSS_4 T) (dest : T)
    (h : NB_ARSS_4.Valid s) : NB_ARSS_4.Valid (NB_ARSS_4.read f fuel s dest).state := by
  rcases read_cases_nb3d f fuel s dest h with e | e
  · rw [e]; exact h
  · obtain ⟨h1, h2, h3⟩ := h
    rw [e, read_eq_nb3d f 0 s dest ⟨h1, h2, h3⟩]
    cases f.get_fnc _ dest <;> simp only [NB_ARSS_4.Valid] <;> omega

theorem valid_write_nb4a {T : Type} (f : Fncs T) (s : Nat × NB_ARSS_1 T) (obj : T) (ts : Int)
    (h : NB_ARSS_1.Valid s) : NB_ARSS_1.Valid (NB_ARSS_1.write_in f s obj ts).state := by
  have hl := slot_for_lt_nb4a s.1 s.2.m_next_read h.1
  rw [NB_ARSS_1.write_in, write_eq_nb4a f s obj ts h]
  cases f.free_fnc _ <;> [skip; cases f.copy_fnc obj] <;>
    simp only [NB_ARSS_1.Valid] <;> omega

theorem valid_read_nb4a {T : Type} (f : Fncs T) (s : Nat × NB_ARSS_1 T) (dest : T)
    (h : NB_ARSS_1.Valid s) : NB_ARSS_1.Valid (NB_ARSS_1.read_in f s dest).state := by
  obtain ⟨h1, h2⟩ := h
  simp only [NB_ARSS_1.read_in, read_eq_nb4a f s.2 dest h2]
  cases f.get_fnc _ dest <;> simp only [NB_ARSS_1.Valid] <;> omega

theorem valid_write_nb4b {T : Type} (f : Fncs T) (s : NB_ARSS_2 T) (obj : T) (ts : Int)
    (h : NB_ARSS_2.Valid s) : NB_ARSS_2.Valid (NB_ARSS_2.write f s obj ts).state := by
  rw [write_eq_nb4b f s obj ts h]
  simp only [NB_ARSS_2.Valid] at h
  cases f.free_fnc _ <;> [skip; cases f.copy_fnc obj] <;>
    simp only [NB_ARSS_2.Valid] <;> omega

theorem valid_read_nb4b {T : Type} (f : Fncs T) (fuel spur : Nat) (s : NB_ARSS_2 T) (dest : T)
    (h : NB_ARSS_2.Valid s) : NB_ARSS_2.Valid (NB_ARSS_2.read f fuel spur s dest).state := by
  rcases read_cases_nb4b f fuel spur s dest with e | e
  · rw [e]; exact h
  · have hc := claimed_lt s.m_status h
    rw [e, read_eq_nb4b f 0 0 s dest h]
    cases f.get_fnc _ dest <;> exact hc

theorem valid_write_nb3c {T : Type} (f : Fncs T) (s : NB_ARSS_3 T) (obj : T) (ts : Int)
    (h : NB_ARSS_3.Valid s) : NB_ARSS_3.Valid (NB_ARSS_3.write f s obj ts).state := by
  have hl := slot_for_lt_nb3c s h
  rw [write_eq_nb3c f s obj ts h]
  obtain ⟨h1, h2⟩ := h
  cases f.free_fnc _ <;> [skip; cases f.copy_fnc obj] <;>
    simp only [NB_ARSS_3.Valid] <;> (try split) <;> omega

theorem valid_read_nb3c {T : Type} (f : Fncs T) (s : NB_ARSS_3 T) (dest : T)
    (h : NB_ARSS_3.Valid s) : NB_ARSS_3.Valid (NB_ARSS_3.read f s dest).state := by
  rw [read_eq_nb3c f s dest h]
  obtain ⟨h1, h2⟩ := h
  cases f.get_fnc _ dest <;> simp only [NB_ARSS_3.Valid] <;> omega

theorem reachable_valid_nb4a {T : Type} (f : Fncs T) (nvi : T) (s : Nat × NB_ARSS_1 T)
    (h : NB_ARSS_1.Reachable f nvi s) : NB_ARSS_1.Valid s :=
  reach_induction NB_ARSS_1.Valid (by simp [NB_ARSS_1.Valid, NB_ARSS_1.next_write_init,
    NB_ARSS_1.init]) (valid_write_nb4a f) (fun _ => valid_read_nb4a f) s h

theorem reachable_valid_nb4b {T : Type} (f : Fncs T) (nvi : T) (s : NB_ARSS_2 T)
    (h : NB_ARSS_2.Reachable f nvi s) : NB_ARSS_2.Valid s :=
  reach_induction NB_ARSS_2.Valid
    (show NB_ARSS_2.Valid (NB_ARSS_2.init nvi) by simp [NB_ARSS_2.Valid, NB_ARSS_2.init])
    (valid_write_nb4b f) (fun (i : Nat × Nat) => valid_read_nb4b f i.1 i.2) s h

theorem reachable_valid_nb3c {T : Type} (f : Fncs T) (nvi : T) (s : NB_ARSS_3 T)
    (h : NB_ARSS_3.Reachable f nvi s) : NB_ARSS_3.Valid s :=
  reach_induction NB_ARSS_3.Valid (by simp [NB_ARSS_3.Valid, NB_ARSS_3.init])
    (valid_write_nb3c f) (fun _ => valid_read_nb3c f) s h

theorem reachable_valid_nb3d {T : Type} (f : Fncs T) (nvi : T) (s : NB_ARSS_4 T)
    (h : NB_ARSS_4.Reachable f nvi s) : NB_ARSS_4.Valid s :=
  reach_induction NB_ARSS_4.Valid (by simp [NB_ARSS_4.Valid, NB_ARSS_4.init])
    (valid_write_nb3d f) (fun fuel => valid_read_nb3d f fuel) s h

/-! ## Registers as cells: the sequential abstraction -/

theorem exec_read_last_of_actsAsCell {σ T : Type}
    {wr : σ → T → Int → Ret σ Unit T} {rd : σ → T → Ret σ (T × Int) T}
    {copy : T → T} {get : T → T → T} {I : σ → ARContent T → Prop}
    (h : ActsAsCell wr rd copy get I) (dest : T) :
    ∀ (ops : List (Op T)) (s : σ) (c : ARContent T), I s c →
      (exec wr rd s (ops ++ [.read dest])).getLast?
        = some (.returned (get (cell_after copy c ops).obj dest, (cell_after copy c ops).ts))
  | [], s, c, i => by
    have a := h.read s c dest i
    simp [exec, a.1, Outcome.goes_on, cell_after, last_write]
  | .write obj ts :: ops, s, c, i => by
    have a := h.write s c obj ts i
    have ih := exec_read_last_of_actsAsCell h dest ops _ _ a.2
    simp only [List.cons_append, exec, a.1, Outcome.goes_on, if_true, List.append_eq]
    rw [ih]
    cases hl : last_write ops <;> simp [cell_after, last_write, hl]
  | .read d :: ops, s, c, i => by
    have a := h.read s c d i
    have ih := exec_read_last_of_actsAsCell h dest ops _ _ a.2
    have hne : exec wr rd (rd s d).state (ops ++ [.read dest]) ≠ [] := by
      intro e; rw [e] at ih; simp at ih
    simp only [List.cons_append, exec, a.1, Outcome.goes_on, if_true, List.append_eq]
    rcases List.exists_cons_of_ne_nil hne with ⟨x, xs, e⟩
    rw [e] at ih ⊢
    rw [List.getLast?_cons_cons, ih]
    simp [cell_after, last_write]

theorem actsAsCell_nb3d {T : Type} (copy : T → T) (get : T → T → T) (fuel : Nat) :
    ActsAsCell (NB_ARSS_4.write (Fncs.total copy get))
      (NB_ARSS_4.read (Fncs.total copy get) (fuel + 1)) copy get NB_ARSS_4.Cell where
  write := by
    rintro s c obj ts ⟨hv, -⟩
    have hl := slot_for_lt_nb3d s
    have hv' := valid_write_nb3d (Fncs.total copy get) s obj ts hv
    rw [write_eq_nb3d _ s obj ts hv] at hv' ⊢
    refine ⟨rfl, hv', ?_⟩
    have e : (4 * s.slot_for + s.m_status % 4) / 4 = s.slot_for := by omega
    simp [Fncs.total, e]
  read := by
    rintro s c dest ⟨hv, hc⟩
    have hv' := valid_read_nb3d (Fncs.total copy get) (fuel + 1) s dest hv
    rw [read_eq_nb3d _ fuel s dest hv] at hv' ⊢
    refine ⟨by simp [Fncs.total, hc], hv', ?_⟩
    have e : 5 * (s.m_status / 4) / 4 = s.m_status / 4 := by have := hv.1; omega
    simp [Fncs.total, e, hc]

theorem cell_init_nb3d {T : Type} (nvi : T) :
    NB_ARSS_4.Cell (NB_ARSS_4.init nvi) { obj := nvi, ts := NO_VALUE_TS } := by
  simp [NB_ARSS_4.Cell, NB_ARSS_4.Valid, NB_ARSS_4.init]

/-! ## Reads of a fresh register -/

/-- C1: on a freshly constructed register of each of the five classes, for
every no-value indicator, a read issued before any write returns timestamp -1
and the object that `get` produces from the no-value indicator; the default
`get` produces the indicator itself. -/
theorem fresh_read_returns_no_value {T : Type} (f : Fncs T) (nvi dest o : T)
    (fuel spur : Nat) (hget : f.get_fnc nvi dest = some o) :
    (B_AR_1.read f (B_AR_1.init nvi) dest).out = .returned (o, -1)
    ∧ (NB_ARSS_1.read f (NB_ARSS_1.init nvi) dest).out = .returned (o, -1)
    ∧ (NB_ARSS_2.read f (spur + fuel + 1) spur (NB_ARSS_2.init nvi) dest).out
        = .returned (o, -1)
    ∧ (NB_ARSS_3.read f (NB_ARSS_3.init nvi) dest).out = .returned (o, -1)
    ∧ (NB_ARSS_4.read f (fuel + 1) (NB_ARSS_4.init nvi) dest).out = .returned (o, -1)
    ∧ (Fncs.dflt : Fncs T).get_fnc nvi dest = some nvi := by
  refine ⟨?_, ?_, ?_, ?_, ?_, rfl⟩
  · simp [B_AR_1.read, B_AR_1.init, hget, NO_VALUE_TS]
  · simp [NB_ARSS_1.read, NB_ARSS_1.init, hget, NO_VALUE_TS, u8]
  · simp [NB_ARSS_2.read, NB_ARSS_2.init, read_loop_self_nb4b, hget, NO_VALUE_TS, u8]
  · simp [NB_ARSS_3.read, NB_ARSS_3.init, compare_exchange_strong, hget, NO_VALUE_TS]
  · simp [NB_ARSS_4.read, NB_ARSS_4.init, read_loop_self_nb3d, hget, NO_VALUE_TS, u8]

/-- Instance of C1 with the default callbacks on integers: the no-value
indicator 7 itself comes back, with timestamp -1. -/
theorem fresh_read_returns_no_value_witness :
    (Fncs.dflt : Fncs Int).get_fnc 7 0 = some 7
    ∧ (B_AR_1.read Fncs.dflt (B_AR_1.init (7 : Int)) 0).out = .returned (7, -1)
    ∧ (NB_ARSS_1.read Fncs.dflt (NB_ARSS_1.init (7 : Int)) 0).out = .returned (7, -1)
    ∧ (NB_ARSS_2.read Fncs.dflt (2 + 0 + 1) 2 (NB_ARSS_2.init (7 : Int)) 0).out
        = .returned (7, -1)
    ∧ (NB_ARSS_3.read Fncs.dflt (NB_ARSS_3.init (7 : Int)) 0).out = .returned (7, -1)
    ∧ (NB_ARSS_4.read Fncs.dflt (0 + 1) (NB_ARSS_4.init (7 : Int)) 0).out = .returned (7, -1)
    ∧ (Fncs.dflt : Fncs Int).get_fnc 7 0 = some 7 :=
  ⟨rfl, fresh_read_returns_no_value Fncs.dflt 7 0 7 0 2 rfl⟩

/-! ## Sequential reads return the last write -/

/-- C2: on a fresh `NB_ARSS_4` with the default callbacks, after any sequence
of operations executed one at a time that contains a write, a read returns
exactly the object and the timestamp of the most recent write. -/
theorem NB_ARSS_4.read_returns_last_write {T : Type} (nvi dest obj : T) (ts : Int)
    (fuel : Nat) (ops : List (Op T)) (hw : last_write ops = some (obj, ts)) :
    (NB_ARSS_4.exec Fncs.dflt (fuel + 1) (NB_ARSS_4.init nvi) (ops ++ [.read dest])).getLast?
      = some (.returned (obj, ts)) := by
  have h := exec_read_last_of_actsAsCell (actsAsCell_nb3d COPY_FNC GET_FNC fuel) dest ops
    _ _ (cell_init_nb3d nvi)
  have e : (Fncs.dflt : Fncs T) = Fncs.total COPY_FNC GET_FNC := rfl
  rw [NB_ARSS_4.exec, e, h]
  simp [cell_after, hw, COPY_FNC, GET_FNC]

/-- Instances of C2: after the writes (10,1), (20,2), (30,3) a read returns
(30,3), also with reads between the writes, and after the single write (42,1)
a read returns (42,1). -/
theorem NB_ARSS_4.read_returns_last_write_witness :
    (NB_ARSS_4.exec Fncs.dflt (0 + 1) (NB_ARSS_4.init (-1 : Int))
        ([.write 10 1, .write 20 2, .write 30 3] ++ [.read 0])).getLast?
      = some (.returned (30, 3))
    ∧ (NB_ARSS_4.exec Fncs.dflt (0 + 1) (NB_ARSS_4.init (-1 : Int))
        ([.write 10 1, .read 0, .write 20 2, .read 5, .read 6, .write 30 3] ++ [.read 0])).getLast?
      = some (.returned (30, 3))
    ∧ (NB_ARSS_4.exec Fncs.dflt (0 + 1) (NB_ARSS_4.init (-1 : Int))
        ([.write 42 1] ++ [.read 0])).getLast?
      = some (.returned (42, 1)) :=
  ⟨NB_ARSS_4.read_returns_last_write (-1) 0 30 3 0 _ rfl,
   NB_ARSS_4.read_returns_last_write (-1) 0 30 3 0 _ rfl,
   NB_ARSS_4.read_returns_last_write (-1) 0 42 1 0 _ rfl⟩

/-! ## Sequential equivalence with the blocking register -/

theorem read_twice_blk {T : Type} (f : Fncs T) (s : B_AR_1 T) (d : T) (v : T × Int)
    (h : (B_AR_1.read f s d).out = .returned v) :
    (B_AR_1.read f (B_AR_1.read f s d).state d).out = .returned v
    ∧ (B_AR_1.read f (B_AR_1.read f s d).state d).state = (B_AR_1.read f s d).state
    ∧ ∀ d', (B_AR_1.read f (B_AR_1.read f s d).state d').out = (B_AR_1.read f s d').out := by
  obtain ⟨c, m⟩ := s
  cases m with
  | true => simp [B_AR_1.read] at h
  | false =>
    cases hg : f.get_fnc c.obj d with
    | none => simp [B_AR_1.read, hg] at h
    | some o => simp [B_AR_1.read, hg] at h ⊢; exact h

theorem read_twice_nb4a {T : Type} (f : Fncs T) (s : NB_ARSS_1 T) (d : T)
    (v : T × Int) (hv : s.m_next_read < 8) (h : (NB_ARSS_1.read f s d).out = .returned v) :
    (NB_ARSS_1.read f (NB_ARSS_1.read f s d).state d).out = .returned v
    ∧ (NB_ARSS_1.read f (NB_ARSS_1.read f s d).state d).state = (NB_ARSS_1.read f s d).state
    ∧ ∀ d', (NB_ARSS_1.read f (NB_ARSS_1.read f s d).state d').out
        = (NB_ARSS_1.read f s d').out := by
  have e : (s.m_next_read % 4 + 4) % 4 = s.m_next_read % 4 := by omega
  have hs : ∀ x, (NB_ARSS_1.read f s x).state = { s with m_next_read := s.m_next_read % 4 + 4 } := by
    intro x; rw [read_eq_nb4a f s x hv]; cases f.get_fnc _ x <;> rfl
  have h2 : ∀ x, NB_ARSS_1.read f { s with m_next_read := s.m_next_read % 4 + 4 } x
      = NB_ARSS_1.read f s x := by
    intro x
    rw [read_eq_nb4a f s x hv, read_eq_nb4a f _ x (by simp only; omega)]
    simp only [e]
  simp only [hs, h2]
  exact ⟨h, trivial, fun _ => trivial⟩

theorem read_twice_nb4b {T : Type} (f : Fncs T) (s : NB_ARSS_2 T) (fuel spur k spur2 : Nat)
    (d : T) (v : T × Int) (hv : NB_ARSS_2.Valid s)
    (h : (NB_ARSS_2.read f fuel spur s d).out = .returned v) :
    (NB_ARSS_2.read f (spur2 + k + 1) spur2 (NB_ARSS_2.read f fuel spur s d).state d).out
        = .returned v
    ∧ (NB_ARSS_2.read f (spur2 + k + 1) spur2 (NB_ARSS_2.read f fuel spur s d).state d).state
        = (NB_ARSS_2.read f fuel spur s d).state
    ∧ ∀ d', (NB_ARSS_2.read f (spur2 + k + 1) spur2 (NB_ARSS_2.read f fuel spur s d).state d').out
        = (NB_ARSS_2.read f (spur2 + k + 1) spur2 s d').out := by
  have hv1 : s.m_status < 16 := hv
  have e1 : NB_ARSS_2.claimed s.m_status / 4 = s.m_status / 4 := claimed_div _ hv1
  have e2 : NB_ARSS_2.claimed (NB_ARSS_2.claimed s.m_status) = NB_ARSS_2.claimed s.m_status :=
    claimed_idem _ hv1
  have hc : NB_ARSS_2.Valid { s with m_status := NB_ARSS_2.claimed s.m_status } :=
    claimed_lt _ hv1
  rcases read_cases_nb4b f fuel spur s d with e | e
  · rw [e] at h; cases h
  · have hs : ∀ x, (NB_ARSS_2.read f 1 0 s x).state
        = { s with m_status := NB_ARSS_2.claimed s.m_status } := by
      intro x; rw [read_eq_nb4b f 0 0 s x hv]; cases f.get_fnc _ x <;> rfl
    have h2 : ∀ x, NB_ARSS_2.read f (spur2 + k + 1) spur2
        { s with m_status := NB_ARSS_2.claimed s.m_status } x
        = NB_ARSS_2.read f 1 0 s x := by
      intro x
      rw [read_eq_nb4b f 0 0 s x hv, read_eq_nb4b f k spur2 _ x hc]
      simp only [e1, e2]
    have h3 : ∀ x, (NB_ARSS_2.read f (spur2 + k + 1) spur2 s x).out
        = (NB_ARSS_2.read f 1 0 s x).out := by
      intro x
      rw [read_eq_nb4b f 0 0 s x hv, read_eq_nb4b f k spur2 _ x hv]
    rw [e] at h ⊢
    simp only [hs, h2, h3]
    exact ⟨h, trivial, fun _ => trivial⟩

theorem read_twice_nb3c {T : Type} (f : Fncs T) (s : NB_ARSS_3 T) (d : T)
    (v : T × Int) (hv : NB_ARSS_3.Valid s) (h : (NB_ARSS_3.read f s d).out = .returned v) :
    (NB_ARSS_3.read f (NB_ARSS_3.read f s d).state d).out = .returned v
    ∧ (NB_ARSS_3.read f (NB_ARSS_3.read f s d).state d).state = (NB_ARSS_3.read f s d).state
    ∧ ∀ d', (NB_ARSS_3.read f (NB_ARSS_3.read f s d).state d').out
        = (NB_ARSS_3.read f s d').out := by
  have hc : NB_ARSS_3.Valid { s with m_reading := s.m_latest } := ⟨by have := hv.2; simp only; omega, hv.2⟩
  have hs : ∀ x, (NB_ARSS_3.read f s x).state = { s with m_reading := s.m_latest } := by
    intro x; rw [read_eq_nb3c f s x hv]; cases f.get_fnc _ x <;> rfl
  have h2 : ∀ x, NB_ARSS_3.read f { s with m_reading := s.m_latest } x
      = NB_ARSS_3.read f s x := by
    intro x
    rw [read_eq_nb3c f s x hv, read_eq_nb3c f _ x hc]
  simp only [hs, h2]
  exact ⟨h, trivial, fun _ => trivial⟩

theorem read_twice_nb3d {T : Type} (f : Fncs T) (s : NB_ARSS_4 T) (fuel k : Nat) (d : T)
    (v : T × Int) (hv : NB_ARSS_4.Valid s) (h : (NB_ARSS_4.read f fuel s d).out = .returned v) :
    (NB_ARSS_4.read f (k + 1) (NB_ARSS_4.read f fuel s d).state d).out = .returned v
    ∧ (NB_ARSS_4.read f (k + 1) (NB_ARSS_4.read f fuel s d).state d).state
        = (NB_ARSS_4.read f fuel s d).state
    ∧ ∀ d', (NB_ARSS_4.read f (k + 1) (NB_ARSS_4.read f fuel s d).state d').out
        = (NB_ARSS_4.read f (k + 1) s d').out := by
  obtain ⟨h1, h2, h3⟩ := hv
  have e1 : 5 * (s.m_status / 4) / 4 = s.m_status / 4 := by omega
  have hc : NB_ARSS_4.Valid { s with m_status := 5 * (s.m_status / 4) } :=
    ⟨by simp only; omega, by simp only; omega, h3⟩
  rcases read_cases_nb3d f fuel s d ⟨h1, h2, h3⟩ with e | e
  · rw [e] at h; cases h
  · have hs : ∀ x, (NB_ARSS_4.read f 1 s x).state
        = { s with m_status := 5 * (s.m_status / 4) } := by
      intro x; rw [read_eq_nb3d f 0 s x ⟨h1, h2, h3⟩]; cases f.get_fnc _ x <;> rfl
    have h4 : ∀ x, NB_ARSS_4.read f (k + 1) { s with m_status := 5 * (s.m_status / 4) } x
        = NB_ARSS_4.read f 1 s x := by
      intro x
      rw [read_eq_nb3d f 0 s x ⟨h1, h2, h3⟩, read_eq_nb3d f k _ x hc]
      simp only [e1]
    have h5 : ∀ x, NB_ARSS_4.read f (k + 1) s x = NB_ARSS_4.read f 1 s x := by
      intro x
      rw [read_eq_nb3d f 0 s x ⟨h1, h2, h3⟩, read_eq_nb3d f k _ x ⟨h1, h2, h3⟩]
    rw [e] at h ⊢
    simp only [hs, h4, h5]
    exact ⟨h, trivial, fun _ => trivial⟩

/-- C4: in every sequentially reachable state of each of the five classes, if
a read returns `v`, the read issued right after it (no write between them,
same content of the destination) returns `v` as well and leaves the whole
register state (control state and buffer) as the first read left it; with
any other destination content `d'` the second read answers as the first
would have.  The CAS loops of `NB_ARSS_2` and `NB_ARSS_4` get one iteration
more than they fail spuriously. -/
theorem read_idempotent {T : Type} (f : Fncs T) (nvi : T) :
    (∀ (s : B_AR_1 T) (d : T) (v : T × Int), B_AR_1.Reachable f nvi s →
      (B_AR_1.read f s d).out = .returned v →
      (B_AR_1.read f (B_AR_1.read f s d).state d).out = .returned v
      ∧ (B_AR_1.read f (B_AR_1.read f s d).state d).state = (B_AR_1.read f s d).state
      ∧ ∀ d', (B_AR_1.read f (B_AR_1.read f s d).state d').out = (B_AR_1.read f s d').out)
    ∧ (∀ (s : Nat × NB_ARSS_1 T) (d : T) (v : T × Int), NB_ARSS_1.Reachable f nvi s →
      (NB_ARSS_1.read f s.2 d).out = .returned v →
      (NB_ARSS_1.read f (NB_ARSS_1.read f s.2 d).state d).out = .returned v
      ∧ (NB_ARSS_1.read f (NB_ARSS_1.read f s.2 d).state d).state
          = (NB_ARSS_1.read f s.2 d).state
      ∧ ∀ d', (NB_ARSS_1.read f (NB_ARSS_1.read f s.2 d).state d').out
          = (NB_ARSS_1.read f s.2 d').out)
    ∧ (∀ (s : NB_ARSS_2 T) (fuel spur k spur2 : Nat) (d : T) (v : T × Int),
      NB_ARSS_2.Reachable f nvi s →
      (NB_ARSS_2.read f fuel spur s d).out = .returned v →
      (NB_ARSS_2.read f (spur2 + k + 1) spur2 (NB_ARSS_2.read f fuel spur s d).state d).out
          = .returned v
      ∧ (NB_ARSS_2.read f (spur2 + k + 1) spur2 (NB_ARSS_2.read f fuel spur s d).state d).state
          = (NB_ARSS_2.read f fuel spur s d).state
      ∧ ∀ d', (NB_ARSS_2.read f (spur2 + k + 1) spur2
            (NB_ARSS_2.read f fuel spur s d).state d').out
          = (NB_ARSS_2.read f (spur2 + k + 1) spur2 s d').out)
    ∧ (∀ (s : NB_ARSS_3 T) (d : T) (v : T × Int), NB_ARSS_3.Reachable f nvi s →
      (NB_ARSS_3.read f s d).out = .returned v →
      (NB_ARSS_3.read f (NB_ARSS_3.read f s d).state d).out = .returned v
      ∧ (NB_ARSS_3.read f (NB_ARSS_3.read f s d).state d).state = (NB_ARSS_3.read f s d).state
      ∧ ∀ d', (NB_ARSS_3.read f (NB_ARSS_3.read f s d).state d').out
          = (NB_ARSS_3.read f s d').out)
    ∧ (∀ (s : NB_ARSS_4 T) (fuel k : Nat) (d : T) (v : T × Int), NB_ARSS_4.Reachable f nvi s →
      (NB_ARSS_4.read f fuel s d).out = .returned v →
      (NB_ARSS_4.read f (k + 1) (NB_ARSS_4.read f fuel s d).state d).out = .returned v
      ∧ (NB_ARSS_4.read f (k + 1) (NB_ARSS_4.read f fuel s d).state d).state
          = (NB_ARSS_4.read f fuel s d).state
      ∧ ∀ d', (NB_ARSS_4.read f (k + 1) (NB_ARSS_4.read f fuel s d).state d').out
          = (NB_ARSS_4.read f (k + 1) s d').out) :=
  ⟨fun s d v _ h => read_twice_blk f s d v h,
   fun s d v hr h => read_twice_nb4a f s.2 d v (reachable_valid_nb4a f nvi s hr).2 h,
   fun s fuel spur k spur2 d v hr h =>
     read_twice_nb4b f s fuel spur k spur2 d v (reachable_valid_nb4b f nvi s hr) h,
   fun s d v hr h => read_twice_nb3c f s d v (reachable_valid_nb3c f nvi s hr) h,
   fun s fuel k d v hr h => read_twice_nb3d f s fuel k d v (reachable_valid_nb3d f nvi s hr) h⟩

/-- Instance of C4: a `NB_ARSS_4` and a `NB_ARSS_2` of integers with the
default callbacks, after the write (42,1): the first read returns (42,1), so
does the second, and the second changes nothing. -/
theorem read_idempotent_witness :
    (NB_ARSS_4.read Fncs.dflt 1 (NB_ARSS_4.write Fncs.dflt (NB_ARSS_4.init (-1 : Int)) 42 1).state
        0).out = .returned (42, 1)
    ∧ (NB_ARSS_4.read Fncs.dflt (0 + 1)
        (NB_ARSS_4.read Fncs.dflt 1
          (NB_ARSS_4.write Fncs.dflt (NB_ARSS_4.init (-1 : Int)) 42 1).state 0).state 0).out
        = .returned (42, 1)
    ∧ (NB_ARSS_2.read Fncs.dflt 3 2 (NB_ARSS_2.write Fncs.dflt (NB_ARSS_2.init (-1 : Int)) 42 1).state
        0).out = .returned (42, 1)
    ∧ (NB_ARSS_2.read Fncs.dflt (1 + 0 + 1) 1
        (NB_ARSS_2.read Fncs.dflt 3 2
          (NB_ARSS_2.write Fncs.dflt (NB_ARSS_2.init (-1 : Int)) 42 1).state 0).state 0).state
        = (NB_ARSS_2.read Fncs.dflt 3 2
          (NB_ARSS_2.write Fncs.dflt (NB_ARSS_2.init (-1 : Int)) 42 1).state 0).state :=
  ⟨rfl,
   ((read_idempotent Fncs.dflt (-1 : Int)).2.2.2.2 _ 1 0 0 (42, 1)
      (Reach.write _ 42 1 Reach.init) (by rfl)).1,
   rfl,
   ((read_idempotent Fncs.dflt (-1 : Int)).2.2.1 _ 3 2 0 1 0 (42, 1)
      (Reach.write _ 42 1 Reach.init) (by rfl)).2.1⟩

/-! ## Callback discipline -/

theorem read_ignores_write_slot_nb3d {T : Type} (f : Fncs T) (fuel : Nat) (s : NB_ARSS_4 T)
    (w : Nat) (d : T) :
    (NB_ARSS_4.read f fuel { s with m_write_slot := w } d).out = (NB_ARSS_4.read f fuel s d).out := by
  simp only [NB_ARSS_4.read]
  cases NB_ARSS_4.read_loop s.m_status fuel s.m_status 1 with
  | none => rfl
  | some r =>
    simp only
    split
    · cases f.get_fnc _ d <;> rfl
    · rfl

theorem published_eq_nb3d : ∀ w < 3, ∀ r < 4, u8 ((w <<< 2) ||| r) = 4 * w + r := by
  unfold u8; decide

theorem choose_nb3d : ∀ w < 3, ∀ r < 3,
    (if u8 ((w + 1) % 3) = r then u8 ((u8 ((w + 1) % 3) + 1) % 3) else u8 ((w + 1) % 3)) < 3
    ∧ (if u8 ((w + 1) % 3) = r then u8 ((u8 ((w + 1) % 3) + 1) % 3) else u8 ((w + 1) % 3)) ≠ w
    ∧ (if u8 ((w + 1) % 3) = r then u8 ((u8 ((w + 1) % 3) + 1) % 3) else u8 ((w + 1) % 3)) ≠ r := by
  unfold u8; decide

theorem ctl_init_nb3d {T : Type} (nvi : T) : (NB_ARSS_4.Sys.init nvi).Ctl := by
  simp [NB_ARSS_4.Sys.Ctl, NB_ARSS_4.Sys.init]

theorem ctl_step_nb3d {T : Type} (f : Fncs T) (a : Act T)
    (s s' : NB_ARSS_4.Sys T) (hi : s.Ctl) (h : NB_ARSS_4.Sys.step f a s = some s') :
    s'.Ctl := by
  obtain ⟨b, m, w, wpc, wo, wt, wl, rpc, rl, rs, ro, rt, wlog, rlog⟩ := s
  obtain ⟨h1, h2, h3, h6, h7, h8⟩ := hi
  simp only at h1 h2 h3 h6 h7 h8
  have hp := published_eq_nb3d w h3 (wl % 4) (Nat.mod_lt _ (by norm_num))
  have hr := status_after_read_nb3d m h1
  have hc := choose_nb3d w h3 (m % 4) h2
  have e : u8 (m >>> 2) = m / 4 := by
    rw [Nat.shiftRight_eq_div_pow]; unfold u8; omega
  cases a with
  | write obj ts =>
    cases wpc <;> simp only [NB_ARSS_4.Sys.step, Option.some.injEq, reduceCtorEq] at h
    subst h
    simp only [land_3]
    generalize (if u8 ((w + 1) % 3) = m % 4 then u8 ((u8 ((w + 1) % 3) + 1) % 3)
      else u8 ((w + 1) % 3)) = q at hc ⊢
    exact ⟨h1, h2, hc.1, fun _ => ⟨rfl, Or.inl rfl⟩, by simp, h8⟩
  | writer =>
    cases wpc <;> simp only [NB_ARSS_4.Sys.step, Option.some.injEq, reduceCtorEq] at h
    · -- free
      cases hf : f.free_fnc (b w).obj <;> simp only [hf, Option.some.injEq] at h <;> subst h
      · exact ⟨h1, h2, h3, by simp, by simp, h8⟩
      · exact ⟨h1, h2, h3, fun _ => h6 (by simp), by simp, h8⟩
    · -- copy
      cases hf : f.copy_fnc wo <;> simp only [hf, Option.some.injEq] at h <;> subst h
      · exact ⟨h1, h2, h3, by simp, by simp, h8⟩
      · exact ⟨h1, h2, h3, fun _ => h6 (by simp), by simp, h8⟩
    · -- ts
      subst h
      exact ⟨h1, h2, h3, fun _ => h6 (by simp), by simp, h8⟩
    · -- cas1
      have h6 := h6 (by simp)
      simp only [compare_exchange_strong, land_3, hp] at h
      by_cases hcas : m = wl
      · rw [if_pos hcas] at h
        simp only [Option.some.injEq] at h
        subst h
        simp only [NB_ARSS_4.Sys.Ctl]
        refine ⟨by omega, by omega, h3, by simp, by simp, ?_⟩
        intro hh; have := h8 hh; omega
      · rw [if_neg hcas] at h
        simp only [Option.some.injEq] at h
        subst h
        simp only [NB_ARSS_4.Sys.Ctl]
        refine ⟨h1, h2, h3, by simp, ?_, h8⟩
        intro _; exact ⟨trivial, by omega⟩
    · -- cas2
      obtain ⟨e7, h7⟩ := h7 rfl
      subst e7
      simp only [compare_exchange_strong, land_3, hp, if_true, Option.some.injEq] at h
      subst h
      simp only [NB_ARSS_4.Sys.Ctl]
      refine ⟨by omega, by omega, h3, by simp, by simp, ?_⟩
      intro hh; have := h8 hh; omega
  | read dest =>
    cases rpc <;> simp only [NB_ARSS_4.Sys.step, Option.some.injEq, reduceCtorEq] at h
    subst h
    exact ⟨h1, h2, h3, h6, h7, by simp⟩
  | reader =>
    cases rpc <;> simp only [NB_ARSS_4.Sys.step, Option.some.injEq, reduceCtorEq] at h
    · -- cas
      simp only [compare_exchange_strong] at h
      by_cases hcas : m = rl
      · subst hcas
        simp only [if_true, Option.some.injEq, hr, e] at h
        subst h
        simp only [NB_ARSS_4.Sys.Ctl]
        refine ⟨by omega, by omega, h3, ?_, ?_, ?_⟩
        · intro hh; have := h6 hh; omega
        · intro hh; have := h7 hh; omega
        · intro _; omega
      · rw [if_neg hcas] at h
        simp only [Option.some.injEq] at h
        subst h
        exact ⟨h1, h2, h3, h6, h7, by simp⟩
    · -- get
      cases hg : f.get_fnc (b rs).obj ro <;> simp only [hg, Option.some.injEq] at h <;> subst h
      · exact ⟨h1, h2, h3, h6, h7, by simp⟩
      · exact ⟨h1, h2, h3, h6, h7, fun _ => h8 (by simp)⟩
    · -- ts
      subst h
      exact ⟨h1, h2, h3, h6, h7, by simp⟩
  | reader_spurious => simp [NB_ARSS_4.Sys.step] at h

theorem reachable_ctl_nb3d {T : Type} (f : Fncs T) (nvi : T)
    (s : NB_ARSS_4.Sys T) (h : NB_ARSS_4.Sys.Reachable f nvi s) : s.Ctl := by
  induction h with
  | init => exact ctl_init_nb3d nvi
  | step a s s' _ hs ih => exact ctl_step_nb3d f a s s' ih hs

theorem inv_init_nb3d {T : Type} (nvi : T) : (NB_ARSS_4.Sys.init nvi).Inv := by
  simp [NB_ARSS_4.Sys.Inv, NB_ARSS_4.Sys.init]

theorem inv_step_nb3d {T : Type} (f : Fncs T) (hfree : ∀ x, f.free_fnc x = some ())
    (hcopy : ∀ x, ∃ c, f.copy_fnc x = some c) (a : Act T)
    (s s' : NB_ARSS_4.Sys T) (hi : s.Inv) (h : NB_ARSS_4.Sys.step f a s = some s') :
    s'.Inv := by
  obtain ⟨b, m, w, wpc, wo, wt, wl, rpc, rl, rs, ro, rt, wlog, rlog⟩ := s
  obtain ⟨h1, h2, h3, h4, h5, h6, h7, h8⟩ := hi
  simp only at h1 h2 h3 h4 h5 h6 h7 h8
  have hp := published_eq_nb3d w h3 (wl % 4) (Nat.mod_lt _ (by norm_num))
  have hr := status_after_read_nb3d m h1
  have hc := choose_nb3d w h3 (m % 4) h2
  have e : u8 (m >>> 2) = m / 4 := by
    rw [Nat.shiftRight_eq_div_pow]; unfold u8; omega
  cases a with
  | write obj ts =>
    cases wpc <;> simp only [NB_ARSS_4.Sys.step, Option.some.injEq, reduceCtorEq] at h
    subst h
    simp only [land_3]
    generalize (if u8 ((w + 1) % 3) = m % 4 then u8 ((u8 ((w + 1) % 3) + 1) % 3)
      else u8 ((w + 1) % 3)) = q at hc ⊢
    simp only [NB_ARSS_4.Sys.Inv]
    simp at h4
    refine ⟨h1, h2, hc.1, by simp, ?_, ?_, by simp, h8⟩
    · intro _; omega
    · intro _; exact ⟨hc.2.2, trivial, Or.inl trivial⟩
  | writer =>
    cases wpc <;> simp only [NB_ARSS_4.Sys.step, Option.some.injEq, reduceCtorEq] at h
    · simp only [hfree, Option.some.injEq] at h
      subst h
      simp at h5 h6
      simp only [NB_ARSS_4.Sys.Inv]
      exact ⟨h1, h2, h3, by simp, by simpa using h5, by simpa using h6, by simp, h8⟩
    · obtain ⟨c, hc'⟩ := hcopy wo
      simp only [hc', Option.some.injEq] at h
      subst h
      simp at h5 h6
      simp only [NB_ARSS_4.Sys.Inv]
      exact ⟨h1, h2, h3, by simp, by simpa using h5, by simpa using h6, by simp, h8⟩
    · subst h
      simp at h5 h6
      simp only [NB_ARSS_4.Sys.Inv]
      exact ⟨h1, h2, h3, by simp, by simpa using h5, by simpa using h6, by simp, h8⟩
    · simp at h5 h6
      simp only [compare_exchange_strong, land_3, hp] at h
      by_cases hcas : m = wl
      · rw [if_pos hcas] at h
        simp only [Option.some.injEq] at h
        subst h
        simp only [NB_ARSS_4.Sys.Inv]
        refine ⟨by omega, by omega, h3, by simp; omega, by simp, by simp, by simp, ?_⟩
        intro hh; have := h8 hh; omega
      · rw [if_neg hcas] at h
        simp only [Option.some.injEq] at h
        subst h
        simp only [NB_ARSS_4.Sys.Inv]
        refine ⟨h1, h2, h3, by simp, by simpa using h5, by simp, ?_, h8⟩
        intro _; exact ⟨trivial, by omega⟩
    · simp at h5 h7
      obtain ⟨e7, h7⟩ := h7
      subst e7
      simp only [compare_exchange_strong, land_3, hp, if_true, Option.some.injEq] at h
      subst h
      simp only [NB_ARSS_4.Sys.Inv]
      refine ⟨by omega, by omega, h3, by simp; omega, by simp, by simp, by simp, ?_⟩
      intro hh; have := h8 hh; omega
  | read dest =>
    cases rpc <;> simp only [NB_ARSS_4.Sys.step, Option.some.injEq, reduceCtorEq] at h
    subst h
    simp only [NB_ARSS_4.Sys.Inv]
    exact ⟨h1, h2, h3, h4, h5, h6, h7, by simp⟩
  | reader =>
    cases rpc <;> simp only [NB_ARSS_4.Sys.step, Option.some.injEq, reduceCtorEq] at h
    · simp only [compare_exchange_strong] at h
      by_cases hcas : m = rl
      · subst hcas
        simp only [if_true, Option.some.injEq, hr, e] at h
        subst h
        simp only [NB_ARSS_4.Sys.Inv]
        refine ⟨by omega, by omega, h3, ?_, ?_, ?_, ?_, ?_⟩
        · intro hh; have := h4 hh; omega
        · intro hh; have := h5 hh; omega
        · intro hh; have := h6 hh; omega
        · intro hh; have := h7 hh; omega
        · intro _; omega
      · rw [if_neg hcas] at h
        simp only [Option.some.injEq] at h
        subst h
        simp only [NB_ARSS_4.Sys.Inv]
        exact ⟨h1, h2, h3, h4, h5, h6, h7, by simp⟩
    · cases hg : f.get_fnc (b rs).obj ro <;> simp only [hg, Option.some.injEq] at h <;> subst h
      · simp only [NB_ARSS_4.Sys.Inv]
        exact ⟨h1, h2, h3, h4, h5, h6, h7, by simp⟩
      · simp only [NB_ARSS_4.Sys.Inv]
        exact ⟨h1, h2, h3, h4, h5, h6, h7, by simpa using h8⟩
    · subst h
      simp only [NB_ARSS_4.Sys.Inv]
      exact ⟨h1, h2, h3, h4, h5, h6, h7, by simp⟩
  | reader_spurious => simp [NB_ARSS_4.Sys.step] at h

theorem reachable_inv_nb3d {T : Type} (f : Fncs T) (hfree : ∀ x, f.free_fnc x = some ())
    (hcopy : ∀ x, ∃ c, f.copy_fnc x = some c) (nvi : T)
    (s : NB_ARSS_4.Sys T) (h : NB_ARSS_4.Sys.Reachable f nvi s) : s.Inv := by
  induction h with
  | init => exact inv_init_nb3d nvi
  | step a s s' _ hs ih => exact inv_step_nb3d f hfree hcopy a s s' ih hs

theorem reachable_of_run_nb3d {T : Type} (f : Fncs T) (nvi : T) :
    ∀ (acts : List (Act T)) (s s' : NB_ARSS_4.Sys T), NB_ARSS_4.Sys.Reachable f nvi s →
      NB_ARSS_4.Sys.run f acts s = some s' → NB_ARSS_4.Sys.Reachable f nvi s'
  | [], s, s', hs, h => by
    simp only [NB_ARSS_4.Sys.run, Option.some.injEq] at h
    exact h ▸ hs
  | a :: acts, s, s', hs, h => by
    simp only [NB_ARSS_4.Sys.run] at h
    cases hst : NB_ARSS_4.Sys.step f a s with
    | none => simp [hst] at h
    | some s₁ =>
      simp only [hst] at h
      exact reachable_of_run_nb3d f nvi acts s₁ s' (.step a s s₁ hs hst) h

/-- C7 fails as stated when a callback throws.  With a `copy` that throws on
negative objects: after the complete write (10,1) the write (-7,2) is left by
the exception with `m_write_slot` at 2; the write (20,3) then selects slot 1,
the latest slot, and a read that starts now selects slot 1 too: the writer is
about to call `free` on the slot the reader is about to read, which the status
advertises as latest. -/
theorem slot_exclusion_fails_nb3d :
    NB_ARSS_4.Sys.Reachable Fncs.copy_picky (-1) NB_ARSS_4.Sys.clash
    ∧ NB_ARSS_4.Sys.clash.writing ∧ NB_ARSS_4.Sys.clash.reading
    ∧ NB_ARSS_4.Sys.clash.m_write_slot = 1 ∧ NB_ARSS_4.Sys.clash.r_read_slot = 1
    ∧ NB_ARSS_4.Sys.clash.m_status >>> 2 = 1
    ∧ ¬ (NB_ARSS_4.Sys.clash.m_write_slot ≠ NB_ARSS_4.Sys.clash.m_status >>> 2
        ∧ (NB_ARSS_4.Sys.clash.reading →
            NB_ARSS_4.Sys.clash.m_write_slot ≠ NB_ARSS_4.Sys.clash.r_read_slot)) :=
  ⟨reachable_of_run_nb3d Fncs.copy_picky (-1)
      [.write 10 1, .writer, .writer, .writer, .writer,
       .write (-7) 2, .writer, .writer, .write 20 3, .read 0, .reader] _ _ .init (by rfl),
   Or.inl rfl, Or.inl rfl, rfl, rfl, rfl, fun h => h.1 rfl⟩

/-- C7, as amended: under every schedule of one writer and one reader on a
`NB_ARSS_4` whose `free` and `copy` callbacks return (`get` may throw), while
the writer is freeing or overwriting its slot, that slot is not the upper
field of the status (the slot advertised as latest), and it is not the slot
the reader took from the pre-image of its successful CAS for a read that has
not yet returned. -/
theorem slot_exclusion_nb3d {T : Type} (f : Fncs T) (hfree : ∀ x, f.free_fnc x = some ())
    (hcopy : ∀ x, ∃ c, f.copy_fnc x = some c) (nvi : T)
    (s : NB_ARSS_4.Sys T) (h : NB_ARSS_4.Sys.Reachable f nvi s) (hw : s.writing) :
    s.m_write_slot ≠ s.m_status >>> 2 ∧ (s.reading → s.m_write_slot ≠ s.r_read_slot) := by
  obtain ⟨h1, h2, h3, h4, h5, h6, h7, h8⟩ := reachable_inv_nb3d f hfree hcopy nvi s h
  have hne : s.wpc ≠ .idle := by
    rcases hw with e | e | e <;> simp [e]
  have a := h5 hne
  have b := h6 (by rcases hw with e | e | e <;> simp [e])
  rw [Nat.shiftRight_eq_div_pow]
  refine ⟨a, fun hr => ?_⟩
  have c := h8 hr
  omega

/-- Instance of the amended C7, with the default callbacks: the writer is in
its first write, about to call `free` on slot 1, the reader has selected slot
0 and is about to call `get`. -/
theorem slot_exclusion_nb3d_witness :
    NB_ARSS_4.Sys.demo.writing ∧ NB_ARSS_4.Sys.demo.reading
    ∧ NB_ARSS_4.Sys.demo.m_write_slot = 1 ∧ NB_ARSS_4.Sys.demo.r_read_slot = 0
    ∧ NB_ARSS_4.Sys.demo.m_write_slot ≠ NB_ARSS_4.Sys.demo.m_status >>> 2
    ∧ (NB_ARSS_4.Sys.demo.reading →
        NB_ARSS_4.Sys.demo.m_write_slot ≠ NB_ARSS_4.Sys.demo.r_read_slot) :=
  ⟨Or.inl rfl, Or.inl rfl, rfl, rfl,
   slot_exclusion_nb3d Fncs.dflt (fun _ => rfl) (fun x => ⟨x, rfl⟩) (-1) NB_ARSS_4.Sys.demo
     (reachable_of_run_nb3d Fncs.dflt (-1) [.write 42 1, .read 0, .reader] _ _ .init
       (by rfl))
     (Or.inl rfl)⟩

/-! ## Slot exclusion in `NB_ARSS_1` under every schedule -/

theorem pair_switch_eq : ∀ n < 4, ∀ l < 8,
    u8 ((n &&& 0x2) ||| (bitNot l &&& 0x1)) = 2 * (n / 2 % 2) + (1 - l % 2) := by
  unfold u8 bitNot; decide

theorem partner_eq : ∀ w < 4, u8 (w ^^^ 0x2) = (w + 2) % 4 := by
  unfold u8; decide

theorem lor_4_eq : ∀ m < 8, m ||| 0x4 = m % 4 + 4 := by decide

theorem inv_init_nb4a {T : Type} (nvi : T) : (NB_ARSS_1.Sys.init nvi).Inv := by
  simp [NB_ARSS_1.Sys.Inv, NB_ARSS_1.Sys.init]

theorem inv_step_nb4a {T : Type} (copy : T → T) (get : T → T → T) (a : Act T)
    (s s' : NB_ARSS_1.Sys T) (hi : s.Inv) (h : NB_ARSS_1.Sys.step copy get a s = some s') :
    s'.Inv := by
  obtain ⟨b, m, n, wpc, wo, wt, wl, w, rpc, rs, ro, rt, wlog, rlog⟩ := s
  obtain ⟨h1, h2, h3, h4, h5, h6, h7⟩ := hi
  simp only at h1 h2 h3 h4 h5 h6 h7
  have hps := pair_switch_eq n h2 m h1
  have hor := lor_4_eq m h1
  have e3 : u8 (m &&& 3) = m % 4 := by rw [land_3]; unfold u8; omega
  have e3' : u8 (wl &&& 3) = wl % 4 := by rw [land_3]; unfold u8; omega
  have esh : (m >>> 2 ≠ 0) = (4 ≤ m) := by
    rw [Nat.shiftRight_eq_div_pow]; simp only [eq_iff_iff]; omega
  cases a with
  | write obj ts =>
    cases wpc <;> simp only [NB_ARSS_1.Sys.step, Option.some.injEq, reduceCtorEq] at h
    subst h
    simp at h3
    simp only [NB_ARSS_1.Sys.Inv, land_3, esh, hps]
    refine ⟨by omega, by split <;> omega, by simp, ?_, ?_, by simp, ?_⟩
    · intro _; split <;> omega
    · intro _; omega
    · intro hh
      obtain ⟨a1, a2, a3⟩ := h7 hh
      simp at a3
      refine ⟨a1, by intro; omega, fun _ => ⟨by simp, fun _ => ?_⟩⟩
      split
      · have := a2 (by assumption); omega
      · have := a3 (by omega); omega
  | writer =>
    cases wpc <;> simp only [NB_ARSS_1.Sys.step, Option.some.injEq, reduceCtorEq] at h
    · subst h
      simp at h4 h5 h7
      simp only [NB_ARSS_1.Sys.Inv]
      exact ⟨h1, h2, by simp, by simpa using h4, by simpa using h5, by simp, by simpa using h7⟩
    · subst h
      simp at h4 h5 h7
      simp only [NB_ARSS_1.Sys.Inv]
      exact ⟨h1, h2, by simp, by simpa using h4, by simpa using h5, by simp, by simpa using h7⟩
    · subst h
      simp at h4 h5 h7
      simp only [NB_ARSS_1.Sys.Inv]
      exact ⟨h1, h2, by simp, by simpa using h4, by simpa using h5, by simp, by simpa using h7⟩
    · simp at h4 h5 h7
      have hpa := partner_eq w h4.1
      simp only [compare_exchange_strong, e3', hpa] at h
      by_cases hcas : m = wl % 4
      · rw [if_pos hcas] at h
        simp only [Option.some.injEq] at h
        subst h
        simp only [NB_ARSS_1.Sys.Inv]
        refine ⟨by omega, by omega, by simp; omega, by simp, by simp, by simp, ?_⟩
        intro hh
        obtain ⟨a1, a2, a3⟩ := h7 hh
        refine ⟨a1, by intro; omega, fun _ => ⟨fun _ => ?_, by simp⟩⟩
        have := a3 (by omega)
        omega
      · rw [if_neg hcas] at h
        simp only [Option.some.injEq] at h
        subst h
        simp only [NB_ARSS_1.Sys.Inv]
        refine ⟨h1, by omega, by simp, by simpa using h4, by simp, ?_, ?_⟩
        · intro _; exact ⟨trivial, by omega, trivial⟩
        · intro hh
          obtain ⟨a1, a2, a3⟩ := h7 hh
          exact ⟨a1, a2, fun hlt => by omega⟩
    · simp at h4 h6
      obtain ⟨e6, h6a, h6b⟩ := h6
      subst e6
      have hps' := pair_switch_eq n h2 wl h1
      simp only [compare_exchange_strong, hps', if_true, Option.some.injEq] at h
      subst h
      simp only [NB_ARSS_1.Sys.Inv]
      refine ⟨by omega, by omega, by simp; omega, by simp, by simp, by simp, ?_⟩
      intro hh
      obtain ⟨a1, a2, a3⟩ := h7 hh
      refine ⟨a1, by intro; omega, fun _ => ⟨fun _ => ?_, by simp⟩⟩
      have := a2 h6a
      omega
  | read dest =>
    cases rpc <;> simp only [NB_ARSS_1.Sys.step, Option.some.injEq, reduceCtorEq] at h
    subst h
    simp only [NB_ARSS_1.Sys.Inv, e3, hor]
    refine ⟨by omega, h2, ?_, ?_, ?_, ?_, ?_⟩
    · intro hh; have := h3 hh; omega
    · intro hh; have := h4 hh; omega
    · intro hh; have := h5 hh; omega
    · intro hh; have := h6 hh; omega
    · intro _; exact ⟨by omega, by intro; omega, by intro; omega⟩
  | reader =>
    cases rpc <;> simp only [NB_ARSS_1.Sys.step, Option.some.injEq, reduceCtorEq] at h
    · subst h
      simp only [NB_ARSS_1.Sys.Inv]
      exact ⟨h1, h2, h3, h4, h5, h6, by simpa using h7⟩
    · subst h
      simp only [NB_ARSS_1.Sys.Inv]
      exact ⟨h1, h2, h3, h4, h5, h6, by simp⟩
  | reader_spurious => simp [NB_ARSS_1.Sys.step] at h

theorem reachable_inv_nb4a {T : Type} (copy : T → T) (get : T → T → T) (nvi : T)
    (s : NB_ARSS_1.Sys T) (h : NB_ARSS_1.Sys.Reachable copy get nvi s) : s.Inv := by
  induction h with
  | init => exact inv_init_nb4a nvi
  | step a s s' _ hs ih => exact inv_step_nb4a copy get a s s' ih hs

theorem reachable_of_run_nb4a {T : Type} (copy : T → T) (get : T → T → T) (nvi : T) :
    ∀ (acts : List (Act T)) (s s' : NB_ARSS_1.Sys T), NB_ARSS_1.Sys.Reachable copy get nvi s →
      NB_ARSS_1.Sys.run copy get acts s = some s' → NB_ARSS_1.Sys.Reachable copy get nvi s'
  | [], s, s', hs, h => by
    simp only [NB_ARSS_1.Sys.run, Option.some.injEq] at h
    exact h ▸ hs
  | a :: acts, s, s', hs, h => by
    simp only [NB_ARSS_1.Sys.run] at h
    cases hst : NB_ARSS_1.Sys.step copy get a s with
    | none => simp [hst] at h
    | some s₁ =>
      simp only [hst] at h
      exact reachable_of_run_nb4a copy get nvi acts s₁ s' (.step a s s₁ hs hst) h

/-- C8: under every schedule of one writer and one reader on the one
`NB_ARSS_1` of a process, while the writer is freeing or overwriting its
slot and a read that obtained its slot from the fetch-or has not yet
returned, the two slots differ. -/
theorem slot_exclusion_nb4a {T : Type} (copy : T → T) (get : T → T → T) (nvi : T)
    (s : NB_ARSS_1.Sys T) (h : NB_ARSS_1.Sys.Reachable copy get nvi s) (hw : s.writing)
    (hr : s.reading) : s.w_write_slot ≠ s.r_read_slot := by
  obtain ⟨h1, h2, h3, h4, h5, h6, h7⟩ := reachable_inv_nb4a copy get nvi s h
  have hne : s.wpc ≠ .idle := by
    rcases hw with e | e | e <;> simp [e]
  obtain ⟨a1, a2⟩ := h4 hne
  obtain ⟨b1, b2, b3⟩ := h7 hr
  by_cases hm : 4 ≤ s.m_next_read
  · have := b2 hm; omega
  · have := (b3 (by omega)).2 hne; omega

/-- Instance of C8: the reader is about to call `get` on slot 1 while the
writer, in its second write, is about to call `free` on slot 2. -/
theorem slot_exclusion_nb4a_witness :
    NB_ARSS_1.Sys.demo.writing ∧ NB_ARSS_1.Sys.demo.reading
    ∧ NB_ARSS_1.Sys.demo.w_write_slot = 2 ∧ NB_ARSS_1.Sys.demo.r_read_slot = 1
    ∧ NB_ARSS_1.Sys.demo.w_write_slot ≠ NB_ARSS_1.Sys.demo.r_read_slot :=
  ⟨Or.inl rfl, Or.inl rfl, by decide, rfl,
   slot_exclusion_nb4a COPY_FNC GET_FNC (-1) NB_ARSS_1.Sys.demo
     (reachable_of_run_nb4a COPY_FNC GET_FNC (-1)
       [.write 42 1, .writer, .writer, .writer, .writer, .read 0, .write 43 2] _ _ .init
       (by rfl))
     (Or.inl rfl) (Or.inl rfl)⟩

/-! ## No tearing in `NB_ARSS_3` under every schedule -/

theorem next_at_spec : ∀ r ≤ 3, ∀ l ≤ 2, ∃ n, NB_ARSS_3.next_at r l = some n
    ∧ u8 n ≤ 2 ∧ u8 n ≠ l ∧ (r ≠ 3 → u8 n ≠ r) := by
  unfold NB_ARSS_3.next_at NB_ARSS_3.next u8; decide

theorem good_cons {T : Type} (copy : T → T) (nvi : T) (w : T × Int) (wl : List (T × Int))
    (c : ARContent T) (h : NB_ARSS_3.Good copy nvi wl c) : NB_ARSS_3.Good copy nvi (w :: wl) c := by
  rcases h with h | ⟨x, hx, h⟩
  · exact Or.inl h
  · exact Or.inr ⟨x, List.mem_cons_of_mem _ hx, h⟩

theorem inv_init_nb3c {T : Type} (copy : T → T) (get : T → T → T) (nvi : T) :
    (NB_ARSS_3.Sys.init nvi).Inv copy get nvi := by
  simp [NB_ARSS_3.Sys.Inv, NB_ARSS_3.Sys.init, NB_ARSS_3.Good]

theorem inv_step_nb3c {T : Type} (copy : T → T) (get : T → T → T) (nvi : T) (a : Act T)
    (s s' : NB_ARSS_3.Sys T) (hi : s.Inv copy get nvi)
    (h : NB_ARSS_3.Sys.step copy get a s = some s') : s'.Inv copy get nvi := by
  obtain ⟨b, R, L, wpc, wo, wt, w1, wi, rpc, ri, ro, rt, wlog, rlog⟩ := s
  obtain ⟨⟨hR, hL⟩, h2, h3, h4, h5, h6, h7, d0, d1, d1', d2, d3⟩ := hi
  simp only at hR hL h2 h3 h4 h5 h6 h7 d0 d1 d1' d2 d3
  cases a with
  | write obj ts =>
    cases wpc <;> simp only [NB_ARSS_3.Sys.step, Option.some.injEq, reduceCtorEq] at h
    subst h
    unfold NB_ARSS_3.Sys.Inv
    dsimp only
    refine ⟨⟨hR, hL⟩, h2, h3, ?_, ?_, by simp, by simp, by simp, ?_, by simp, ?_, ?_⟩
    · intro hh
      obtain ⟨a1, a2⟩ := h4 hh
      exact ⟨a1, fun e1 e2 => by simpa using a2 e1 e2⟩
    · intro _; exact ⟨hR, Or.inl rfl⟩
    · intro i _; exact good_cons _ _ _ _ _ (d1 i (by simp))
    · intro hh
      obtain ⟨c, d, g, e1, e2⟩ := d2 hh
      exact ⟨c, d, good_cons _ _ _ _ _ g, e1, e2⟩
    · intro p hp
      obtain ⟨c, d, g, e⟩ := d3 p hp
      exact ⟨c, d, good_cons _ _ _ _ _ g, e⟩
  | writer =>
    cases wpc <;> simp only [NB_ARSS_3.Sys.step, Option.some.injEq, reduceCtorEq] at h
    · -- ld_latest
      have h5 := h5 rfl
      have d0 := d0 (by simp)
      obtain ⟨n, hn, n1, n2, n3⟩ := next_at_spec w1 h5.1 L hL
      simp only [hn, Option.some.injEq] at h
      subst h
      unfold NB_ARSS_3.Sys.Inv
      dsimp only
      refine ⟨⟨hR, hL⟩, h2, h3, ?_, by simp, ?_, by simp, fun _ => d0, ?_, by simp, d2, d3⟩
      · intro hh
        obtain ⟨a1, a2⟩ := h4 hh
        exact ⟨a1, fun e1 e2 => by simpa using a2 e1 e2⟩
      · intro _
        refine ⟨n1, n2, ?_⟩
        rcases h5.2 with e | e | e
        · by_cases h3' : w1 = 3
          · omega
          · have := n3 h3'; omega
        · omega
        · omega
      · intro i _; exact d1 i (by simp)
    · -- free
      subst h
      have h6 := h6 (by simp)
      have d0 := d0 (by simp)
      unfold NB_ARSS_3.Sys.Inv
      dsimp only
      refine ⟨⟨hR, hL⟩, h2, h3, ?_, by simp, fun _ => h6, by simp, fun _ => d0,
        ?_, by simp, d2, d3⟩
      · intro hh
        obtain ⟨a1, a2⟩ := h4 hh
        exact ⟨a1, fun e1 e2 => by simpa using a2 e1 e2⟩
      · intro i _; exact d1 i (by simp)
    · -- copy
      subst h
      have h6 := h6 (by simp)
      have d0 := d0 (by simp)
      unfold NB_ARSS_3.Sys.Inv
      dsimp only
      refine ⟨⟨hR, hL⟩, h2, h3, ?_, by simp, fun _ => h6, by simp, fun _ => d0,
        ?_, ?_, ?_, d3⟩
      · intro hh
        obtain ⟨a1, a2⟩ := h4 hh
        exact ⟨a1, fun e1 e2 => by simpa using a2 e1 e2⟩
      · intro i hi
        have hne : i ≠ wi := hi rfl
        have := d1 i (by simp)
        simpa [setObj, Function.update_noteq hne] using this
      · intro _; simp [setObj]
      · intro hh
        obtain ⟨c, d, g, e1, e2⟩ := d2 hh
        have hne : ri ≠ wi := by
          have := h3 (Or.inr hh); have := h6.2.2; omega
        exact ⟨c, d, g, e1, by simpa [setObj, Function.update_noteq hne] using e2⟩
    · -- ts
      subst h
      have h6 := h6 (by simp)
      have d0 := d0 (by simp)
      have d1' := d1' rfl
      unfold NB_ARSS_3.Sys.Inv
      dsimp only
      refine ⟨⟨hR, hL⟩, h2, h3, ?_, by simp, fun _ => h6, by simp, fun _ => d0,
        ?_, by simp, ?_, d3⟩
      · intro hh
        obtain ⟨a1, a2⟩ := h4 hh
        exact ⟨a1, fun e1 e2 => by simpa using a2 e1 e2⟩
      · intro i _
        by_cases hne : i = wi
        · subst hne
          right
          exact ⟨(wo, wt), d0, by simp [setTs, d1']⟩
        · have := d1 i (by simpa using hne)
          simpa [setTs, Function.update_noteq hne] using this
      · intro hh
        obtain ⟨c, d, g, e1, e2⟩ := d2 hh
        have hne : ri ≠ wi := by
          have := h3 (Or.inr hh); have := h6.2.2; omega
        exact ⟨c, d, g, e1, by simpa [setTs, Function.update_noteq hne] using e2⟩
    · -- st_latest
      subst h
      have h6 := h6 (by simp)
      have d0 := d0 (by simp)
      unfold NB_ARSS_3.Sys.Inv
      dsimp only
      refine ⟨⟨hR, by omega⟩, h2, h3, ?_, by simp, by simp, by simp, fun _ => d0,
        ?_, by simp, d2, d3⟩
      · intro hh
        obtain ⟨a1, a2⟩ := h4 hh
        exact ⟨a1, fun _ _ => rfl⟩
      · intro i _; exact d1 i (by simp)
    · -- cas
      subst h
      have h7 := h7 rfl
      unfold NB_ARSS_3.Sys.Inv
      dsimp only [compare_exchange_strong]
      by_cases hR3 : R = 3
      · subst hR3
        rw [if_pos rfl]
        dsimp only
        refine ⟨⟨by omega, hL⟩, ?_, ?_, ?_, by simp, by simp, by simp, by simp, ?_, by simp, d2, d3⟩
        · intro hh; exact absurd rfl (h2 hh)
        · intro hh; exact absurd rfl (h2 (Or.inr hh))
        · intro hh
          obtain ⟨a1, a2⟩ := h4 hh
          exact ⟨a1, fun e1 => by omega⟩
        · intro i _; exact d1 i (by simp)
      · rw [if_neg hR3]
        dsimp only
        refine ⟨⟨hR, hL⟩, h2, h3, ?_, by simp, by simp, by simp, by simp, ?_, by simp, d2, d3⟩
        · intro hh
          obtain ⟨a1, a2⟩ := h4 hh
          exact ⟨a1, fun e1 => absurd e1 hR3⟩
        · intro i _; exact d1 i (by simp)
  | read dest =>
    cases rpc <;> simp only [NB_ARSS_3.Sys.step, Option.some.injEq, reduceCtorEq] at h
    subst h
    unfold NB_ARSS_3.Sys.Inv
    dsimp only
    refine ⟨⟨by omega, hL⟩, by simp, by simp, by simp, ?_, ?_, h7, d0, d1, d1', by simp, d3⟩
    · intro hh; exact ⟨(h5 hh).1, Or.inr (Or.inl rfl)⟩
    · intro hh; obtain ⟨a1, a2, a3⟩ := h6 hh; exact ⟨a1, a2, by omega⟩
  | reader =>
    cases rpc <;> simp only [NB_ARSS_3.Sys.step, Option.some.injEq, reduceCtorEq] at h
    · -- ld_latest
      subst h
      unfold NB_ARSS_3.Sys.Inv
      dsimp only
      refine ⟨⟨hR, hL⟩, by simp, by simp, ?_, h5, h6, h7, d0, d1, d1', by simp, d3⟩
      intro _; exact ⟨hL, fun _ e => absurd rfl e⟩
    · -- cas
      subst h
      have h4 := h4 rfl
      unfold NB_ARSS_3.Sys.Inv
      dsimp only [compare_exchange_strong]
      by_cases hR3 : R = 3
      · subst hR3
        rw [if_pos rfl]
        dsimp only
        refine ⟨⟨by omega, hL⟩, by intro; omega, by simp, by simp, ?_, ?_, h7, d0, d1, d1',
          by simp, d3⟩
        · intro hh
          obtain ⟨a1, a2⟩ := h5 hh
          refine ⟨a1, ?_⟩
          by_cases e : ri = L
          · exact Or.inr (Or.inr e)
          · have := h4.2 rfl e
            rw [hh] at this; cases this
        · intro hh
          obtain ⟨a1, a2, a3⟩ := h6 hh
          refine ⟨a1, a2, ?_⟩
          by_cases e : ri = L
          · omega
          · have := h4.2 rfl e
            rcases hh with hh | hh | hh | hh <;> rw [hh] at this <;> cases this
      · rw [if_neg hR3]
        dsimp only
        exact ⟨⟨hR, hL⟩, fun _ => hR3, by simp, by simp, h5, h6, h7, d0, d1, d1', by simp, d3⟩
    · -- ld_reading
      subst h
      have h2 := h2 (by simp)
      unfold NB_ARSS_3.Sys.Inv
      dsimp only
      exact ⟨⟨hR, hL⟩, fun _ => h2, fun _ => rfl, by simp, h5, h6, h7, d0, d1, d1', by simp, d3⟩
    · -- get
      subst h
      have h2 := h2 (by simp)
      have h3 := h3 (by simp)
      unfold NB_ARSS_3.Sys.Inv
      dsimp only
      refine ⟨⟨hR, hL⟩, fun _ => h2, fun _ => h3, by simp, h5, h6, h7, d0, d1, d1', ?_, d3⟩
      intro _
      refine ⟨b ri, ro, d1 ri ?_, rfl, rfl⟩
      intro hh
      have := (h6 (Or.inr (Or.inr (Or.inl hh)))).2.2
      omega
    · -- ts
      subst h
      have d2 := d2 rfl
      unfold NB_ARSS_3.Sys.Inv
      dsimp only
      refine ⟨⟨hR, hL⟩, by simp, by simp, by simp, h5, h6, h7, d0, d1, d1', by simp, ?_⟩
      intro p hp
      rcases List.mem_cons.1 hp with e | e
      · obtain ⟨c, d, g, e1, e2⟩ := d2
        exact ⟨c, d, g, by rw [e, e1, e2]⟩
      · exact d3 p e
  | reader_spurious => simp [NB_ARSS_3.Sys.step] at h

theorem reachable_inv_nb3c {T : Type} (copy : T → T) (get : T → T → T) (nvi : T)
    (s : NB_ARSS_3.Sys T) (h : NB_ARSS_3.Sys.Reachable copy get nvi s) : s.Inv copy get nvi := by
  induction h with
  | init => exact inv_init_nb3c copy get nvi
  | step a s s' _ hs ih => exact inv_step_nb3c copy get nvi a s s' ih hs

theorem reachable_of_run_nb3c {T : Type} (copy : T → T) (get : T → T → T) (nvi : T) :
    ∀ (acts : List (Act T)) (s s' : NB_ARSS_3.Sys T), NB_ARSS_3.Sys.Reachable copy get nvi s →
      NB_ARSS_3.Sys.run copy get acts s = some s' → NB_ARSS_3.Sys.Reachable copy get nvi s'
  | [], s, s', hs, h => by
    simp only [NB_ARSS_3.Sys.run, Option.some.injEq] at h
    exact h ▸ hs
  | a :: acts, s, s', hs, h => by
    simp only [NB_ARSS_3.Sys.run] at h
    cases hst : NB_ARSS_3.Sys.step copy get a s with
    | none => simp [hst] at h
    | some s₁ =>
      simp only [hst] at h
      exact reachable_of_run_nb3c copy get nvi acts s₁ s' (.step a s s₁ hs hst) h

/-- C5: under every schedule of one writer and one reader on a `NB_ARSS_3`,
every completed read returned a pair made by `get` from a cell that is
either the no-value indicator with timestamp -1 or the copy of the object
together with the timestamp of one and the same write; and while the writer
is freeing or overwriting its slot, that slot is not the one a read in
progress finally selected. -/
theorem no_tearing_nb3c {T : Type} (copy : T → T) (get : T → T → T) (nvi : T)
    (s : NB_ARSS_3.Sys T) (h : NB_ARSS_3.Sys.Reachable copy get nvi s) :
    (∀ p ∈ s.r_log, ∃ c d, NB_ARSS_3.Good copy nvi s.w_log c ∧ p = (get c.obj d, c.ts))
    ∧ (s.writing → s.reading → s.w_windex ≠ s.r_rindex) := by
  obtain ⟨_, _, h3, _, _, h6, _, _, _, _, _, d3⟩ := reachable_inv_nb3c copy get nvi s h
  refine ⟨d3, fun hw hr => ?_⟩
  have a := h6 (by rcases hw with e | e | e <;> simp [e])
  have b := h3 hr
  omega

/-- Instance of C5: with the default callbacks, a read of the fresh register
returned (-1,-1) and a read overlapping the second write returned (42,1), the
pair of the first write. -/
theorem no_tearing_nb3c_witness :
    NB_ARSS_3.Sys.demo.r_log = [(42, 1), (-1, -1)]
    ∧ NB_ARSS_3.Sys.demo.w_log = [(43, 2), (42, 1)]
    ∧ (∀ p ∈ NB_ARSS_3.Sys.demo.r_log, ∃ c d,
        NB_ARSS_3.Good COPY_FNC (-1) NB_ARSS_3.Sys.demo.w_log c ∧ p = (GET_FNC c.obj d, c.ts)) :=
  ⟨by decide, by decide,
   (no_tearing_nb3c COPY_FNC GET_FNC (-1) NB_ARSS_3.Sys.demo
     (reachable_of_run_nb3c COPY_FNC GET_FNC (-1)
       [.read 0, .reader, .reader, .reader, .reader, .reader,
        .write 42 1, .writer, .writer, .writer, .writer, .writer, .writer,
        .read 0, .write 43 2, .reader, .writer, .reader, .writer, .reader, .writer, .reader,
        .writer, .reader] _ _ .init (by rfl))).1⟩

/-! ## Timestamps read from `NB_ARSS_2` under every schedule -/

theorem switch_eq_nb4b : ∀ w < 4, u8 ((w <<< 2) ||| (w ^^^ 0x2)) = 4 * w + (w + 2) % 4 := by
  unfold u8; decide

theorem keep_eq_nb4b : ∀ w < 4, ∀ l < 16, u8 ((w <<< 2) ||| (l &&& 0x3)) = 4 * w + l % 4 := by
  unfold u8; decide

theorem slot_eq_nb4b : ∀ l < 16, u8 (l &&& 0x3) = l % 4 ∧ u8 (l >>> 2) = l / 4 := by
  unfold u8; decide

theorem claimed_spec : ∀ m < 16, NB_ARSS_2.claimed m < 16
    ∧ NB_ARSS_2.claimed m / 4 = m / 4 ∧ NB_ARSS_2.claimed m % 2 + m / 4 % 2 = 1
    ∧ (m % 2 ≠ m / 4 % 2 → NB_ARSS_2.claimed m = m) := by
  unfold NB_ARSS_2.claimed; decide

theorem ctl_init_nb4b {T : Type} (nvi : T) : (NB_ARSS_2.Sys.init nvi).Ctl := by
  simp [NB_ARSS_2.Sys.Ctl, NB_ARSS_2.Sys.init]

theorem ctl_step_nb4b {T : Type} (copy : T → T) (get : T → T → T) (a : Act T)
    (s s' : NB_ARSS_2.Sys T) (hi : s.Ctl) (h : NB_ARSS_2.Sys.step copy get a s = some s') :
    s'.Ctl := by
  obtain ⟨b, S, wpc, wo, wt, wl, ws, rpc, rl, rs, ro, rt, wlog, rlog⟩ := s
  obtain ⟨⟨hS, hN⟩, h2, h3, h4⟩ := hi
  simp only at hS hN h2 h3 h4
  cases a with
  | write obj ts =>
    cases wpc <;> simp only [NB_ARSS_2.Sys.step, Option.some.injEq, reduceCtorEq] at h
    subst h
    unfold NB_ARSS_2.Sys.Ctl
    dsimp only
    rw [(slot_eq_nb4b S hS).1]
    refine ⟨⟨hS, hN⟩, fun _ => ⟨hS, rfl, rfl, by omega, Or.inl rfl⟩, by simp, ?_⟩
    intro hr
    obtain ⟨a1, a2, _⟩ := h4 hr
    exact ⟨a1, a2, fun _ => by omega⟩
  | writer =>
    cases wpc <;> simp only [NB_ARSS_2.Sys.step, Option.some.injEq, reduceCtorEq] at h
    · -- free
      subst h
      exact ⟨⟨hS, hN⟩, fun _ => h2 (by simp), by simp, fun hr =>
        ⟨(h4 hr).1, (h4 hr).2.1, fun _ => (h4 hr).2.2 (by simp)⟩⟩
    · -- copy
      subst h
      exact ⟨⟨hS, hN⟩, fun _ => h2 (by simp), by simp, fun hr =>
        ⟨(h4 hr).1, (h4 hr).2.1, fun _ => (h4 hr).2.2 (by simp)⟩⟩
    · -- ts
      subst h
      exact ⟨⟨hS, hN⟩, fun _ => h2 (by simp), by simp, fun hr =>
        ⟨(h4 hr).1, (h4 hr).2.1, fun _ => (h4 hr).2.2 (by simp)⟩⟩
    · -- cas
      obtain ⟨a1, a2, a3, a4, a5⟩ := h2 (by simp)
      have hw : ws < 4 := by omega
      by_cases e : S = wl
      · subst e
        simp only [compare_exchange_strong, ↓reduceIte, Option.some.injEq] at h
        subst h
        unfold NB_ARSS_2.Sys.Ctl
        dsimp only
        rw [switch_eq_nb4b ws hw]
        refine ⟨⟨by omega, by omega⟩, by simp, by simp, ?_⟩
        intro hr
        obtain ⟨b1, b2, b3⟩ := h4 hr
        exact ⟨b1, by omega, by simp⟩
      · simp only [compare_exchange_strong, if_neg e, Option.some.injEq] at h
        subst h
        unfold NB_ARSS_2.Sys.Ctl
        dsimp only
        refine ⟨⟨hS, hN⟩, by simp, fun _ => ⟨rfl, hw, by omega, a4, by omega⟩, ?_⟩
        intro hr
        obtain ⟨b1, b2, b3⟩ := h4 hr
        exact ⟨b1, b2, fun _ => b3 (by simp)⟩
    · -- store
      obtain ⟨a1, a2, a3, a4, a5⟩ := h3 rfl
      subst h
      subst a1
      unfold NB_ARSS_2.Sys.Ctl
      dsimp only
      rw [keep_eq_nb4b ws a2 wl hS]
      refine ⟨⟨by omega, by omega⟩, by simp, by simp, ?_⟩
      intro hr
      obtain ⟨b1, b2, b3⟩ := h4 hr
      exact ⟨b1, by omega, by simp⟩
  | read dest =>
    cases rpc <;> simp only [NB_ARSS_2.Sys.step, Option.some.injEq, reduceCtorEq] at h
    subst h
    exact ⟨⟨hS, hN⟩, h2, h3, by simp⟩
  | reader =>
    cases rpc <;> simp only [NB_ARSS_2.Sys.step, Option.some.injEq, reduceCtorEq] at h
    · -- cas
      by_cases e : S = rl
      · subst e
        simp only [compare_exchange_weak, compare_exchange_strong, ↓reduceIte,
          Bool.false_eq_true, if_false, Option.some.injEq] at h
        subst h
        unfold NB_ARSS_2.Sys.Ctl
        dsimp only
        rw [claimed_eq S hS, (slot_eq_nb4b S hS).2]
        obtain ⟨c1, c2, c3, c4⟩ := claimed_spec S hS
        generalize NB_ARSS_2.claimed S = c at c1 c2 c3 c4
        refine ⟨⟨c1, by omega⟩, ?_, ?_, fun _ => ⟨by omega, by omega, ?_⟩⟩
        · intro hw
          obtain ⟨a1, a2, a3, a4, a5⟩ := h2 hw
          exact ⟨a1, a2, by omega, by omega, Or.inr (by omega)⟩
        · intro hw
          obtain ⟨a1, a2, a3, a4, a5⟩ := h3 hw
          have := c4 a5
          exact ⟨by omega, a2, by omega, by omega, by omega⟩
        · intro hw
          cases wpc with
          | idle => exact absurd rfl hw
          | store => have := h3 rfl; omega
          | free => have := h2 (by simp); omega
          | copy => have := h2 (by simp); omega
          | ts => have := h2 (by simp); omega
          | cas => have := h2 (by simp); omega
      · simp only [compare_exchange_weak, compare_exchange_strong, if_neg e,
          Bool.false_eq_true, if_false, Option.some.injEq] at h
        subst h
        exact ⟨⟨hS, hN⟩, h2, h3, by simp⟩
    · -- get
      subst h
      exact ⟨⟨hS, hN⟩, h2, h3, fun _ => h4 (by simp)⟩
    · -- ts
      subst h
      exact ⟨⟨hS, hN⟩, h2, h3, by simp⟩
  | reader_spurious =>
    cases rpc <;> simp only [NB_ARSS_2.Sys.step, Option.some.injEq, reduceCtorEq] at h
    simp only [compare_exchange_weak, if_true, Option.some.injEq] at h
    subst h
    exact ⟨⟨hS, hN⟩, h2, h3, by simp⟩

theorem setObj_ts {T : Type} (b : Nat → ARContent T) (i : Nat) (o : T) (j : Nat) :
    (setObj b i o j).ts = (b j).ts := by
  unfold setObj
  by_cases e : j = i
  · subst e; simp
  · simp [Function.update_noteq e]

theorem setTs_ts_ne {T : Type} (b : Nat → ARContent T) (i : Nat) (t : Int) (j : Nat)
    (e : j ≠ i) : (setTs b i t j).ts = (b j).ts := by
  simp [setTs, Function.update_noteq e]

theorem setTs_ts_self {T : Type} (b : Nat → ARContent T) (i : Nat) (t : Int) :
    (setTs b i t i).ts = t := by
  simp [setTs]

theorem dat_init_nb4b {T : Type} (nvi : T) : (NB_ARSS_2.Sys.init nvi).Dat := by
  simp [NB_ARSS_2.Sys.Dat, NB_ARSS_2.Sys.init, NB_ARSS_2.non_decreasing]

theorem dat_step_nb4b {T : Type} (copy : T → T) (get : T → T → T) (a : Act T)
    (s s' : NB_ARSS_2.Sys T) (hc : s.Ctl) (hd : s.Dat)
    (h : NB_ARSS_2.Sys.step copy get a s = some s')
    (hinc : NB_ARSS_2.increasing s'.w_log) (hge : ∀ w ∈ s'.w_log, NO_VALUE_TS ≤ w.2) :
    s'.Dat := by
  obtain ⟨b, S, wpc, wo, wt, wl, ws, rpc, rl, rs, ro, rt, wlog, rlog⟩ := s
  obtain ⟨⟨hS, hN⟩, h2, h3, h4⟩ := hc
  obtain ⟨d1, d2, d3, d4, d5, d6⟩ := hd
  simp only at hS hN h2 h3 h4 d1 d2 d3 d4 d5 d6
  cases a with
  | write obj ts =>
    cases wpc <;> simp only [NB_ARSS_2.Sys.step, Option.some.injEq, reduceCtorEq] at h
    subst h
    simp only [NB_ARSS_2.increasing, List.pairwise_cons] at hinc
    simp only at hge
    refine ⟨by simp, fun _ => ⟨?_, by simp⟩, by simp, d4, d5, d6⟩
    show (b (S / 4)).ts ≤ ts
    rcases d1 rfl with e | ⟨w, hw, e⟩
    · have := hge (obj, ts) (by simp)
      simp only at this
      omega
    · have := hinc.1 w hw
      omega
  | writer =>
    cases wpc <;> simp only [NB_ARSS_2.Sys.step, Option.some.injEq, reduceCtorEq] at h
    · -- free
      subst h
      exact ⟨by simp, fun _ => d2 (by simp), by simp, d4, d5, d6⟩
    · -- copy
      subst h
      unfold NB_ARSS_2.Sys.Dat
      simp only [setObj_ts]
      exact ⟨by simp, fun _ => d2 (by simp), by simp, d4, d5, d6⟩
    · -- ts
      subst h
      obtain ⟨a1, a2, a3, a4, a5⟩ := h2 (by simp)
      have hL : S / 4 ≠ ws := fun e => a4 e.symm
      unfold NB_ARSS_2.Sys.Dat
      dsimp only
      rw [setTs_ts_ne b ws wt (S / 4) hL, setTs_ts_self]
      refine ⟨by simp, fun _ => d2 (by simp), fun _ => rfl, d4, ?_, d6⟩
      intro hr
      have hne : rs ≠ ws := (h4 hr).2.2 (by simp)
      rw [setTs_ts_ne b ws wt rs hne]
      exact d5 hr
    · -- cas
      obtain ⟨a1, a2, a3, a4, a5⟩ := h2 (by simp)
      have hw : ws < 4 := by omega
      obtain ⟨e1, e2⟩ := d2 (by simp)
      have e3 := d3 (by simp)
      by_cases e : S = wl
      · subst e
        simp only [compare_exchange_strong, ↓reduceIte, Option.some.injEq] at h
        subst h
        have hq : (4 * ws + (ws + 2) % 4) / 4 = ws := by omega
        unfold NB_ARSS_2.Sys.Dat
        dsimp only
        rw [switch_eq_nb4b ws hw, hq, e3]
        refine ⟨fun _ => Or.inr ⟨(wo, wt), e2, rfl⟩, by simp, by simp, ?_, ?_, d6⟩
        · intro p hp
          have := d4 p hp
          omega
        · intro hr
          obtain ⟨b1, b2⟩ := d5 hr
          exact ⟨by omega, b2⟩
      · simp only [compare_exchange_strong, if_neg e, Option.some.injEq] at h
        subst h
        exact ⟨by simp, fun _ => d2 (by simp), fun _ => e3, d4, d5, d6⟩
    · -- store
      obtain ⟨a1, a2, a3, a4, a5⟩ := h3 rfl
      obtain ⟨e1, e2⟩ := d2 (by simp)
      have e3 := d3 (by simp)
      subst h
      subst a1
      have hq : (4 * ws + wl % 4) / 4 = ws := by omega
      unfold NB_ARSS_2.Sys.Dat
      dsimp only
      rw [keep_eq_nb4b ws a2 wl hS, hq, e3]
      refine ⟨fun _ => Or.inr ⟨(wo, wt), e2, rfl⟩, by simp, by simp, ?_, ?_, d6⟩
      · intro p hp
        have := d4 p hp
        omega
      · intro hr
        obtain ⟨b1, b2⟩ := d5 hr
        exact ⟨by omega, b2⟩
  | read dest =>
    cases rpc <;> simp only [NB_ARSS_2.Sys.step, Option.some.injEq, reduceCtorEq] at h
    subst h
    exact ⟨d1, d2, d3, d4, by simp, d6⟩
  | reader =>
    cases rpc <;> simp only [NB_ARSS_2.Sys.step, Option.some.injEq, reduceCtorEq] at h
    · -- cas
      by_cases e : S = rl
      · subst e
        simp only [compare_exchange_weak, compare_exchange_strong, ↓reduceIte,
          Bool.false_eq_true, if_false, Option.some.injEq] at h
        subst h
        unfold NB_ARSS_2.Sys.Dat
        dsimp only
        rw [claimed_eq S hS, (slot_eq_nb4b S hS).2, (claimed_spec S hS).2.1]
        exact ⟨d1, d2, d3, d4, fun _ => ⟨le_refl _, d4⟩, d6⟩
      · simp only [compare_exchange_weak, compare_exchange_strong, if_neg e,
          Bool.false_eq_true, if_false, Option.some.injEq] at h
        subst h
        exact ⟨d1, d2, d3, d4, by simp, d6⟩
    · -- get
      subst h
      exact ⟨d1, d2, d3, d4, fun _ => d5 (by simp), d6⟩
    · -- ts
      subst h
      obtain ⟨b1, b2⟩ := d5 (by simp)
      unfold NB_ARSS_2.Sys.Dat NB_ARSS_2.non_decreasing
      dsimp only
      refine ⟨d1, d2, d3, ?_, by simp, ?_⟩
      · intro p hp
        rcases List.mem_cons.1 hp with e | e
        · subst e; exact b1
        · exact d4 p e
      · exact List.pairwise_cons.2 ⟨fun p hp => b2 p hp, d6⟩
  | reader_spurious =>
    cases rpc <;> simp only [NB_ARSS_2.Sys.step, Option.some.injEq, reduceCtorEq] at h
    simp only [compare_exchange_weak, if_true, Option.some.injEq] at h
    subst h
    exact ⟨d1, d2, d3, d4, by simp, d6⟩

theorem w_log_step_nb4b {T : Type} (copy : T → T) (get : T → T → T) (a : Act T)
    (s s' : NB_ARSS_2.Sys T) (h : NB_ARSS_2.Sys.step copy get a s = some s') :
    s'.w_log = s.w_log ∨ ∃ w, s'.w_log = w :: s.w_log := by
  obtain ⟨b, S, wpc, wo, wt, wl, ws, rpc, rl, rs, ro, rt, wlog, rlog⟩ := s
  cases a with
  | write obj ts =>
    cases wpc <;> simp only [NB_ARSS_2.Sys.step, Option.some.injEq, reduceCtorEq] at h
    subst h
    exact Or.inr ⟨(obj, ts), rfl⟩
  | writer =>
    cases wpc <;> simp only [NB_ARSS_2.Sys.step, Option.some.injEq, reduceCtorEq] at h
    · subst h; exact Or.inl rfl
    · subst h; exact Or.inl rfl
    · subst h; exact Or.inl rfl
    · by_cases e : S = wl
      · subst e
        simp only [compare_exchange_strong, ↓reduceIte, Option.some.injEq] at h
        subst h; exact Or.inl rfl
      · simp only [compare_exchange_strong, if_neg e, Option.some.injEq] at h
        subst h; exact Or.inl rfl
    · subst h; exact Or.inl rfl
  | read dest =>
    cases rpc <;> simp only [NB_ARSS_2.Sys.step, Option.some.injEq, reduceCtorEq] at h
    subst h; exact Or.inl rfl
  | reader =>
    cases rpc <;> simp only [NB_ARSS_2.Sys.step, Option.some.injEq, reduceCtorEq] at h
    · by_cases e : S = rl
      · subst e
        simp only [compare_exchange_weak, compare_exchange_strong, ↓reduceIte,
          Bool.false_eq_true, if_false, Option.some.injEq] at h
        subst h; exact Or.inl rfl
      · simp only [compare_exchange_weak, compare_exchange_strong, if_neg e,
          Bool.false_eq_true, if_false, Option.some.injEq] at h
        subst h; exact Or.inl rfl
    · subst h; exact Or.inl rfl
    · subst h; exact Or.inl rfl
  | reader_spurious =>
    cases rpc <;> simp only [NB_ARSS_2.Sys.step, Option.some.injEq, reduceCtorEq] at h
    simp only [compare_exchange_weak, if_true, Option.some.injEq] at h
    subst h; exact Or.inl rfl

theorem inv_init_nb4b {T : Type} (nvi : T) : (NB_ARSS_2.Sys.init nvi).Inv :=
  ⟨ctl_init_nb4b nvi, fun _ _ => dat_init_nb4b nvi⟩

theorem inv_step_nb4b {T : Type} (copy : T → T) (get : T → T → T) (a : Act T)
    (s s' : NB_ARSS_2.Sys T) (hi : s.Inv) (h : NB_ARSS_2.Sys.step copy get a s = some s') :
    s'.Inv := by
  refine ⟨ctl_step_nb4b copy get a s s' hi.1 h, fun hinc hge => ?_⟩
  refine dat_step_nb4b copy get a s s' hi.1 (hi.2 ?_ ?_) h hinc hge
  · rcases w_log_step_nb4b copy get a s s' h with e | ⟨w, e⟩
    · rw [← e]; exact hinc
    · unfold NB_ARSS_2.increasing at hinc ⊢
      rw [e] at hinc
      exact (List.pairwise_cons.1 hinc).2
  · intro w hw
    rcases w_log_step_nb4b copy get a s s' h with e | ⟨x, e⟩
    · exact hge w (e ▸ hw)
    · exact hge w (e ▸ List.mem_cons_of_mem _ hw)

theorem reachable_inv_nb4b {T : Type} (copy : T → T) (get : T → T → T) (nvi : T)
    (s : NB_ARSS_2.Sys T) (h : NB_ARSS_2.Sys.Reachable copy get nvi s) : s.Inv := by
  induction h with
  | init => exact inv_init_nb4b nvi
  | step a s s' _ hs ih => exact inv_step_nb4b copy get a s s' ih hs

theorem reachable_of_run_nb4b {T : Type} (copy : T → T) (get : T → T → T) (nvi : T) :
    ∀ (acts : List (Act T)) (s s' : NB_ARSS_2.Sys T), NB_ARSS_2.Sys.Reachable copy get nvi s →
      NB_ARSS_2.Sys.run copy get acts s = some s' → NB_ARSS_2.Sys.Reachable copy get nvi s'
  | [], s, s', hs, h => by
    simp only [NB_ARSS_2.Sys.run, Option.some.injEq] at h
    exact h ▸ hs
  | a :: acts, s, s', hs, h => by
    simp only [NB_ARSS_2.Sys.run] at h
    cases hst : NB_ARSS_2.Sys.step copy get a s with
    | none => simp [hst] at h
    | some s₁ =>
      simp only [hst] at h
      exact reachable_of_run_nb4b copy get nvi acts s₁ s' (.step a s s₁ hs hst) h

/-- C6 as stated fails when a timestamp lies below the reserved -1: a read of
the fresh `NB_ARSS_2` returns -1, and after the single write (7,-5), whose
timestamps are trivially strictly increasing, the next read returns -5. -/
theorem timestamps_decrease_nb4b :
    NB_ARSS_2.Sys.Reachable COPY_FNC GET_FNC (-1) NB_ARSS_2.Sys.below
    ∧ NB_ARSS_2.increasing NB_ARSS_2.Sys.below.w_log
    ∧ NB_ARSS_2.Sys.below.r_log = [(7, -5), (-1, -1)]
    ∧ ¬ NB_ARSS_2.non_decreasing NB_ARSS_2.Sys.below.r_log :=
  ⟨reachable_of_run_nb4b COPY_FNC GET_FNC (-1)
      [.read 0, .reader, .reader, .reader,
       .write 7 (-5), .writer, .writer, .writer, .writer,
       .read 0, .reader, .reader, .reader] _ _ .init (by rfl),
   by decide, by decide, by decide⟩

/-- C6 (amended): under every schedule of the atomic steps of one writer and
one reader on a `NB_ARSS_2`, spurious failures of the reader's weak CAS
included, if the timestamps the writer supplied are strictly increasing and
none of them is below -1, then the timestamps returned by the reader's
successive reads are non-decreasing. -/
theorem monotonic_timestamps_nb4b {T : Type} (copy : T → T) (get : T → T → T) (nvi : T)
    (s : NB_ARSS_2.Sys T) (h : NB_ARSS_2.Sys.Reachable copy get nvi s)
    (hinc : NB_ARSS_2.increasing s.w_log) (hge : ∀ w ∈ s.w_log, NO_VALUE_TS ≤ w.2) :
    NB_ARSS_2.non_decreasing s.r_log :=
  ((reachable_inv_nb4b copy get nvi s h).2 hinc hge).2.2.2.2.2

/-- Instance of C6 (amended): three reads around the writes (42,1) and (43,2),
the second read meeting a spurious and a genuine CAS failure, return the
timestamps -1, 1, 2. -/
theorem monotonic_timestamps_nb4b_witness :
    NB_ARSS_2.increasing NB_ARSS_2.Sys.demo.w_log
    ∧ (∀ w ∈ NB_ARSS_2.Sys.demo.w_log, NO_VALUE_TS ≤ w.2)
    ∧ NB_ARSS_2.Sys.demo.r_log = [(43, 2), (42, 1), (-1, -1)]
    ∧ NB_ARSS_2.non_decreasing NB_ARSS_2.Sys.demo.r_log :=
  ⟨by decide, by decide, by decide,
   monotonic_timestamps_nb4b COPY_FNC GET_FNC (-1) NB_ARSS_2.Sys.demo
     (reachable_of_run_nb4b COPY_FNC GET_FNC (-1)
       [.read 0, .reader, .reader, .reader,
        .write 42 1, .writer, .writer, .writer, .read 0, .reader_spurious, .writer, .reader,
        .reader, .write 43 2, .reader, .writer, .writer, .reader, .writer, .writer,
        .read 0, .reader, .reader, .reader] _ _ .init (by rfl))
     (by decide) (by decide)⟩

/-! ## A write whose `free` throws -/

theorem free_threw_blk {T : Type} (f : Fncs T) (s : B_AR_1 T) (obj : T) (ts : Int)
    (hm : s.m_mutex = false) (hf : f.free_fnc s.m_reg.obj = none) :
    B_AR_1.write f s obj ts
        = { state := { s with m_mutex := true }, calls := [.free s.m_reg.obj], out := .threw }
    ∧ ∀ d, (B_AR_1.read f { s with m_mutex := true } d).out = .blocked := by
  obtain ⟨c, m⟩ := s
  simp only at hm hf
  subst hm
  simp [B_AR_1.write, B_AR_1.read, hf]

theorem free_threw_nb4a {T : Type} (f : Fncs T) (s : Nat × NB_ARSS_1 T) (obj : T) (ts : Int)
    (hv : NB_ARSS_1.Valid s)
    (hf : f.free_fnc (s.2.m_buffer (NB_ARSS_1.slot_for s.1 s.2.m_next_read)).obj = none) :
    NB_ARSS_1.write f s.1 s.2 obj ts
        = { state := (NB_ARSS_1.slot_for s.1 s.2.m_next_read,
              { s.2 with m_next_read := s.2.m_next_read % 4 }),
            calls := [.free (s.2.m_buffer (NB_ARSS_1.slot_for s.1 s.2.m_next_read)).obj],
            out := .threw }
    ∧ ∀ d, (NB_ARSS_1.read f { s.2 with m_next_read := s.2.m_next_read % 4 } d).out
        = (NB_ARSS_1.read f s.2 d).out := by
  refine ⟨by rw [write_eq_nb4a f s obj ts hv, hf], fun d => ?_⟩
  have e : s.2.m_next_read % 4 % 4 = s.2.m_next_read % 4 := by omega
  rw [read_eq_nb4a f s.2 d hv.2, read_eq_nb4a f _ d (by simp only; omega)]
  simp only [e]

theorem free_threw_nb4b {T : Type} (f : Fncs T) (s : NB_ARSS_2 T) (obj : T) (ts : Int)
    (hv : NB_ARSS_2.Valid s) (hf : f.free_fnc (s.m_buffer (s.m_status % 4)).obj = none) :
    NB_ARSS_2.write f s obj ts
        = { state := s, calls := [.free (s.m_buffer (s.m_status % 4)).obj], out := .threw } := by
  rw [write_eq_nb4b f s obj ts hv, hf]

theorem free_threw_nb3c {T : Type} (f : Fncs T) (s : NB_ARSS_3 T) (obj : T) (ts : Int)
    (hv : NB_ARSS_3.Valid s) (hf : f.free_fnc (s.m_buffer s.slot_for).obj = none) :
    NB_ARSS_3.write f s obj ts
        = { state := s, calls := [.free (s.m_buffer s.slot_for).obj], out := .threw } := by
  rw [write_eq_nb3c f s obj ts hv, hf]

theorem free_threw_nb3d {T : Type} (f : Fncs T) (s : NB_ARSS_4 T) (obj : T) (ts : Int)
    (hv : NB_ARSS_4.Valid s) (hf : f.free_fnc (s.m_buffer s.slot_for).obj = none) :
    NB_ARSS_4.write f s obj ts
        = { state := { s with m_write_slot := s.slot_for },
            calls := [.free (s.m_buffer s.slot_for).obj], out := .threw }
    ∧ ∀ fuel d, (NB_ARSS_4.read f fuel { s with m_write_slot := s.slot_for } d).out
        = (NB_ARSS_4.read f fuel s d).out :=
  ⟨by rw [write_eq_nb3d f s obj ts hv, hf],
   fun fuel d => read_ignores_write_slot_nb3d f fuel s s.slot_for d⟩

/-- C11 fails as stated.  With a `free` that throws, the write (42,1) on a
fresh `NB_ARSS_4` ends by the exception after the single call `free(-1)`:
`copy` is not called, and the read that follows returns (-1,-1), not (42,1).
The same on a fresh `NB_ARSS_2`; on a fresh `B_AR_1` the cell still holds
(-1,-1) and the read that follows blocks on the mutex. -/
theorem free_failure_not_absorbed :
    ((NB_ARSS_4.write Fncs.free_throws (NB_ARSS_4.init (-1)) 42 1).out = .threw
      ∧ (NB_ARSS_4.write Fncs.free_throws (NB_ARSS_4.init (-1)) 42 1).calls = [.free (-1)]
      ∧ (NB_ARSS_4.read Fncs.free_throws 1
          (NB_ARSS_4.write Fncs.free_throws (NB_ARSS_4.init (-1)) 42 1).state 0).out
          = .returned (-1, -1))
    ∧ ((NB_ARSS_2.write Fncs.free_throws (NB_ARSS_2.init (-1)) 42 1).out = .threw
      ∧ (NB_ARSS_2.write Fncs.free_throws (NB_ARSS_2.init (-1)) 42 1).calls = [.free (-1)]
      ∧ (NB_ARSS_2.read Fncs.free_throws 1 0
          (NB_ARSS_2.write Fncs.free_throws (NB_ARSS_2.init (-1)) 42 1).state 0).out
          = .returned (-1, -1))
    ∧ ((B_AR_1.write Fncs.free_throws (B_AR_1.init (-1)) 42 1).out = .threw
      ∧ (B_AR_1.write Fncs.free_throws (B_AR_1.init (-1)) 42 1).calls = [.free (-1)]
      ∧ (B_AR_1.write Fncs.free_throws (B_AR_1.init (-1)) 42 1).state.m_reg.obj = -1
      ∧ (B_AR_1.write Fncs.free_throws (B_AR_1.init (-1)) 42 1).state.m_reg.ts = -1
      ∧ (B_AR_1.read Fncs.free_throws
          (B_AR_1.write Fncs.free_throws (B_AR_1.init (-1)) 42 1).state 0).out = .blocked) :=
  ⟨⟨rfl, rfl, rfl⟩, ⟨rfl, rfl, rfl⟩, ⟨rfl, rfl, rfl, rfl, rfl⟩⟩

/-- C11, as amended: in every sequentially reachable state, if `free` throws
on the object of the slot a write has selected, the exception leaves the
write: `free` is the only callback called (no `copy`), no buffer cell is
modified and the slot advertised as latest stays the same, so that on the
non-blocking classes the next read answers as it would have before that
write.  `NB_ARSS_2` and `NB_ARSS_3` are left exactly in their prior state;
`NB_ARSS_1` has cleared bit 2 of its control word and set the static
`next_write` to the slot it had selected; `NB_ARSS_4` has advanced
`m_write_slot` to the slot it had selected; `B_AR_1` is left with its mutex
locked, so that its next read blocks. -/
theorem free_failure_effect {T : Type} (f : Fncs T) (nvi : T) :
    (∀ (s : B_AR_1 T) (obj : T) (ts : Int), B_AR_1.Reachable f nvi s →
      s.m_mutex = false → f.free_fnc s.m_reg.obj = none →
      B_AR_1.write f s obj ts
          = { state := { s with m_mutex := true }, calls := [.free s.m_reg.obj], out := .threw }
      ∧ ∀ d, (B_AR_1.read f { s with m_mutex := true } d).out = .blocked)
    ∧ (∀ (s : Nat × NB_ARSS_1 T) (obj : T) (ts : Int), NB_ARSS_1.Reachable f nvi s →
      f.free_fnc (s.2.m_buffer (NB_ARSS_1.slot_for s.1 s.2.m_next_read)).obj = none →
      NB_ARSS_1.write f s.1 s.2 obj ts
          = { state := (NB_ARSS_1.slot_for s.1 s.2.m_next_read,
                { s.2 with m_next_read := s.2.m_next_read % 4 }),
              calls := [.free (s.2.m_buffer (NB_ARSS_1.slot_for s.1 s.2.m_next_read)).obj],
              out := .threw }
      ∧ ∀ d, (NB_ARSS_1.read f { s.2 with m_next_read := s.2.m_next_read % 4 } d).out
          = (NB_ARSS_1.read f s.2 d).out)
    ∧ (∀ (s : NB_ARSS_2 T) (obj : T) (ts : Int), NB_ARSS_2.Reachable f nvi s →
      f.free_fnc (s.m_buffer (s.m_status % 4)).obj = none →
      NB_ARSS_2.write f s obj ts
          = { state := s, calls := [.free (s.m_buffer (s.m_status % 4)).obj], out := .threw })
    ∧ (∀ (s : NB_ARSS_3 T) (obj : T) (ts : Int), NB_ARSS_3.Reachable f nvi s →
      f.free_fnc (s.m_buffer s.slot_for).obj = none →
      NB_ARSS_3.write f s obj ts
          = { state := s, calls := [.free (s.m_buffer s.slot_for).obj], out := .threw })
    ∧ (∀ (s : NB_ARSS_4 T) (obj : T) (ts : Int), NB_ARSS_4.Reachable f nvi s →
      f.free_fnc (s.m_buffer s.slot_for).obj = none →
      NB_ARSS_4.write f s obj ts
          = { state := { s with m_write_slot := s.slot_for },
              calls := [.free (s.m_buffer s.slot_for).obj], out := .threw }
      ∧ ∀ fuel d, (NB_ARSS_4.read f fuel { s with m_write_slot := s.slot_for } d).out
          = (NB_ARSS_4.read f fuel s d).out) :=
  ⟨fun s obj ts _ hm hf => free_threw_blk f s obj ts hm hf,
   fun s obj ts hr hf => free_threw_nb4a f s obj ts (reachable_valid_nb4a f nvi s hr) hf,
   fun s obj ts hr hf => free_threw_nb4b f s obj ts (reachable_valid_nb4b f nvi s hr) hf,
   fun s obj ts hr hf => free_threw_nb3c f s obj ts (reachable_valid_nb3c f nvi s hr) hf,
   fun s obj ts hr hf => free_threw_nb3d f s obj ts (reachable_valid_nb3d f nvi s hr) hf⟩

/-- Instance of the amended C11: the write (42,1) with a throwing `free` on a
fresh `NB_ARSS_4`, on a fresh `NB_ARSS_3` and on a fresh `B_AR_1` of integers. -/
theorem free_failure_effect_witness :
    (NB_ARSS_4.write Fncs.free_throws (NB_ARSS_4.init (-1)) 42 1).state.m_write_slot = 1
    ∧ (NB_ARSS_4.write Fncs.free_throws (NB_ARSS_4.init (-1)) 42 1).calls = [.free (-1)]
    ∧ (NB_ARSS_3.write Fncs.free_throws (NB_ARSS_3.init (-1)) 42 1).calls = [.free (-1)]
    ∧ (B_AR_1.write Fncs.free_throws (B_AR_1.init (-1)) 42 1).state.m_mutex = true :=
  ⟨congrArg (fun r => r.state.m_write_slot)
      ((free_failure_effect Fncs.free_throws (-1)).2.2.2.2 (NB_ARSS_4.init (-1)) 42 1
        Reach.init (by rfl)).1,
   congrArg (fun r => r.calls)
      ((free_failure_effect Fncs.free_throws (-1)).2.2.2.2 (NB_ARSS_4.init (-1)) 42 1
        Reach.init (by rfl)).1,
   congrArg (fun r => r.calls)
      ((free_failure_effect Fncs.free_throws (-1)).2.2.2.1 (NB_ARSS_3.init (-1)) 42 1
        Reach.init (by rfl)),
   congrArg (fun r => r.state.m_mutex)
      ((free_failure_effect Fncs.free_throws (-1)).1 (B_AR_1.init (-1)) 42 1
        Reach.init (by rfl) (by rfl)).1⟩

/-! ## Destruction -/

theorem free_slots_of_returns {T : Type} (f : Fncs T) (b : Nat → ARContent T)
    (hf : ∀ x, f.free_fnc x = some ()) :
    ∀ n k, free_slots f b k n = ((List.range' k n).map (fun i => Call.free (b i).obj), true)
  | 0, k => by simp [free_slots]
  | n + 1, k => by
    simp only [free_slots, hf, free_slots_of_returns f b hf n (k + 1), List.range'_succ,
      List.map_cons]

theorem destroy_frees_each_slot {T : Type} (f : Fncs T) (hf : ∀ x, f.free_fnc x = some ()) :
    (∀ s : B_AR_1 T, B_AR_1.destroy f s = ([.free s.m_reg.obj], true))
    ∧ (∀ s : NB_ARSS_2 T, NB_ARSS_2.destroy f s
        = ([.free (s.m_buffer 0).obj, .free (s.m_buffer 1).obj, .free (s.m_buffer 2).obj,
            .free (s.m_buffer 3).obj], true))
    ∧ (∀ s : NB_ARSS_3 T, NB_ARSS_3.destroy f s
        = ([.free (s.m_buffer 0).obj, .free (s.m_buffer 1).obj, .free (s.m_buffer 2).obj], true))
    ∧ (∀ s : NB_ARSS_4 T, NB_ARSS_4.destroy f s
        = ([.free (s.m_buffer 0).obj, .free (s.m_buffer 1).obj, .free (s.m_buffer 2).obj],
            true)) := by
  refine ⟨fun s => ?_, fun s => ?_, fun s => ?_, fun s => ?_⟩
  · simp [B_AR_1.destroy, hf]
  · rw [NB_ARSS_2.destroy, free_slots_of_returns f _ hf]; rfl
  · rw [NB_ARSS_3.destroy, free_slots_of_returns f _ hf]; rfl
  · rw [NB_ARSS_4.destroy, free_slots_of_returns f _ hf]; rfl

/-- C12 at the failing input: a `NB_ARSS_1` whose slot 1 holds the copy of 10
after the write (10,1) is destroyed without any call of `free` (the class
declares no destructor), whereas the `NB_ARSS_2` in the same situation calls
`free` on its four slots. -/
theorem destroy_nb4a_frees_nothing :
    (NB_ARSS_1.written_once.m_buffer 1).obj = 10
    ∧ (NB_ARSS_1.destroy Fncs.dflt NB_ARSS_1.written_once).1 = []
    ∧ (NB_ARSS_2.written_once.m_buffer 1).obj = 10
    ∧ (NB_ARSS_2.destroy Fncs.dflt NB_ARSS_2.written_once).1
        = [.free (-1), .free 10, .free (-1), .free (-1)] :=
  ⟨rfl, rfl, rfl, rfl⟩

/-! ## The static `next_write` of `NB_ARSS_1::write` -/

/-- C13 at the failing input: after `a.write(10,1)` the static `next_write`
is 3, so `b.write(20,2)` on the fresh register `b` writes slot 3, whereas
alone in its process `b` writes slot 1.  It leaves `next_write` at 1, the
latest slot of `a`: the call `a.write(11,3)` that follows frees the object 10
of that slot and overwrites it, whereas without the write on `b` it frees the
no-value indicator of slot 3. -/
theorem next_write_shared_nb4a :
    (NB_ARSS_1.on_a.state.1 = 3 ∧ NB_ARSS_1.on_a.state.2.m_next_read = 1)
    ∧ (NB_ARSS_1.then_on_b.state.2.m_next_read = 3
      ∧ (NB_ARSS_1.write Fncs.dflt NB_ARSS_1.next_write_init (NB_ARSS_1.init (-1)) 20 2
          ).state.2.m_next_read = 1)
    ∧ (NB_ARSS_1.then_on_b.state.1 = 1
      ∧ (NB_ARSS_1.on_a.state.2.m_buffer 1).obj = 10
      ∧ NB_ARSS_1.again_on_a.calls = [.free 10, .copy 11]
      ∧ NB_ARSS_1.again_on_a.state.2.m_next_read = 1
      ∧ (NB_ARSS_1.write Fncs.dflt NB_ARSS_1.on_a.state.1 NB_ARSS_1.on_a.state.2 11 3).calls
          = [.free (-1), .copy 11]
      ∧ (NB_ARSS_1.write Fncs.dflt NB_ARSS_1.on_a.state.1 NB_ARSS_1.on_a.state.2 11 3
          ).state.2.m_next_read = 3) := by
  refine ⟨⟨by decide, by decide⟩, ⟨by decide, by decide⟩, by decide, by decide, ?_, by decide, ?_,
    by decide⟩ <;> rfl

/-! ## The two `read` methods of `NB_ARSS_4` -/

theorem read_loop_seen_const (m : Nat) : ∀ fuel k l n,
    NB_ARSS_4.read_loop_seen (fun _ => m) fuel k l n = NB_ARSS_4.read_loop m fuel l n
  | 0, _, _, _ => rfl
  | fuel + 1, k, l, n => by
    unfold NB_ARSS_4.read_loop_seen NB_ARSS_4.read_loop
    by_cases e : m = l
    · simp [compare_exchange_strong, e]
    · simp only [compare_exchange_strong, if_neg e]
      exact read_loop_seen_const m fuel (k + 1) m (n + 1)

theorem read_loop_seen_count (seen : Nat → Nat) : ∀ fuel k l n m l' n',
    NB_ARSS_4.read_loop_seen seen fuel k l n = some (m, l', n') →
      n' = n + NB_ARSS_4.failed_cas seen fuel k l
  | 0, _, _, _, _, _, _, h => by simp [NB_ARSS_4.read_loop_seen] at h
  | fuel + 1, k, l, n, m, l', n', h => by
    unfold NB_ARSS_4.read_loop_seen at h
    unfold NB_ARSS_4.failed_cas
    by_cases e : seen k = l
    · simp only [compare_exchange_strong, if_pos e, Option.some.injEq, Prod.mk.injEq] at h
      simp [compare_exchange_strong, e, h.2.2]
    · simp only [compare_exchange_strong, if_neg e] at h
      have := read_loop_seen_count seen fuel (k + 1) (seen k) (n + 1) m l' n' h
      simp only [compare_exchange_strong, if_neg e, Bool.false_eq_true, if_false]
      omega

theorem read_loop_seen_quiet (seen : Nat → Nat) (fuel k l n : Nat)
    (h : seen (k + 1) = seen k) :
    ∃ r, NB_ARSS_4.read_loop_seen seen (fuel + 2) k l n = some r := by
  unfold NB_ARSS_4.read_loop_seen
  by_cases e : seen k = l
  · simp [compare_exchange_strong, e]
  · simp only [compare_exchange_strong, if_neg e]
    unfold NB_ARSS_4.read_loop_seen
    simp [compare_exchange_strong, h]

theorem read3_read_nb3d {T : Type} (f : Fncs T) (fuel : Nat) (s : NB_ARSS_4 T) (d : T) :
    (NB_ARSS_4.read3 f fuel s d).state = (NB_ARSS_4.read f fuel s d).state
    ∧ (NB_ARSS_4.read3 f fuel s d).calls = (NB_ARSS_4.read f fuel s d).calls
    ∧ (NB_ARSS_4.read f fuel s d).out
        = (NB_ARSS_4.read3 f fuel s d).out.map (fun v => (v.1, v.2.1)) := by
  simp only [NB_ARSS_4.read3, NB_ARSS_4.read]
  cases NB_ARSS_4.read_loop s.m_status fuel s.m_status 1 with
  | none => exact ⟨rfl, rfl, rfl⟩
  | some r =>
    simp only
    split
    · cases f.get_fnc _ d <;> exact ⟨rfl, rfl, rfl⟩
    · exact ⟨rfl, rfl, rfl⟩

/-- C14: in every sequentially reachable state of a `NB_ARSS_4`, the
three-argument `read` leaves the same state (hence makes the same transition
of `m_status`), calls the same callbacks and ends as the two-argument `read`
does, with the same `*obj` and `*ts`; when no write intervenes it returns
within one iteration of its loop and reports 1 in `*nretry`.  When stores of
the writer intervene, so that attempt `k` finds `seen k` in `m_status`, the
loop shared by the two methods reports 1 plus the number of its failed CASes,
and it ends as soon as two successive attempts find the same value. -/
theorem read3_agrees_with_read {T : Type} (f : Fncs T) (nvi : T) (s : NB_ARSS_4 T)
    (h : NB_ARSS_4.Reachable f nvi s) (fuel : Nat) (d : T) :
    ((NB_ARSS_4.read3 f fuel s d).state = (NB_ARSS_4.read f fuel s d).state
      ∧ (NB_ARSS_4.read3 f fuel s d).calls = (NB_ARSS_4.read f fuel s d).calls
      ∧ (NB_ARSS_4.read f fuel s d).out
          = (NB_ARSS_4.read3 f fuel s d).out.map (fun v => (v.1, v.2.1)))
    ∧ (∀ o, f.get_fnc (s.m_buffer (s.m_status / 4)).obj d = some o →
        (NB_ARSS_4.read3 f (fuel + 1) s d).out
          = .returned (o, (s.m_buffer (s.m_status / 4)).ts, 1))
    ∧ (∀ v, (NB_ARSS_4.read3 f fuel s d).out = .returned v → v.2.2 = 1)
    ∧ (∀ (m k l n : Nat),
        NB_ARSS_4.read_loop m fuel l n = NB_ARSS_4.read_loop_seen (fun _ => m) fuel k l n)
    ∧ (∀ (seen : Nat → Nat) (l m l' n' : Nat),
        NB_ARSS_4.read_loop_seen seen fuel 0 l 1 = some (m, l', n') →
          n' = 1 + NB_ARSS_4.failed_cas seen fuel 0 l)
    ∧ (∀ (seen : Nat → Nat) (l : Nat), seen 1 = seen 0 →
        ∃ r, NB_ARSS_4.read_loop_seen seen (fuel + 2) 0 l 1 = some r) := by
  have hv := reachable_valid_nb3d f nvi s h
  refine ⟨read3_read_nb3d f fuel s d, ?_, ?_, fun m k l n => (read_loop_seen_const m fuel k l n).symm,
    fun seen l m l' n' hr => read_loop_seen_count seen fuel 0 l 1 m l' n' hr,
    fun seen l hq => read_loop_seen_quiet seen fuel 0 l 1 hq⟩
  · intro o ho
    rw [read3_eq_nb3d f fuel s d hv, ho]
  · intro v hr
    cases fuel with
    | zero => simp [NB_ARSS_4.read3, NB_ARSS_4.read_loop] at hr
    | succ k =>
      rw [read3_eq_nb3d f k s d hv] at hr
      cases hg : f.get_fnc (s.m_buffer (s.m_status / 4)).obj d with
      | none => simp [hg] at hr
      | some o =>
        simp only [hg, Outcome.returned.injEq] at hr
        rw [← hr]

/-- Instance of C14: on a `NB_ARSS_4` of integers after the write (42,1), both
`read` methods return (42,1) and leave the status 5, the second with 1 in
`*nretry`; a loop whose first attempt finds 9 in `m_status` instead of the 4
it had loaded reports 2. -/
theorem read3_agrees_with_read_witness :
    (NB_ARSS_4.read3 Fncs.dflt 1 (NB_ARSS_4.write Fncs.dflt (NB_ARSS_4.init (-1)) 42 1).state 0
        ).out = .returned (42, 1, 1)
    ∧ (NB_ARSS_4.read Fncs.dflt 1 (NB_ARSS_4.write Fncs.dflt (NB_ARSS_4.init (-1)) 42 1).state 0
        ).out = .returned (42, 1)
    ∧ (NB_ARSS_4.read3 Fncs.dflt 1
        (NB_ARSS_4.write Fncs.dflt (NB_ARSS_4.init (-1)) 42 1).state 0).state.m_status = 5
    ∧ (NB_ARSS_4.read3 Fncs.dflt 1
        (NB_ARSS_4.write Fncs.dflt (NB_ARSS_4.init (-1)) 42 1).state 0).state
        = (NB_ARSS_4.read Fncs.dflt 1
            (NB_ARSS_4.write Fncs.dflt (NB_ARSS_4.init (-1)) 42 1).state 0).state
    ∧ NB_ARSS_4.read_loop_seen (fun _ => 9) 2 0 4 1 = some (10, 9, 2) :=
  ⟨rfl, rfl, rfl,
   (read3_agrees_with_read Fncs.dflt (-1)
      (NB_ARSS_4.write Fncs.dflt (NB_ARSS_4.init (-1)) 42 1).state
      (Reach.write _ 42 1 Reach.init) 1 0).1.1,
   by decide⟩

/-! ## The table `next` of `NB_ARSS_3::write` -/

/-- C15: for every `r` in {0,1,2,3} and every `l` in {0,1,2} the entry
`next[r][l]` of the table of `NB_ARSS_3::write` exists, is one of 0, 1, 2,
differs from `l`, and differs from `r` unless `r` is 3. -/
theorem next_entry_avoids (r l : Nat) (hr : r < 4) (hl : l < 3) :
    ∃ n, NB_ARSS_3.next_at r l = some n ∧ n < 3 ∧ n ≠ l ∧ (r ≠ 3 → n ≠ r) := by
  interval_cases r <;> interval_cases l <;> decide

/-- Instance of C15: `next[1][0]` is 2. -/
theorem next_entry_avoids_witness :
    NB_ARSS_3.next_at 1 0 = some 2
    ∧ ∃ n, NB_ARSS_3.next_at 1 0 = some n ∧ n < 3 ∧ n ≠ 0 ∧ (1 ≠ 3 → n ≠ 1) :=
  ⟨rfl, next_entry_avoids 1 0 (by decide) (by decide)⟩

/-! ## The slot a sequential `NB_ARSS_4::write` selects -/

/-- C17: under every schedule of one writer and one reader on a `NB_ARSS_4`,
whatever the callbacks do,
when the writer stands before its second CAS (its first one failed), the
status equals the value the failed CAS observed, so the second CAS succeeds
and the write ends with it; and every step that ends a write leaves the
write's slot in the upper field of the status, the slot advertised as latest. -/
theorem second_cas_succeeds_nb3d {T : Type} (f : Fncs T) (nvi : T)
    (s : NB_ARSS_4.Sys T) (h : NB_ARSS_4.Sys.Reachable f nvi s) :
    (s.wpc = .cas2 →
      (compare_exchange_strong s.m_status s.w_local_status
        (u8 ((s.m_write_slot <<< 2) ||| (s.w_local_status &&& 0x3)))).1 = true
      ∧ ∃ s', NB_ARSS_4.Sys.step f .writer s = some s' ∧ s'.wpc = .idle)
    ∧ (∀ s', (s.wpc = .cas1 ∨ s.wpc = .cas2) →
        NB_ARSS_4.Sys.step f .writer s = some s' → s'.wpc = .idle →
        s'.m_status >>> 2 = s.m_write_slot ∧ s'.m_write_slot = s.m_write_slot) := by
  obtain ⟨h1, h2, h3, h6, h7, h8⟩ := reachable_ctl_nb3d f nvi s h
  obtain ⟨b, S, ws, wpc, wo, wt, wl, rpc, rl, rs, ro, rt, wlog, rlog⟩ := s
  simp only at h1 h2 h3 h6 h7 h8
  refine ⟨?_, ?_⟩
  · intro hc
    simp only at hc
    subst hc
    obtain ⟨e, _⟩ := h7 rfl
    subst e
    simp [compare_exchange_strong, NB_ARSS_4.Sys.step]
  · intro s' hc hs hi
    simp only at hc
    rcases hc with hc | hc
    · subst hc
      by_cases e : S = wl
      · subst e
        simp only [NB_ARSS_4.Sys.step, compare_exchange_strong, ↓reduceIte,
          Option.some.injEq] at hs
        subst hs
        simp only
        rw [land_3, published_eq_nb3d ws h3 (S % 4) (by omega), Nat.shiftRight_eq_div_pow]
        exact ⟨by omega, trivial⟩
      · simp only [NB_ARSS_4.Sys.step, compare_exchange_strong, if_neg e,
          Option.some.injEq] at hs
        subst hs
        simp at hi
    · subst hc
      obtain ⟨e, _⟩ := h7 rfl
      subst e
      simp only [NB_ARSS_4.Sys.step, compare_exchange_strong, ↓reduceIte,
        Option.some.injEq] at hs
      subst hs
      simp only
      rw [land_3, published_eq_nb3d ws h3 (wl % 4) (by omega), Nat.shiftRight_eq_div_pow]
      exact ⟨by omega, trivial⟩

/-- Instance of C17: in `NB_ARSS_4.Sys.retry` the writer stands before its
second CAS with slot 2, the status and the observed value are both 5, and the
step of the writer ends the write with the status 9 (latest 2, last read 1). -/
theorem second_cas_succeeds_nb3d_witness :
    NB_ARSS_4.Sys.retry.wpc = .cas2 ∧ NB_ARSS_4.Sys.retry.m_write_slot = 2
    ∧ NB_ARSS_4.Sys.retry.m_status = 5 ∧ NB_ARSS_4.Sys.retry.w_local_status = 5
    ∧ (NB_ARSS_4.Sys.step Fncs.dflt .writer NB_ARSS_4.Sys.retry).map
        (fun s => (s.m_status, s.wpc)) = some (9, .idle)
    ∧ (compare_exchange_strong NB_ARSS_4.Sys.retry.m_status NB_ARSS_4.Sys.retry.w_local_status
        (u8 ((NB_ARSS_4.Sys.retry.m_write_slot <<< 2)
          ||| (NB_ARSS_4.Sys.retry.w_local_status &&& 0x3)))).1 = true :=
  ⟨rfl, rfl, rfl, rfl, by decide,
   ((second_cas_succeeds_nb3d Fncs.dflt (-1) NB_ARSS_4.Sys.retry
      (reachable_of_run_nb3d Fncs.dflt (-1)
        [.write 42 1, .writer, .writer, .writer, .writer,
         .write 43 2, .writer, .writer, .writer, .read 0, .reader, .writer] _ _ .init
        (by rfl))).1 rfl).1⟩

/-- C18: under every schedule of one writer and one reader on the one
`NB_ARSS_1` of a process, when the writer stands before its second CAS (its
first one failed), the control word equals the value the failed CAS observed,
so the second CAS succeeds and the write ends with it; and every step that
ends a write leaves the control word equal to the slot just written: bit 2
cleared, the two low bits that slot. -/
theorem second_cas_succeeds_nb4a {T : Type} (copy : T → T) (get : T → T → T) (nvi : T)
    (s : NB_ARSS_1.Sys T) (h : NB_ARSS_1.Sys.Reachable copy get nvi s) :
    (s.wpc = .cas2 →
      (compare_exchange_strong s.m_next_read s.w_local_next_read s.w_write_slot).1 = true
      ∧ ∃ s', NB_ARSS_1.Sys.step copy get .writer s = some s' ∧ s'.wpc = .idle)
    ∧ (∀ s', (s.wpc = .cas1 ∨ s.wpc = .cas2) →
        NB_ARSS_1.Sys.step copy get .writer s = some s' → s'.wpc = .idle →
        s'.m_next_read = s.w_write_slot ∧ s'.m_next_read >>> 2 = 0
        ∧ s'.m_next_read &&& 0x3 = s.w_write_slot) := by
  obtain ⟨h1, h2, h3, h4, h5, h6, h7⟩ := reachable_inv_nb4a copy get nvi s h
  obtain ⟨b, m, nw, wpc, wo, wt, wl, ws, rpc, rs, ro, rt, wlog, rlog⟩ := s
  simp only at h1 h2 h3 h4 h5 h6 h7
  have fin : ∀ w : Nat, w < 4 → w = w ∧ w >>> 2 = 0 ∧ w &&& 0x3 = w := by decide
  refine ⟨?_, ?_⟩
  · intro hc
    simp only at hc
    subst hc
    obtain ⟨e, _⟩ := h6 rfl
    subst e
    simp [compare_exchange_strong, NB_ARSS_1.Sys.step]
  · intro s' hc hs hi
    simp only at hc
    rcases hc with hc | hc
    · subst hc
      have hw := (h4 (by simp)).1
      by_cases e : m = u8 (wl &&& 0x3)
      · simp only [NB_ARSS_1.Sys.step, compare_exchange_strong, if_pos e,
          Option.some.injEq] at hs
        subst hs
        exact fin ws hw
      · simp only [NB_ARSS_1.Sys.step, compare_exchange_strong, if_neg e,
          Option.some.injEq] at hs
        subst hs
        simp at hi
    · subst hc
      have hw := (h4 (by simp)).1
      obtain ⟨e, _⟩ := h6 rfl
      subst e
      simp only [NB_ARSS_1.Sys.step, compare_exchange_strong, ↓reduceIte,
        Option.some.injEq] at hs
      subst hs
      exact fin ws hw

/-- Instance of C18: in `NB_ARSS_1.Sys.retry` the writer stands before its
second CAS with slot 1, the control word and the observed value are both 4,
and the step of the writer ends the write with the control word 1. -/
theorem second_cas_succeeds_nb4a_witness :
    NB_ARSS_1.Sys.retry.wpc = .cas2 ∧ NB_ARSS_1.Sys.retry.w_write_slot = 1
    ∧ NB_ARSS_1.Sys.retry.m_next_read = 4 ∧ NB_ARSS_1.Sys.retry.w_local_next_read = 4
    ∧ (NB_ARSS_1.Sys.step COPY_FNC GET_FNC .writer NB_ARSS_1.Sys.retry).map
        (fun s => (s.m_next_read, s.wpc)) = some (1, .idle)
    ∧ (compare_exchange_strong NB_ARSS_1.Sys.retry.m_next_read
        NB_ARSS_1.Sys.retry.w_local_next_read NB_ARSS_1.Sys.retry.w_write_slot).1 = true :=
  ⟨rfl, by decide, by decide, by decide, by decide,
   ((second_cas_succeeds_nb4a COPY_FNC GET_FNC (-1) NB_ARSS_1.Sys.retry
      (reachable_of_run_nb4a COPY_FNC GET_FNC (-1)
        [.write 42 1, .writer, .writer, .writer, .read 0, .writer] _ _ .init
        (by rfl))).1 rfl).1⟩

/-! ## The pair switch of `NB_ARSS_1::write` -/

theorem paired_init_nb4a {T : Type} (nvi : T) : (NB_ARSS_1.Sys.init nvi).Paired := by
  simp [NB_ARSS_1.Sys.Paired, NB_ARSS_1.Sys.init]

theorem paired_step_nb4a {T : Type} (copy : T → T) (get : T → T → T) (a : Act T)
    (s s' : NB_ARSS_1.Sys T) (hi : s.Inv) (hp : s.Paired)
    (h : NB_ARSS_1.Sys.step copy get a s = some s') : s'.Paired := by
  obtain ⟨b, m, nw, wpc, wo, wt, wl, ws, rpc, rs, ro, rt, wlog, rlog⟩ := s
  obtain ⟨h1, h2, h3, h4, h5, h6, h7⟩ := hi
  obtain ⟨p1, p2⟩ := hp
  simp only at h1 h2 h3 h4 h5 h6 h7 p1 p2
  have sw : ∀ w < 4, (w + 2) % 4 / 2 ≠ w % 4 / 2 := by decide
  cases a with
  | write obj ts =>
    cases wpc <;> simp only [NB_ARSS_1.Sys.step, Option.some.injEq, reduceCtorEq] at h
    subst h
    exact ⟨by simp, by simp⟩
  | writer =>
    cases wpc <;> simp only [NB_ARSS_1.Sys.step, Option.some.injEq, reduceCtorEq] at h
    · subst h
      exact ⟨fun e => by simpa using p1 e, by simp⟩
    · subst h
      exact ⟨fun e => by simpa using p1 e, by simp⟩
    · subst h
      exact ⟨fun e => by simpa using p1 e, by simp⟩
    · -- cas1
      have hw := (h4 (by simp)).1
      by_cases e : m = u8 (wl &&& 0x3)
      · simp only [compare_exchange_strong, if_pos e, Option.some.injEq] at h
        subst h
        refine ⟨fun e => by simpa using p1 e, fun _ _ => ?_⟩
        simp only
        rw [partner_eq ws hw]
        exact sw ws hw
      · simp only [compare_exchange_strong, if_neg e, Option.some.injEq] at h
        subst h
        exact ⟨fun e => by simpa using p1 e, by simp⟩
    · -- cas2
      have hw := (h4 (by simp)).1
      obtain ⟨e, e4, e5⟩ := h6 rfl
      subst e
      simp only [compare_exchange_strong, ↓reduceIte, Option.some.injEq] at h
      subst h
      refine ⟨fun e => by simpa using p1 e, fun _ _ => ?_⟩
      simp only
      rw [pair_switch_eq nw h2 wl h1]
      have := sw ws hw
      omega
  | read dest =>
    cases rpc <;> simp only [NB_ARSS_1.Sys.step, Option.some.injEq, reduceCtorEq] at h
    subst h
    simp only [NB_ARSS_1.Sys.Paired]
    rw [lor_4_eq m h1]
    refine ⟨fun e => ?_, fun e1 e2 => ?_⟩
    · obtain ⟨a1, a2, a3⟩ := p1 e
      exact ⟨a1, a2, by omega⟩
    · have := p2 e1 e2; omega
  | reader =>
    cases rpc <;> simp only [NB_ARSS_1.Sys.step, Option.some.injEq, reduceCtorEq] at h
    · subst h; exact ⟨p1, p2⟩
    · subst h; exact ⟨p1, p2⟩
  | reader_spurious =>
    simp only [NB_ARSS_1.Sys.step, reduceCtorEq] at h

theorem reachable_paired_nb4a {T : Type} (copy : T → T) (get : T → T → T) (nvi : T)
    (s : NB_ARSS_1.Sys T) (h : NB_ARSS_1.Sys.Reachable copy get nvi s) : s.Paired := by
  induction h with
  | init => exact paired_init_nb4a nvi
  | step a s s' hr hs ih =>
    exact paired_step_nb4a copy get a s s' (reachable_inv_nb4a copy get nvi s hr) ih hs

/-- C19 fails as stated on a fresh register that has been read once: the
control word is 4 (reader active, latest slot 0), and the write (42,1) that
fetches it selects slot 1, in the pair {0,1} of the latest slot 0.  The
method called on that register frees and overwrites slot 1 likewise. -/
theorem pair_switch_fails_on_fresh :
    NB_ARSS_1.Sys.read_once.m_next_read = 4
    ∧ (NB_ARSS_1.Sys.step COPY_FNC GET_FNC (.write 42 1) NB_ARSS_1.Sys.read_once).map
        (fun s => (s.w_local_next_read, s.w_write_slot)) = some (4, 1)
    ∧ ¬ (∀ s', NB_ARSS_1.Sys.step COPY_FNC GET_FNC (.write 42 1) NB_ARSS_1.Sys.read_once
          = some s' → s'.w_write_slot / 2 ≠ NB_ARSS_1.Sys.read_once.m_next_read % 4 / 2)
    ∧ (NB_ARSS_1.read Fncs.dflt (NB_ARSS_1.init (-1)) 0).state.m_next_read = 4
    ∧ (NB_ARSS_1.write Fncs.dflt NB_ARSS_1.next_write_init
        (NB_ARSS_1.read Fncs.dflt (NB_ARSS_1.init (-1)) 0).state 42 1).state.2.m_next_read = 1 := by
  refine ⟨by decide, by decide, ?_, by decide, by decide⟩
  intro hc
  have e : ∃ s', NB_ARSS_1.Sys.step COPY_FNC GET_FNC (.write 42 1) NB_ARSS_1.Sys.read_once
      = some s' ∧ s'.w_write_slot = 1 := ⟨_, rfl, by decide⟩
  obtain ⟨s', e1, e2⟩ := e
  have := hc s' e1
  rw [e2] at this
  exact this (by decide)

/-- C19, as amended: under every schedule of one writer and one reader on the
one `NB_ARSS_1` of a process, when a write fetches a control word with bit 2
set, the slot it selects is below 4 and, if a write has completed before,
lies in the pair ({0,1} or {2,3}) that does not contain the latest slot named
by the two low bits of that word; on a register never written the latest slot
is 0 and the write selects slot 1. -/
theorem pair_switch_nb4a {T : Type} (copy : T → T) (get : T → T → T) (nvi : T)
    (s s' : NB_ARSS_1.Sys T) (h : NB_ARSS_1.Sys.Reachable copy get nvi s) (obj : T) (ts : Int)
    (hs : NB_ARSS_1.Sys.step copy get (.write obj ts) s = some s')
    (ha : s.m_next_read >>> 2 ≠ 0) :
    s'.w_local_next_read = s.m_next_read ∧ s'.w_write_slot < 4
    ∧ (s.w_log ≠ [] → s'.w_write_slot / 2 ≠ s.m_next_read % 4 / 2)
    ∧ (s.w_log = [] → s.m_next_read % 4 = 0 ∧ s'.w_write_slot = 1) := by
  obtain ⟨h1, h2, h3, h4, h5, h6, h7⟩ := reachable_inv_nb4a copy get nvi s h
  obtain ⟨p1, p2⟩ := reachable_paired_nb4a copy get nvi s h
  obtain ⟨b, m, nw, wpc, wo, wt, wl, ws, rpc, rs, ro, rt, wlog, rlog⟩ := s
  simp only at h1 h2 h3 h4 h5 h6 h7 p1 p2 ha
  cases wpc <;> simp only [NB_ARSS_1.Sys.step, Option.some.injEq, reduceCtorEq] at hs
  subst hs
  simp only [if_pos ha]
  rw [pair_switch_eq nw h2 m h1]
  rw [Nat.shiftRight_eq_div_pow] at ha
  refine ⟨trivial, by omega, fun e => ?_, fun e => ?_⟩
  · have := p2 rfl e; omega
  · obtain ⟨_, a2, a3⟩ := p1 e
    omega

/-- Instance of the amended C19: after the write (42,1) and a read the control
word is 5 (reader active on slot 1, pair {0,1}) and the write (43,2) selects
slot 2 of the pair {2,3}. -/
theorem pair_switch_nb4a_witness :
    NB_ARSS_1.Sys.written_read.m_next_read = 5
    ∧ (NB_ARSS_1.Sys.step COPY_FNC GET_FNC (.write 43 2) NB_ARSS_1.Sys.written_read).map
        (fun s => s.w_write_slot) = some 2
    ∧ ∀ s', NB_ARSS_1.Sys.step COPY_FNC GET_FNC (.write 43 2) NB_ARSS_1.Sys.written_read
        = some s' → s'.w_write_slot / 2 ≠ NB_ARSS_1.Sys.written_read.m_next_read % 4 / 2 :=
  ⟨by decide, by decide, fun s' hs =>
    (pair_switch_nb4a COPY_FNC GET_FNC (-1) NB_ARSS_1.Sys.written_read s'
      (reachable_of_run_nb4a COPY_FNC GET_FNC (-1)
        [.write 42 1, .writer, .writer, .writer, .writer, .read 0, .reader, .reader] _ _ .init
        (by rfl)) 43 2 hs (by decide)).2.2.1 (by decide)⟩

/-! ## Control transitions of `NB_ARSS_1` without contention -/

/-- C20: in every sequentially reachable state of the one `NB_ARSS_1` of a
process, a read leaves a control word with bit 2 set and the two low bits
unchanged, leaves the buffer unchanged, calls `get` on the object of the slot
named by the two low bits of the previous word and returns that slot's
timestamp; a write that returns leaves the control word equal to the index of
the slot it freed and overwrote with the copy and the timestamp, which is
below 4 (bit 2 cleared), whatever the control word was before. -/
theorem control_transitions_nb4a {T : Type} (f : Fncs T) (nvi : T) (s : Nat × NB_ARSS_1 T)
    (h : NB_ARSS_1.Reachable f nvi s) :
    (∀ d,
      (NB_ARSS_1.read f s.2 d).state.m_next_read >>> 2 = 1
      ∧ (NB_ARSS_1.read f s.2 d).state.m_next_read &&& 0x3 = s.2.m_next_read &&& 0x3
      ∧ (NB_ARSS_1.read f s.2 d).state.m_buffer = s.2.m_buffer
      ∧ (NB_ARSS_1.read f s.2 d).calls = [.get (s.2.m_buffer (s.2.m_next_read &&& 0x3)).obj]
      ∧ ∀ v, (NB_ARSS_1.read f s.2 d).out = .returned v →
          f.get_fnc (s.2.m_buffer (s.2.m_next_read &&& 0x3)).obj d = some v.1
          ∧ v.2 = (s.2.m_buffer (s.2.m_next_read &&& 0x3)).ts)
    ∧ (∀ obj ts, (NB_ARSS_1.write f s.1 s.2 obj ts).out = .returned () →
      (NB_ARSS_1.write f s.1 s.2 obj ts).state.2.m_next_read >>> 2 = 0
      ∧ (NB_ARSS_1.write f s.1 s.2 obj ts).calls
          = [.free (s.2.m_buffer (NB_ARSS_1.write f s.1 s.2 obj ts).state.2.m_next_read).obj,
             .copy obj]
      ∧ ∃ c, f.copy_fnc obj = some c
          ∧ (NB_ARSS_1.write f s.1 s.2 obj ts).state.2.m_buffer
              = Function.update s.2.m_buffer
                  (NB_ARSS_1.write f s.1 s.2 obj ts).state.2.m_next_read
                  { obj := c, ts := ts }) := by
  have hv := reachable_valid_nb4a f nvi s h
  have hl := slot_for_lt_nb4a s.1 s.2.m_next_read hv.1
  have hm := hv.2
  have fin : ∀ w : Nat, w < 4 → w >>> 2 = 0 := by decide
  have bit : ∀ m : Nat, m < 8 → (m % 4 + 4) >>> 2 = 1 ∧ (m % 4 + 4) % 4 = m % 4 := by decide
  refine ⟨fun d => ?_, fun obj ts hr => ?_⟩
  · rw [read_eq_nb4a f s.2 d hm, land_3, land_3]
    cases hg : f.get_fnc (s.2.m_buffer (s.2.m_next_read % 4)).obj d with
    | none => exact ⟨(bit _ hm).1, (bit _ hm).2, rfl, rfl, fun v hr => by simp at hr⟩
    | some o =>
      refine ⟨(bit _ hm).1, (bit _ hm).2, rfl, rfl, fun v hr => ?_⟩
      simp only [Outcome.returned.injEq] at hr
      subst hr
      exact ⟨rfl, rfl⟩
  · rw [write_eq_nb4a f s obj ts hv] at hr ⊢
    cases hf : f.free_fnc (s.2.m_buffer (NB_ARSS_1.slot_for s.1 s.2.m_next_read)).obj with
    | none => simp [hf] at hr
    | some u =>
      cases hc : f.copy_fnc obj with
      | none => simp [hf, hc] at hr
      | some c => exact ⟨fin _ hl, rfl, c, rfl, rfl⟩

/-- Instance of C20: on the fresh `NB_ARSS_1` of integers a read leaves the
control word 4 (bit 2 set, low bits 0), and the write (42,1) leaves the
control word 1, the slot it wrote. -/
theorem control_transitions_nb4a_witness :
    (NB_ARSS_1.read Fncs.dflt (NB_ARSS_1.init (-1)) 0).state.m_next_read = 4
    ∧ (NB_ARSS_1.write Fncs.dflt NB_ARSS_1.next_write_init (NB_ARSS_1.init (-1)) 42 1
        ).state.2.m_next_read = 1
    ∧ (NB_ARSS_1.write Fncs.dflt NB_ARSS_1.next_write_init (NB_ARSS_1.init (-1)) 42 1
        ).state.2.m_next_read >>> 2 = 0
    ∧ (NB_ARSS_1.read Fncs.dflt (NB_ARSS_1.init (-1)) 0).state.m_next_read >>> 2 = 1 :=
  ⟨by decide, by decide,
   ((control_transitions_nb4a Fncs.dflt (-1) (NB_ARSS_1.next_write_init, NB_ARSS_1.init (-1))
      Reach.init).2 42 1 (by rfl)).1,
   ((control_transitions_nb4a Fncs.dflt (-1) (NB_ARSS_1.next_write_init, NB_ARSS_1.init (-1))
      Reach.init).1 0).1⟩

/-! ## The slot a sequential `NB_ARSS_1::write` overwrites -/

theorem slot_for_ne_latest_nb4a (n m : Nat) (hn : n < 4) (hne : n ≠ m % 4) :
    NB_ARSS_1.slot_for n m < 4 ∧ NB_ARSS_1.slot_for n m ≠ m % 4 := by
  unfold NB_ARSS_1.slot_for; split <;> omega

theorem next_write_ne_latest_nb4a {T : Type} (f : Fncs T) (nvi : T) (s : Nat × NB_ARSS_1 T)
    (h : NB_ARSS_1.Reachable f nvi s) :
    NB_ARSS_1.Valid s ∧ s.1 ≠ s.2.m_next_read % 4 := by
  refine reach_induction (fun s => NB_ARSS_1.Valid s ∧ s.1 ≠ s.2.m_next_read % 4) ?_ ?_ ?_ s h
  · simp [NB_ARSS_1.Valid, NB_ARSS_1.next_write_init, NB_ARSS_1.init]
  · intro s obj ts ⟨hv, hne⟩
    refine ⟨valid_write_nb4a f s obj ts hv, ?_⟩
    obtain ⟨hl, hd⟩ := slot_for_ne_latest_nb4a s.1 s.2.m_next_read hv.1 hne
    rw [NB_ARSS_1.write_in, write_eq_nb4a f s obj ts hv]
    cases f.free_fnc _ <;> [skip; cases f.copy_fnc obj] <;> simp only <;> omega
  · intro _ s d ⟨hv, hne⟩
    refine ⟨valid_read_nb4a f s d hv, ?_⟩
    simp only [NB_ARSS_1.read_in, read_eq_nb4a f s.2 d hv.2]
    cases f.get_fnc _ d <;> simp only <;> omega

/-- C21: in every state of the one `NB_ARSS_1` of a process reached by
sequential writes and reads, the slot on whose object a write calls `free`
and which it overwrites is below 4 and is not the slot named by the two low
bits of the control word at the start of that write; the write changes no
other cell (in particular not the latest one), and when it returns the slot
holds the copy and the timestamp and is the new control word. -/
theorem write_avoids_latest_nb4a {T : Type} (f : Fncs T) (nvi : T) (s : Nat × NB_ARSS_1 T)
    (h : NB_ARSS_1.Reachable f nvi s) (obj : T) (ts : Int) :
    NB_ARSS_1.slot_for s.1 s.2.m_next_read < 4
    ∧ NB_ARSS_1.slot_for s.1 s.2.m_next_read ≠ s.2.m_next_read &&& 0x3
    ∧ (NB_ARSS_1.write f s.1 s.2 obj ts).calls.head?
        = some (.free (s.2.m_buffer (NB_ARSS_1.slot_for s.1 s.2.m_next_read)).obj)
    ∧ (∀ i, i ≠ NB_ARSS_1.slot_for s.1 s.2.m_next_read →
        (NB_ARSS_1.write f s.1 s.2 obj ts).state.2.m_buffer i = s.2.m_buffer i)
    ∧ ((NB_ARSS_1.write f s.1 s.2 obj ts).out = .returned () →
        (NB_ARSS_1.write f s.1 s.2 obj ts).state.2.m_next_read
          = NB_ARSS_1.slot_for s.1 s.2.m_next_read
        ∧ ∃ c, f.copy_fnc obj = some c
          ∧ (NB_ARSS_1.write f s.1 s.2 obj ts).state.2.m_buffer
              (NB_ARSS_1.slot_for s.1 s.2.m_next_read) = { obj := c, ts := ts }) := by
  obtain ⟨hv, hne⟩ := next_write_ne_latest_nb4a f nvi s h
  obtain ⟨hl, hd⟩ := slot_for_ne_latest_nb4a s.1 s.2.m_next_read hv.1 hne
  rw [write_eq_nb4a f s obj ts hv, land_3]
  refine ⟨hl, hd, ?_⟩
  cases hf : f.free_fnc (s.2.m_buffer (NB_ARSS_1.slot_for s.1 s.2.m_next_read)).obj with
  | none => exact ⟨rfl, fun _ _ => rfl, fun hr => by simp at hr⟩
  | some u =>
    cases hc : f.copy_fnc obj with
    | none => exact ⟨rfl, fun _ _ => rfl, fun hr => by simp at hr⟩
    | some c =>
      refine ⟨rfl, fun i hi => ?_, fun _ => ⟨rfl, c, rfl, ?_⟩⟩
      · simp only [Function.update_noteq hi]
      · simp only [Function.update_same]

/-- Instance of C21: on the `NB_ARSS_1` of integers after the write (10,1),
whose control word is 1, the write (11,3) frees the no-value indicator of slot
3 and leaves the 10 of the latest slot 1 in place. -/
theorem write_avoids_latest_nb4a_witness :
    NB_ARSS_1.on_a.state.2.m_next_read = 1
    ∧ (NB_ARSS_1.write Fncs.dflt NB_ARSS_1.on_a.state.1 NB_ARSS_1.on_a.state.2 11 3).calls
        = [.free (-1), .copy 11]
    ∧ NB_ARSS_1.slot_for NB_ARSS_1.on_a.state.1 NB_ARSS_1.on_a.state.2.m_next_read = 3
    ∧ NB_ARSS_1.slot_for NB_ARSS_1.on_a.state.1 NB_ARSS_1.on_a.state.2.m_next_read
        ≠ NB_ARSS_1.on_a.state.2.m_next_read &&& 0x3 :=
  ⟨by decide, rfl, by decide,
   (write_avoids_latest_nb4a Fncs.dflt (-1) NB_ARSS_1.on_a.state
      (Reach.write (NB_ARSS_1.next_write_init, NB_ARSS_1.init (-1)) 10 1 Reach.init) 11 3).2.1⟩

/-! ## The transitions of `NB_ARSS_2` -/

theorem switch_fields_nb4b : ∀ w < 4,
    u8 ((w <<< 2) ||| (w ^^^ 0x2)) >>> 2 = w ∧ u8 ((w <<< 2) ||| (w ^^^ 0x2)) &&& 0x3 = w ^^^ 0x2 := by
  unfold u8; decide

theorem keep_fields_nb4b : ∀ w < 4, ∀ l < 16,
    u8 ((w <<< 2) ||| (l &&& 0x3)) >>> 2 = w
    ∧ u8 ((w <<< 2) ||| (l &&& 0x3)) &&& 0x3 = l &&& 0x3 := by
  unfold u8; decide

theorem claimed_fields : ∀ m < 16,
    NB_ARSS_2.claimed m >>> 2 = m >>> 2 ∧ NB_ARSS_2.claimed m &&& 0x3 ≠ m >>> 2
    ∧ NB_ARSS_2.claimed m &&& 0x3 ≠ (m >>> 2) ^^^ 0x2 ∧ NB_ARSS_2.claimed m < 16 := by
  unfold NB_ARSS_2.claimed; decide

/-- C22: under every schedule of one writer and one reader on a `NB_ARSS_2`,
a write takes as its slot `W` the two low bits of the status it loads on
entry, stores the copy and then the timestamp in slot `W`, and ends either by
its CAS, when the status still equals the loaded one, leaving the status with
upper field `W` and lower field `W ^ 2`, or, when the CAS finds another
status, by the plain store that leaves the upper field `W` and as lower field
the two low bits of the status the failed CAS found. -/
theorem write_transition_nb4b {T : Type} (copy : T → T) (get : T → T → T) (nvi : T)
    (s : NB_ARSS_2.Sys T) (h : NB_ARSS_2.Sys.Reachable copy get nvi s) :
    (∀ obj ts s', NB_ARSS_2.Sys.step copy get (.write obj ts) s = some s' →
      s'.wpc = .free ∧ s'.w_local_status = s.m_status ∧ s'.w_write_slot = s.m_status &&& 0x3)
    ∧ ((s.wpc = .free ∨ s.wpc = .copy ∨ s.wpc = .ts ∨ s.wpc = .cas) →
      s.w_write_slot = s.w_local_status &&& 0x3)
    ∧ (∀ s', s.wpc = .copy → NB_ARSS_2.Sys.step copy get .writer s = some s' →
      s'.wpc = .ts ∧ s'.m_buffer = setObj s.m_buffer s.w_write_slot (copy s.w_obj)
      ∧ s'.m_status = s.m_status ∧ s'.w_write_slot = s.w_write_slot)
    ∧ (∀ s', s.wpc = .ts → NB_ARSS_2.Sys.step copy get .writer s = some s' →
      s'.wpc = .cas ∧ s'.m_buffer = setTs s.m_buffer s.w_write_slot s.w_ts
      ∧ s'.m_status = s.m_status ∧ s'.w_write_slot = s.w_write_slot)
    ∧ (∀ s', s.wpc = .cas → s.m_status = s.w_local_status →
      NB_ARSS_2.Sys.step copy get .writer s = some s' →
      s'.wpc = .idle ∧ s'.m_status >>> 2 = s.w_write_slot
      ∧ s'.m_status &&& 0x3 = s.w_write_slot ^^^ 0x2)
    ∧ (∀ s', s.wpc = .cas → s.m_status ≠ s.w_local_status →
      NB_ARSS_2.Sys.step copy get .writer s = some s' →
      s'.wpc = .store ∧ s'.m_status = s.m_status ∧ s'.w_local_status = s.m_status
      ∧ s'.w_write_slot = s.w_write_slot)
    ∧ (∀ s', s.wpc = .store → NB_ARSS_2.Sys.step copy get .writer s = some s' →
      s'.wpc = .idle ∧ s'.m_status >>> 2 = s.w_write_slot
      ∧ s'.m_status &&& 0x3 = s.w_local_status &&& 0x3) := by
  obtain ⟨⟨hS, hN⟩, h2, h3, h4⟩ := (reachable_inv_nb4b copy get nvi s h).1
  obtain ⟨b, S, wpc, wo, wt, wl, ws, rpc, rl, rs, ro, rt, wlog, rlog⟩ := s
  simp only at hS hN h2 h3 h4
  refine ⟨?_, ?_, ?_, ?_, ?_, ?_, ?_⟩
  · intro obj ts s' hs
    cases wpc <;> simp only [NB_ARSS_2.Sys.step, Option.some.injEq, reduceCtorEq] at hs
    subst hs
    refine ⟨rfl, rfl, ?_⟩
    show u8 (S &&& 0x3) = S &&& 0x3
    rw [land_3]; unfold u8; omega
  · intro hw
    simp only at hw
    obtain ⟨a1, a2, _⟩ := h2 hw
    simp only [land_3]
    exact a2
  · intro s' hc hs
    simp only at hc
    subst hc
    simp only [NB_ARSS_2.Sys.step, Option.some.injEq] at hs
    subst hs
    exact ⟨rfl, rfl, rfl, rfl⟩
  · intro s' hc hs
    simp only at hc
    subst hc
    simp only [NB_ARSS_2.Sys.step, Option.some.injEq] at hs
    subst hs
    exact ⟨rfl, rfl, rfl, rfl⟩
  · intro s' hc he hs
    simp only at hc he
    subst hc
    subst he
    obtain ⟨a1, a2, _⟩ := h2 (by simp)
    have hw : ws < 4 := by omega
    simp only [NB_ARSS_2.Sys.step, compare_exchange_strong, ↓reduceIte, Option.some.injEq] at hs
    subst hs
    exact ⟨rfl, (switch_fields_nb4b ws hw).1, (switch_fields_nb4b ws hw).2⟩
  · intro s' hc he hs
    simp only at hc he
    subst hc
    simp only [NB_ARSS_2.Sys.step, compare_exchange_strong, if_neg he, Option.some.injEq] at hs
    subst hs
    exact ⟨rfl, rfl, rfl, rfl⟩
  · intro s' hc hs
    simp only at hc
    subst hc
    obtain ⟨a1, a2, _⟩ := h3 rfl
    subst a1
    simp only [NB_ARSS_2.Sys.step, Option.some.injEq] at hs
    subst hs
    exact ⟨rfl, (keep_fields_nb4b ws a2 wl hS).1, (keep_fields_nb4b ws a2 wl hS).2⟩

/-- Instance of C22: in `NB_ARSS_2.Sys.fallback` the writer's CAS on the
status 7 has found 6; its slot is 3, and the plain store leaves the status 14:
upper field 3, lower field 2, the lower field of 6. -/
theorem write_transition_nb4b_witness :
    NB_ARSS_2.Sys.fallback.wpc = .store ∧ NB_ARSS_2.Sys.fallback.w_write_slot = 3
    ∧ NB_ARSS_2.Sys.fallback.w_local_status = 6
    ∧ (NB_ARSS_2.Sys.step COPY_FNC GET_FNC .writer NB_ARSS_2.Sys.fallback).map
        (fun s => (s.m_status, s.wpc)) = some (14, .idle)
    ∧ ∀ s', NB_ARSS_2.Sys.step COPY_FNC GET_FNC .writer NB_ARSS_2.Sys.fallback = some s' →
        s'.wpc = .idle ∧ s'.m_status >>> 2 = NB_ARSS_2.Sys.fallback.w_write_slot
        ∧ s'.m_status &&& 0x3 = NB_ARSS_2.Sys.fallback.w_local_status &&& 0x3 :=
  ⟨rfl, by decide, by decide, by decide,
   fun s' hs => (write_transition_nb4b COPY_FNC GET_FNC (-1) NB_ARSS_2.Sys.fallback
      (reachable_of_run_nb4b COPY_FNC GET_FNC (-1)
        [.write 42 1, .writer, .writer, .writer, .writer,
         .write 43 2, .writer, .writer, .writer, .read 0, .reader, .writer] _ _ .init
        (by rfl))).2.2.2.2.2.2 s' rfl hs⟩

/-- C23: for every 4-bit status `m` of a `NB_ARSS_2`, a read that no write
overlaps installs by its successful CAS, which replaces `m`, the word with the
same upper field and with a lower field that is neither the upper field `L`
nor its partner `L ^ 2`; it calls `get` on the object of the slot named by
the upper field of `m` and returns that slot's timestamp; the word installed
is below 16 and the same transition applied to it gives it again. -/
theorem read_transition_nb4b {T : Type} (f : Fncs T) (s : NB_ARSS_2 T) (k spur : Nat) (d : T)
    (hv : s.m_status < 16) :
    NB_ARSS_2.read_loop s.m_status (spur + k + 1) spur s.m_status
        = some ((NB_ARSS_2.read f (spur + k + 1) spur s d).state.m_status, s.m_status)
    ∧ (NB_ARSS_2.read f (spur + k + 1) spur s d).state.m_status
        = u8 ((s.m_status &&& 0xE) ||| ((bitNot s.m_status >>> 2) &&& 0x1))
    ∧ (NB_ARSS_2.read f (spur + k + 1) spur s d).state.m_status >>> 2 = s.m_status >>> 2
    ∧ (NB_ARSS_2.read f (spur + k + 1) spur s d).state.m_status &&& 0x3 ≠ s.m_status >>> 2
    ∧ (NB_ARSS_2.read f (spur + k + 1) spur s d).state.m_status &&& 0x3
        ≠ (s.m_status >>> 2) ^^^ 0x2
    ∧ (NB_ARSS_2.read f (spur + k + 1) spur s d).state.m_status < 16
    ∧ (NB_ARSS_2.read f (spur + k + 1) spur
        (NB_ARSS_2.read f (spur + k + 1) spur s d).state d).state.m_status
        = (NB_ARSS_2.read f (spur + k + 1) spur s d).state.m_status
    ∧ (NB_ARSS_2.read f (spur + k + 1) spur s d).state.m_buffer = s.m_buffer
    ∧ (NB_ARSS_2.read f (spur + k + 1) spur s d).calls
        = [.get (s.m_buffer (s.m_status >>> 2)).obj]
    ∧ ∀ v, (NB_ARSS_2.read f (spur + k + 1) spur s d).out = .returned v →
        f.get_fnc (s.m_buffer (s.m_status >>> 2)).obj d = some v.1
        ∧ v.2 = (s.m_buffer (s.m_status >>> 2)).ts := by
  have e' : s.m_status >>> 2 = s.m_status / 4 := Nat.shiftRight_eq_div_pow _ 2
  obtain ⟨c1, c2, c3, c4⟩ := claimed_fields s.m_status hv
  have hst : (NB_ARSS_2.read f (spur + k + 1) spur s d).state
      = { s with m_status := NB_ARSS_2.claimed s.m_status } := by
    rw [read_eq_nb4b f k spur s d hv]
    cases f.get_fnc (s.m_buffer (s.m_status / 4)).obj d <;> rfl
  have hst2 : (NB_ARSS_2.read f (spur + k + 1) spur
      { s with m_status := NB_ARSS_2.claimed s.m_status } d).state
      = { s with m_status := NB_ARSS_2.claimed s.m_status } := by
    rw [read_eq_nb4b f k spur { s with m_status := NB_ARSS_2.claimed s.m_status } d c4]
    simp only [claimed_idem s.m_status hv]
    cases f.get_fnc _ d <;> rfl
  rw [hst, hst2, read_loop_self_nb4b s.m_status k spur, claimed_eq s.m_status hv]
  refine ⟨rfl, rfl, c1, c2, c3, c4, rfl, rfl, ?_⟩
  rw [read_eq_nb4b f k spur s d hv, e']
  cases hg : f.get_fnc (s.m_buffer (s.m_status / 4)).obj d with
  | none => exact ⟨rfl, fun v hr => by simp at hr⟩
  | some o =>
    refine ⟨rfl, fun v hr => ?_⟩
    simp only [Outcome.returned.injEq] at hr
    subst hr
    exact ⟨rfl, rfl⟩

/-- Instance of C23: on the `NB_ARSS_2` with status 7 (latest 1, next write 3)
left by the write (42,1), a read installs 6 (latest 1, next write 2) and
returns (42,1). -/
theorem read_transition_nb4b_witness :
    (NB_ARSS_2.write Fncs.dflt (NB_ARSS_2.init (-1)) 42 1).state.m_status = 7
    ∧ (NB_ARSS_2.read Fncs.dflt 1 0
        (NB_ARSS_2.write Fncs.dflt (NB_ARSS_2.init (-1)) 42 1).state 0).state.m_status = 6
    ∧ (NB_ARSS_2.read Fncs.dflt 1 0
        (NB_ARSS_2.write Fncs.dflt (NB_ARSS_2.init (-1)) 42 1).state 0).out = .returned (42, 1)
    ∧ (NB_ARSS_2.read Fncs.dflt 1 0
        (NB_ARSS_2.write Fncs.dflt (NB_ARSS_2.init (-1)) 42 1).state 0).state.m_status >>> 2
        = (NB_ARSS_2.write Fncs.dflt (NB_ARSS_2.init (-1)) 42 1).state.m_status >>> 2 :=
  ⟨rfl, by decide, rfl,
   (read_transition_nb4b Fncs.dflt (NB_ARSS_2.write Fncs.dflt (NB_ARSS_2.init (-1)) 42 1).state
      0 0 0 (by decide)).2.2.1⟩

/-- C24: under every schedule of one writer and one reader on a `NB_ARSS_2`,
the status is below 16 and its lower field (next write) differs from its upper
field (latest); and from the entry of a write to its end the slot it frees and
overwrites is below 4 and differs from the upper field of the status. -/
theorem write_avoids_latest_nb4b {T : Type} (copy : T → T) (get : T → T → T) (nvi : T)
    (s : NB_ARSS_2.Sys T) (h : NB_ARSS_2.Sys.Reachable copy get nvi s) :
    s.m_status < 16 ∧ s.m_status &&& 0x3 ≠ s.m_status >>> 2
    ∧ (s.wpc ≠ .idle → s.w_write_slot < 4 ∧ s.w_write_slot ≠ s.m_status >>> 2) := by
  obtain ⟨⟨hS, hN⟩, h2, h3, h4⟩ := (reachable_inv_nb4b copy get nvi s h).1
  rw [land_3, Nat.shiftRight_eq_div_pow]
  refine ⟨hS, fun e => hN e.symm, fun hw => ?_⟩
  cases hc : s.wpc with
  | idle => exact absurd hc hw
  | store => have := h3 hc; omega
  | free => have := h2 (Or.inl hc); omega
  | copy => have := h2 (Or.inr (Or.inl hc)); omega
  | ts => have := h2 (Or.inr (Or.inr (Or.inl hc))); omega
  | cas => have := h2 (Or.inr (Or.inr (Or.inr hc))); omega

/-- Instance of C24: in `NB_ARSS_2.Sys.mid` the status is 1 (latest 0, next
write 1) and the writer is about to store the copy in slot 1. -/
theorem write_avoids_latest_nb4b_witness :
    NB_ARSS_2.Sys.mid.m_status = 1 ∧ NB_ARSS_2.Sys.mid.wpc = .copy
    ∧ NB_ARSS_2.Sys.mid.w_write_slot = 1
    ∧ NB_ARSS_2.Sys.mid.m_status &&& 0x3 ≠ NB_ARSS_2.Sys.mid.m_status >>> 2 :=
  ⟨rfl, rfl, by decide,
   (write_avoids_latest_nb4b COPY_FNC GET_FNC (-1) NB_ARSS_2.Sys.mid
      (reachable_of_run_nb4b COPY_FNC GET_FNC (-1) [.write 42 1, .writer] _ _ .init
        (by rfl))).2.1⟩

/-! ## The transitions of `NB_ARSS_4` without contention -/

/-- C25: in every sequentially reachable state of a `NB_ARSS_4`, a write that
returns has called `free` on the old object of the slot it selected and
`copy` on its argument, leaves that slot (below 3) in the upper field of the
status and the lower field as it was, leaves the copy and the timestamp in
that slot and every other cell unchanged. -/
theorem write_publishes_nb3d {T : Type} (f : Fncs T) (nvi : T) (s : NB_ARSS_4 T)
    (h : NB_ARSS_4.Reachable f nvi s) (obj : T) (ts : Int)
    (hr : (NB_ARSS_4.write f s obj ts).out = .returned ()) :
    (NB_ARSS_4.write f s obj ts).state.m_write_slot < 3
    ∧ (NB_ARSS_4.write f s obj ts).state.m_status >>> 2
        = (NB_ARSS_4.write f s obj ts).state.m_write_slot
    ∧ (NB_ARSS_4.write f s obj ts).state.m_status &&& 0x3 = s.m_status &&& 0x3
    ∧ (NB_ARSS_4.write f s obj ts).calls
        = [.free (s.m_buffer (NB_ARSS_4.write f s obj ts).state.m_write_slot).obj, .copy obj]
    ∧ ∃ c, f.copy_fnc obj = some c
      ∧ (NB_ARSS_4.write f s obj ts).state.m_buffer
          (NB_ARSS_4.write f s obj ts).state.m_write_slot = { obj := c, ts := ts }
      ∧ ∀ i, i ≠ (NB_ARSS_4.write f s obj ts).state.m_write_slot →
          (NB_ARSS_4.write f s obj ts).state.m_buffer i = s.m_buffer i := by
  have hv := reachable_valid_nb3d f nvi s h
  have hl := slot_for_lt_nb3d s
  have ar : ∀ w r : Nat, w < 3 → (4 * w + r % 4) >>> 2 = w ∧ (4 * w + r % 4) &&& 0x3 = r &&& 0x3 := by
    intro w r hw
    rw [Nat.shiftRight_eq_div_pow, land_3, land_3]
    omega
  rw [write_eq_nb3d f s obj ts hv] at hr ⊢
  cases hf : f.free_fnc (s.m_buffer s.slot_for).obj with
  | none => simp [hf] at hr
  | some u =>
    cases hc : f.copy_fnc obj with
    | none => simp [hf, hc] at hr
    | some c =>
      refine ⟨hl, (ar _ _ hl).1, (ar _ _ hl).2, rfl, c, rfl, ?_, fun i hi => ?_⟩
      · simp only [Function.update_same]
      · simp only [Function.update_noteq hi]

/-- Instance of C25: the write (40,4) on the `NB_ARSS_4` holding 30, 10, 20
with status 2 (latest 0, last read 2) writes slot 1 and leaves the status 6
(latest 1, last read 2). -/
theorem write_publishes_nb3d_witness :
    NB_ARSS_4.after_three_writes.m_status = 2
    ∧ (NB_ARSS_4.write Fncs.dflt NB_ARSS_4.after_three_writes 40 4).state.m_status = 6
    ∧ (NB_ARSS_4.write Fncs.dflt NB_ARSS_4.after_three_writes 40 4).state.m_write_slot = 1
    ∧ (NB_ARSS_4.write Fncs.dflt NB_ARSS_4.after_three_writes 40 4).state.m_status >>> 2
        = (NB_ARSS_4.write Fncs.dflt NB_ARSS_4.after_three_writes 40 4).state.m_write_slot :=
  ⟨rfl, rfl, rfl,
   (write_publishes_nb3d Fncs.dflt (-1) NB_ARSS_4.after_three_writes
      (Reach.write _ 30 3 (Reach.read 1 _ 0 (Reach.write _ 20 2
        (Reach.read 1 _ 0 (Reach.write _ 10 1 Reach.init))))) 40 4 (by rfl)).2.1⟩

theorem read_eq_of_lt_nb3d {T : Type} (f : Fncs T) (k : Nat) (s : NB_ARSS_4 T) (d : T)
    (h1 : s.m_status < 12) :
    NB_ARSS_4.read_loop s.m_status (k + 1) s.m_status 1 = some (5 * (s.m_status / 4), s.m_status, 1)
    ∧ NB_ARSS_4.read f (k + 1) s d =
      match f.get_fnc (s.m_buffer (s.m_status / 4)).obj d with
      | none =>
        { state := { s with m_status := 5 * (s.m_status / 4) },
          calls := [.get (s.m_buffer (s.m_status / 4)).obj], out := .threw }
      | some o =>
        { state := { s with m_status := 5 * (s.m_status / 4) },
          calls := [.get (s.m_buffer (s.m_status / 4)).obj],
          out := .returned (o, (s.m_buffer (s.m_status / 4)).ts) } := by
  obtain ⟨b, m, w⟩ := s
  simp only at h1
  have e : u8 (m >>> 2) = m / 4 := by
    rw [Nat.shiftRight_eq_div_pow]; unfold u8; omega
  have hlt : m / 4 < 3 := by omega
  simp only [NB_ARSS_4.read, read_loop_self_nb3d, status_after_read_nb3d m h1, e, hlt, if_true,
    true_and]

/-- C26: on a `NB_ARSS_4` whose status has both fields below 3, a read that
no write overlaps succeeds at its first CAS, which replaces the status by the
word with the same upper field and the lower field equal to it; it calls `get`
on the object of the slot named by the upper field of the replaced word,
returns that slot's timestamp, and changes neither a buffer cell nor the
write slot. -/
theorem read_transition_nb3d {T : Type} (f : Fncs T) (s : NB_ARSS_4 T) (fuel : Nat) (d : T)
    (hL : s.m_status >>> 2 < 3) (_hR : s.m_status &&& 0x3 < 3) :
    NB_ARSS_4.read_loop s.m_status (fuel + 1) s.m_status 1
        = some ((NB_ARSS_4.read f (fuel + 1) s d).state.m_status, s.m_status, 1)
    ∧ (NB_ARSS_4.read f (fuel + 1) s d).state.m_status >>> 2 = s.m_status >>> 2
    ∧ (NB_ARSS_4.read f (fuel + 1) s d).state.m_status &&& 0x3 = s.m_status >>> 2
    ∧ (NB_ARSS_4.read f (fuel + 1) s d).state.m_buffer = s.m_buffer
    ∧ (NB_ARSS_4.read f (fuel + 1) s d).state.m_write_slot = s.m_write_slot
    ∧ (NB_ARSS_4.read f (fuel + 1) s d).calls = [.get (s.m_buffer (s.m_status >>> 2)).obj]
    ∧ ∀ v, (NB_ARSS_4.read f (fuel + 1) s d).out = .returned v →
        f.get_fnc (s.m_buffer (s.m_status >>> 2)).obj d = some v.1
        ∧ v.2 = (s.m_buffer (s.m_status >>> 2)).ts := by
  have e' : s.m_status >>> 2 = s.m_status / 4 := Nat.shiftRight_eq_div_pow _ 2
  rw [e'] at hL ⊢
  have h1 : s.m_status < 12 := by omega
  have ar : (5 * (s.m_status / 4)) >>> 2 = s.m_status / 4
      ∧ (5 * (s.m_status / 4)) &&& 0x3 = s.m_status / 4 := by
    rw [Nat.shiftRight_eq_div_pow, land_3]; omega
  obtain ⟨hl, hrd⟩ := read_eq_of_lt_nb3d f fuel s d h1
  rw [hl, hrd]
  cases hg : f.get_fnc (s.m_buffer (s.m_status / 4)).obj d with
  | none => exact ⟨rfl, ar.1, ar.2, rfl, rfl, rfl, fun v hv => by simp at hv⟩
  | some o =>
    refine ⟨rfl, ar.1, ar.2, rfl, rfl, rfl, fun v hv => ?_⟩
    simp only [Outcome.returned.injEq] at hv
    subst hv
    exact ⟨rfl, rfl⟩

/-- Instance of C26: a read on the `NB_ARSS_4` with status 6 (latest 1, last
read 2) leaves the status 5 (latest 1, last read 1). -/
theorem read_transition_nb3d_witness :
    (NB_ARSS_4.write Fncs.dflt NB_ARSS_4.after_three_writes 40 4).state.m_status = 6
    ∧ (NB_ARSS_4.read Fncs.dflt 1
        (NB_ARSS_4.write Fncs.dflt NB_ARSS_4.after_three_writes 40 4).state 0).state.m_status = 5
    ∧ (NB_ARSS_4.read Fncs.dflt 1
        (NB_ARSS_4.write Fncs.dflt NB_ARSS_4.after_three_writes 40 4).state 0).out
        = .returned (40, 4)
    ∧ (NB_ARSS_4.read Fncs.dflt 1
        (NB_ARSS_4.write Fncs.dflt NB_ARSS_4.after_three_writes 40 4).state 0).state.m_status
          &&& 0x3
        = (NB_ARSS_4.write Fncs.dflt NB_ARSS_4.after_three_writes 40 4).state.m_status >>> 2 :=
  ⟨rfl, rfl, rfl,
   (read_transition_nb3d Fncs.dflt
      (NB_ARSS_4.write Fncs.dflt NB_ARSS_4.after_three_writes 40 4).state 0 0
      (by decide) (by decide)).2.2.1⟩

/-! ## The transition of `NB_ARSS_3::write` -/

theorem next_at_entry : ∀ r ≤ 3, ∀ l ≤ 2, ∃ n, NB_ARSS_3.next_at r l = some n
    ∧ n ≤ 2 ∧ n ≠ l ∧ (r ≠ 3 → n ≠ r) := by
  unfold NB_ARSS_3.next_at NB_ARSS_3.next; decide

/-- C27: in every sequentially reachable state of a `NB_ARSS_3`, a write that
returns has stored the copy and the timestamp in the slot `W` given by the
table entry `next[m_reading][m_latest]` (no other cell changes), has set
`m_latest` to `W`, and has set `m_reading` to `W` exactly when `m_reading` was
3, leaving it unchanged otherwise.  In the transition system the writer's CAS
step does this on the value `m_reading` has at that step. -/
theorem write_transition_nb3c {T : Type} (f : Fncs T) (nvi : T) (s : NB_ARSS_3 T)
    (h : NB_ARSS_3.Reachable f nvi s) (obj : T) (ts : Int)
    (hr : (NB_ARSS_3.write f s obj ts).out = .returned ()) :
    (∃ w c, NB_ARSS_3.next_at s.m_reading s.m_latest = some w ∧ f.copy_fnc obj = some c
      ∧ (NB_ARSS_3.write f s obj ts).state.m_buffer
          = Function.update s.m_buffer w { obj := c, ts := ts }
      ∧ (NB_ARSS_3.write f s obj ts).state.m_latest = w
      ∧ ((NB_ARSS_3.write f s obj ts).state.m_reading = w ↔ s.m_reading = 3)
      ∧ (s.m_reading ≠ 3 → (NB_ARSS_3.write f s obj ts).state.m_reading = s.m_reading))
    ∧ (∀ (copy : T → T) (get : T → T → T) (t t' : NB_ARSS_3.Sys T), t.wpc = .cas →
        NB_ARSS_3.Sys.step copy get .writer t = some t' →
        t'.m_reading = (if t.m_reading = 3 then t.w_windex else t.m_reading)
        ∧ t'.m_latest = t.m_latest ∧ t'.wpc = .idle)
    ∧ (∀ (copy : T → T) (get : T → T → T) (t t' : NB_ARSS_3.Sys T), t.wpc = .st_latest →
        NB_ARSS_3.Sys.step copy get .writer t = some t' →
        t'.m_latest = t.w_windex ∧ t'.m_reading = t.m_reading ∧ t'.wpc = .cas) := by
  have hv := reachable_valid_nb3c f nvi s h
  refine ⟨?_, ?_, ?_⟩
  · obtain ⟨n, hn, n1, n2, n3⟩ := next_at_entry s.m_reading (by have := hv.1; omega)
      s.m_latest (by have := hv.2; omega)
    have hsf : s.slot_for = n := by simp [NB_ARSS_3.slot_for, hn]
    rw [write_eq_nb3c f s obj ts hv, hsf] at hr ⊢
    cases hf : f.free_fnc (s.m_buffer n).obj with
    | none => simp [hf] at hr
    | some u =>
      cases hc : f.copy_fnc obj with
      | none => simp [hf, hc] at hr
      | some c =>
        refine ⟨n, c, hn, rfl, rfl, rfl, ?_, ?_⟩
        · show ((if s.m_reading = 3 then n else s.m_reading) = n ↔ s.m_reading = 3)
          by_cases e : s.m_reading = 3
          · rw [if_pos e]; exact ⟨fun _ => e, fun _ => rfl⟩
          · rw [if_neg e]; exact ⟨fun h' => absurd h'.symm (n3 e), fun h' => absurd h' e⟩
        · intro e
          show (if s.m_reading = 3 then n else s.m_reading) = s.m_reading
          rw [if_neg e]
  · intro copy get t t' hc hs
    obtain ⟨b, R, L, wpc, wo, wt, w1, wi, rpc, ri, ro, rt, wlog, rlog⟩ := t
    simp only at hc
    subst hc
    simp only [NB_ARSS_3.Sys.step, Option.some.injEq] at hs
    subst hs
    simp only [compare_exchange_strong]
    by_cases e : R = 3 <;> simp [e]
  · intro copy get t t' hc hs
    obtain ⟨b, R, L, wpc, wo, wt, w1, wi, rpc, ri, ro, rt, wlog, rlog⟩ := t
    simp only at hc
    subst hc
    simp only [NB_ARSS_3.Sys.step, Option.some.injEq] at hs
    subst hs
    exact ⟨rfl, rfl, rfl⟩

/-- Instance of C27: the write (42,1) on the fresh `NB_ARSS_3` (reading 3,
latest 0) stores in slot `next[3][0]`, which is 1, and leaves latest 1 and
reading 1; the write (43,2) that follows (reading 1, latest 1) stores in slot
2 and leaves reading 1. -/
theorem write_transition_nb3c_witness :
    NB_ARSS_3.next_at 3 0 = some 1
    ∧ (NB_ARSS_3.write Fncs.dflt (NB_ARSS_3.init (-1)) 42 1).state.m_latest = 1
    ∧ (NB_ARSS_3.write Fncs.dflt (NB_ARSS_3.init (-1)) 42 1).state.m_reading = 1
    ∧ (NB_ARSS_3.write Fncs.dflt
        (NB_ARSS_3.write Fncs.dflt (NB_ARSS_3.init (-1)) 42 1).state 43 2).state.m_latest = 2
    ∧ (NB_ARSS_3.write Fncs.dflt
        (NB_ARSS_3.write Fncs.dflt (NB_ARSS_3.init (-1)) 42 1).state 43 2).state.m_reading = 1
    ∧ ∃ w c, NB_ARSS_3.next_at (NB_ARSS_3.init (-1 : Int)).m_reading
          (NB_ARSS_3.init (-1 : Int)).m_latest = some w
        ∧ Fncs.dflt.copy_fnc (42 : Int) = some c
        ∧ (NB_ARSS_3.write Fncs.dflt (NB_ARSS_3.init (-1)) 42 1).state.m_buffer
            = Function.update (NB_ARSS_3.init (-1)).m_buffer w { obj := c, ts := 1 }
        ∧ (NB_ARSS_3.write Fncs.dflt (NB_ARSS_3.init (-1)) 42 1).state.m_latest = w
        ∧ ((NB_ARSS_3.write Fncs.dflt (NB_ARSS_3.init (-1)) 42 1).state.m_reading = w
            ↔ (NB_ARSS_3.init (-1 : Int)).m_reading = 3)
        ∧ ((NB_ARSS_3.init (-1 : Int)).m_reading ≠ 3 →
            (NB_ARSS_3.write Fncs.dflt (NB_ARSS_3.init (-1)) 42 1).state.m_reading
              = (NB_ARSS_3.init (-1 : Int)).m_reading) :=
  ⟨rfl, rfl, rfl, rfl, rfl,
   (write_transition_nb3c Fncs.dflt (-1) (NB_ARSS_3.init (-1)) Reach.init 42 1 (by rfl)).1⟩

/-! ## The registers as constructed -/

/-- Each non-blocking class is constructed with the no-value indicator and
the timestamp -1 in every cell and with slot 0 as the latest slot of its
control state; the first write on a `NB_ARSS_2`, `NB_ARSS_3` or `NB_ARSS_4`,
and the first write on a `NB_ARSS_1` made while the static `next_write` of
`NB_ARSS_1::write` still has its initial value 1, leaves cell 0 as constructed
and, when it returns, has stored the copy and the timestamp in slot 1. -/
theorem initial_state {T : Type} (f : Fncs T) (nvi obj : T) (ts : Int) :
    ((∀ i, (NB_ARSS_1.init nvi).m_buffer i = { obj := nvi, ts := NO_VALUE_TS })
      ∧ (NB_ARSS_1.init nvi).m_next_read &&& 0x3 = 0
      ∧ (NB_ARSS_1.write f NB_ARSS_1.next_write_init (NB_ARSS_1.init nvi) obj ts).state.2.m_buffer 0
          = { obj := nvi, ts := NO_VALUE_TS }
      ∧ ((NB_ARSS_1.write f NB_ARSS_1.next_write_init (NB_ARSS_1.init nvi) obj ts).out
            = .returned () →
          ∃ c, f.copy_fnc obj = some c
            ∧ (NB_ARSS_1.write f NB_ARSS_1.next_write_init (NB_ARSS_1.init nvi) obj ts
                ).state.2.m_buffer = Function.update (NB_ARSS_1.init nvi).m_buffer 1
                  { obj := c, ts := ts }))
    ∧ ((∀ i, (NB_ARSS_2.init nvi).m_buffer i = { obj := nvi, ts := NO_VALUE_TS })
      ∧ (NB_ARSS_2.init nvi).m_status >>> 2 = 0
      ∧ (NB_ARSS_2.write f (NB_ARSS_2.init nvi) obj ts).state.m_buffer 0
          = { obj := nvi, ts := NO_VALUE_TS }
      ∧ ((NB_ARSS_2.write f (NB_ARSS_2.init nvi) obj ts).out = .returned () →
          ∃ c, f.copy_fnc obj = some c
            ∧ (NB_ARSS_2.write f (NB_ARSS_2.init nvi) obj ts).state.m_buffer
                = Function.update (NB_ARSS_2.init nvi).m_buffer 1 { obj := c, ts := ts }))
    ∧ ((∀ i, (NB_ARSS_3.init nvi).m_buffer i = { obj := nvi, ts := NO_VALUE_TS })
      ∧ (NB_ARSS_3.init nvi).m_latest = 0
      ∧ (NB_ARSS_3.write f (NB_ARSS_3.init nvi) obj ts).state.m_buffer 0
          = { obj := nvi, ts := NO_VALUE_TS }
      ∧ ((NB_ARSS_3.write f (NB_ARSS_3.init nvi) obj ts).out = .returned () →
          ∃ c, f.copy_fnc obj = some c
            ∧ (NB_ARSS_3.write f (NB_ARSS_3.init nvi) obj ts).state.m_buffer
                = Function.update (NB_ARSS_3.init nvi).m_buffer 1 { obj := c, ts := ts }))
    ∧ ((∀ i, (NB_ARSS_4.init nvi).m_buffer i = { obj := nvi, ts := NO_VALUE_TS })
      ∧ (NB_ARSS_4.init nvi).m_status >>> 2 = 0
      ∧ (NB_ARSS_4.write f (NB_ARSS_4.init nvi) obj ts).state.m_buffer 0
          = { obj := nvi, ts := NO_VALUE_TS }
      ∧ ((NB_ARSS_4.write f (NB_ARSS_4.init nvi) obj ts).out = .returned () →
          ∃ c, f.copy_fnc obj = some c
            ∧ (NB_ARSS_4.write f (NB_ARSS_4.init nvi) obj ts).state.m_buffer
                = Function.update (NB_ARSS_4.init nvi).m_buffer 1 { obj := c, ts := ts })) := by
  have v1 : NB_ARSS_1.Valid (NB_ARSS_1.next_write_init, NB_ARSS_1.init nvi) := by
    simp [NB_ARSS_1.Valid, NB_ARSS_1.next_write_init, NB_ARSS_1.init]
  have v2 : NB_ARSS_2.Valid (NB_ARSS_2.init nvi) := by simp [NB_ARSS_2.Valid, NB_ARSS_2.init]
  have v3 : NB_ARSS_3.Valid (NB_ARSS_3.init nvi) := by simp [NB_ARSS_3.Valid, NB_ARSS_3.init]
  have v4 : NB_ARSS_4.Valid (NB_ARSS_4.init nvi) := by simp [NB_ARSS_4.Valid, NB_ARSS_4.init]
  have s1 : NB_ARSS_1.slot_for NB_ARSS_1.next_write_init (NB_ARSS_1.init nvi).m_next_read = 1 := by
    simp [NB_ARSS_1.slot_for, NB_ARSS_1.next_write_init, NB_ARSS_1.init]
  have s3 : (NB_ARSS_3.init nvi).slot_for = 1 := by
    simp [NB_ARSS_3.slot_for, NB_ARSS_3.init, NB_ARSS_3.next_at, NB_ARSS_3.next]
  have s4 : (NB_ARSS_4.init nvi).slot_for = 1 := by
    simp [NB_ARSS_4.slot_for, NB_ARSS_4.init]
  have s2 : (NB_ARSS_2.init nvi).m_status % 4 = 1 := by simp [NB_ARSS_2.init]
  have w1 := write_eq_nb4a f (NB_ARSS_1.next_write_init, NB_ARSS_1.init nvi) obj ts v1
  simp only [s1] at w1
  have w2 := write_eq_nb4b f (NB_ARSS_2.init nvi) obj ts v2
  simp only [s2] at w2
  have w3 := write_eq_nb3c f (NB_ARSS_3.init nvi) obj ts v3
  simp only [s3] at w3
  have w4 := write_eq_nb3d f (NB_ARSS_4.init nvi) obj ts v4
  simp only [s4] at w4
  have z1 : (0 : Nat) &&& 0x3 = 0 := by decide
  have z2 : (1 : Nat) >>> 2 = 0 := by decide
  have z4 : (0 : Nat) >>> 2 = 0 := by decide
  refine ⟨⟨fun _ => rfl, z1, ?_, ?_⟩, ⟨fun _ => rfl, z2, ?_, ?_⟩,
    ⟨fun _ => rfl, rfl, ?_, ?_⟩, ⟨fun _ => rfl, z4, ?_, ?_⟩⟩
  · rw [w1]
    cases f.free_fnc _ <;> [skip; cases f.copy_fnc obj] <;> simp [NB_ARSS_1.init]
  · rw [w1]
    cases f.free_fnc _ <;> [skip; cases f.copy_fnc obj] <;> simp
  · rw [w2]
    cases f.free_fnc _ <;> [skip; cases f.copy_fnc obj] <;> simp [NB_ARSS_2.init]
  · rw [w2]
    cases f.free_fnc _ <;> [skip; cases f.copy_fnc obj] <;> simp
  · rw [w3]
    cases f.free_fnc _ <;> [skip; cases f.copy_fnc obj] <;> simp [NB_ARSS_3.init]
  · rw [w3]
    cases f.free_fnc _ <;> [skip; cases f.copy_fnc obj] <;> simp
  · rw [w4]
    cases f.free_fnc _ <;> [skip; cases f.copy_fnc obj] <;> simp [NB_ARSS_4.init]
  · rw [w4]
    cases f.free_fnc _ <;> [skip; cases f.copy_fnc obj] <;> simp

/-- Instance for the default callbacks: the first write (42,1) on each
fresh register of integers returns and leaves (42,1) in slot 1 and (-1,-1) in
slot 0. -/
theorem initial_state_witness :
    ((NB_ARSS_1.write Fncs.dflt NB_ARSS_1.next_write_init (NB_ARSS_1.init (-1)) 42 1
        ).state.2.m_buffer 1).obj = 42
    ∧ ((NB_ARSS_2.write Fncs.dflt (NB_ARSS_2.init (-1)) 42 1).state.m_buffer 1).obj = 42
    ∧ ((NB_ARSS_3.write Fncs.dflt (NB_ARSS_3.init (-1)) 42 1).state.m_buffer 1).obj = 42
    ∧ ((NB_ARSS_4.write Fncs.dflt (NB_ARSS_4.init (-1)) 42 1).state.m_buffer 1).obj = 42
    ∧ (NB_ARSS_4.write Fncs.dflt (NB_ARSS_4.init (-1 : Int)) 42 1).state.m_buffer 0
        = { obj := -1, ts := NO_VALUE_TS }
    ∧ ∃ c, Fncs.dflt.copy_fnc (42 : Int) = some c
        ∧ (NB_ARSS_2.write Fncs.dflt (NB_ARSS_2.init (-1)) 42 1).state.m_buffer
            = Function.update (NB_ARSS_2.init (-1)).m_buffer 1 { obj := c, ts := 1 } :=
  ⟨rfl, rfl, rfl, rfl,
   (initial_state Fncs.dflt (-1 : Int) 42 1).2.2.2.2.2.1,
   (initial_state Fncs.dflt (-1 : Int) 42 1).2.1.2.2.2 (by rfl)⟩

/-- C28 at the failing input: after `a.write(10,1)`, `a.read`, `a.write(11,2)`
the static `next_write` of `NB_ARSS_1::write` is 0, so the first write
`b.write(20,3)` on the fresh register `b`, whose control word names slot 0 as
latest, frees the no-value indicator of slot 0 and stores (20,3) in slot 0,
whereas the first write of a process stores in slot 1 and leaves cell 0 as
constructed. -/
theorem first_write_hits_slot_zero_nb4a :
    NB_ARSS_1.a_written_twice.1 = 0
    ∧ (NB_ARSS_1.init (-1 : Int)).m_next_read &&& 0x3 = 0
    ∧ NB_ARSS_1.first_on_b.calls = [.free (-1), .copy 20]
    ∧ NB_ARSS_1.first_on_b.state.2.m_next_read = 0
    ∧ (NB_ARSS_1.first_on_b.state.2.m_buffer 0).obj = 20
    ∧ (NB_ARSS_1.first_on_b.state.2.m_buffer 0).ts = 3
    ∧ ((NB_ARSS_1.write Fncs.dflt NB_ARSS_1.next_write_init (NB_ARSS_1.init (-1)) 20 3
          ).state.2.m_buffer 0).obj = -1
    ∧ ((NB_ARSS_1.write Fncs.dflt NB_ARSS_1.next_write_init (NB_ARSS_1.init (-1)) 20 3
          ).state.2.m_buffer 1).obj = 20 := by
  refine ⟨by decide, by decide, ?_, by decide, by decide, by decide, by decide, by decide⟩
  rfl

/-! ## Width of the control state -/

/-- C29: under every schedule of one writer and one reader (for `NB_ARSS_4`
also when callbacks throw), and likewise after any sequence of calls made one
at a time whatever their callbacks do,
the control word of a `NB_ARSS_1` is below 8, the status of a `NB_ARSS_2` and
of a `NB_ARSS_4` is below 16, and of a `NB_ARSS_3` the variable `m_reading` is
at most 3 and `m_latest` at most 2: every control byte fits in 4 bits. -/
theorem control_width {T : Type} (copy : T → T) (get : T → T → T) (f : Fncs T) (nvi : T) :
    (∀ s : NB_ARSS_1.Sys T, NB_ARSS_1.Sys.Reachable copy get nvi s → s.m_next_read < 8)
    ∧ (∀ s : NB_ARSS_2.Sys T, NB_ARSS_2.Sys.Reachable copy get nvi s → s.m_status < 16)
    ∧ (∀ s : NB_ARSS_3.Sys T, NB_ARSS_3.Sys.Reachable copy get nvi s →
        s.m_reading ≤ 3 ∧ s.m_latest ≤ 2)
    ∧ (∀ s : NB_ARSS_4.Sys T, NB_ARSS_4.Sys.Reachable f nvi s → s.m_status < 16)
    ∧ (∀ s : Nat × NB_ARSS_1 T, NB_ARSS_1.Reachable f nvi s → s.2.m_next_read < 8)
    ∧ (∀ s : NB_ARSS_2 T, NB_ARSS_2.Reachable f nvi s → s.m_status < 16)
    ∧ (∀ s : NB_ARSS_3 T, NB_ARSS_3.Reachable f nvi s → s.m_reading ≤ 3 ∧ s.m_latest ≤ 2)
    ∧ (∀ s : NB_ARSS_4 T, NB_ARSS_4.Reachable f nvi s → s.m_status < 16) := by
  refine ⟨fun s h => (reachable_inv_nb4a copy get nvi s h).1,
    fun s h => (reachable_inv_nb4b copy get nvi s h).1.1.1,
    fun s h => (reachable_inv_nb3c copy get nvi s h).1,
    fun s h => ?_,
    fun s h => (reachable_valid_nb4a f nvi s h).2,
    fun s h => reachable_valid_nb4b f nvi s h,
    fun s h => ?_, fun s h => ?_⟩
  · have := (reachable_ctl_nb3d f nvi s h).1; omega
  · have := reachable_valid_nb3c f nvi s h
    unfold NB_ARSS_3.Valid at this; omega
  · have := (reachable_valid_nb3d f nvi s h).1; omega

/-- Instance of C29: the states `NB_ARSS_1.Sys.retry`, `NB_ARSS_2.Sys.fallback`,
`NB_ARSS_3.Sys.demo` and `NB_ARSS_4.Sys.retry` hold the control words 4, 6,
(reading 1, latest 1) and 5. -/
theorem control_width_witness :
    NB_ARSS_1.Sys.retry.m_next_read = 4 ∧ NB_ARSS_2.Sys.fallback.m_status = 6
    ∧ (NB_ARSS_3.Sys.demo.m_reading, NB_ARSS_3.Sys.demo.m_latest) = (1, 1)
    ∧ NB_ARSS_4.Sys.retry.m_status = 5
    ∧ NB_ARSS_2.Sys.fallback.m_status < 16 :=
  ⟨by decide, by decide, by decide, by decide,
   (control_width COPY_FNC GET_FNC Fncs.dflt (-1 : Int)).2.1 NB_ARSS_2.Sys.fallback
     (reachable_of_run_nb4b COPY_FNC GET_FNC (-1)
        [.write 42 1, .writer, .writer, .writer, .writer,
         .write 43 2, .writer, .writer, .writer, .read 0, .reader, .writer] _ _ .init
        (by rfl))⟩

/-! ## Index safety in `NB_ARSS_3` -/

/-- C30: under every schedule of one writer and one reader on a `NB_ARSS_3`,
when the reader is about to load `m_reading` after its CAS that variable is
below 3, and the index it then uses on the buffer is below 3; when the writer
is about to look up its table, the value it loaded from `m_reading` is at most
3 and `m_latest` at most 2, so that the entry exists and is below 3, and the
slot the writer frees and overwrites is below 3. -/
theorem reader_index_nb3c {T : Type} (copy : T → T) (get : T → T → T) (nvi : T)
    (s : NB_ARSS_3.Sys T) (h : NB_ARSS_3.Sys.Reachable copy get nvi s) :
    (s.rpc = .ld_reading → s.m_reading < 3
      ∧ ∃ s', NB_ARSS_3.Sys.step copy get .reader s = some s' ∧ s'.r_rindex < 3)
    ∧ (s.reading → s.r_rindex < 3)
    ∧ (s.wpc = .ld_latest → s.w_widx1 ≤ 3 ∧ s.m_latest ≤ 2
      ∧ ∃ n, NB_ARSS_3.next_at s.w_widx1 s.m_latest = some n ∧ n < 3)
    ∧ (s.writing → s.w_windex < 3) := by
  obtain ⟨⟨hR, hL⟩, h2, h3, h4, h5, h6, _⟩ := reachable_inv_nb3c copy get nvi s h
  refine ⟨fun hc => ?_, fun hc => ?_, fun hc => ?_, fun hc => ?_⟩
  · have hne := h2 (Or.inl hc)
    have hlt : s.m_reading < 3 := by omega
    refine ⟨hlt, ?_⟩
    obtain ⟨b, R, L, wpc, wo, wt, w1, wi, rpc, ri, ro, rt, wlog, rlog⟩ := s
    simp only at hc hlt
    subst hc
    exact ⟨_, rfl, hlt⟩
  · have hne := h2 (Or.inr hc)
    have := h3 hc
    omega
  · obtain ⟨a1, _⟩ := h5 hc
    obtain ⟨n, hn, n1, _⟩ := next_at_entry s.w_widx1 a1 s.m_latest hL
    exact ⟨a1, hL, n, hn, by omega⟩
  · have := h6 (by rcases hc with e | e | e <;> simp [e])
    omega

/-- Instance of C30: in `NB_ARSS_3.Sys.after_cas` the reader of the fresh
register is about to load `m_reading`, which its CAS has set from 3 to 0. -/
theorem reader_index_nb3c_witness :
    NB_ARSS_3.Sys.after_cas.rpc = .ld_reading ∧ NB_ARSS_3.Sys.after_cas.m_reading = 0
    ∧ NB_ARSS_3.Sys.after_cas.m_reading < 3 :=
  ⟨rfl, by decide,
   ((reader_index_nb3c COPY_FNC GET_FNC (-1) NB_ARSS_3.Sys.after_cas
      (reachable_of_run_nb3c COPY_FNC GET_FNC (-1) [.read 0, .reader, .reader] _ _ .init
        (by rfl))).1 rfl).1⟩

/-! ## Index safety in `NB_ARSS_4` -/

/-- C31: under every schedule of one writer and one reader on a `NB_ARSS_4`,
whatever the callbacks do,
both fields of the status (upper: latest, lower: last read) and the writer's
`m_write_slot` are below 3, and so is the slot of a read in progress: every
buffer access is within the three cells.  Likewise after any sequence of
calls made one at a time, whatever their callbacks do: the fields and the
write slot are below 3 and no `write` or `read` indexes outside the buffer. -/
theorem slot_fields_valid_nb3d {T : Type} (f : Fncs T) (nvi : T) :
    (∀ s : NB_ARSS_4.Sys T, NB_ARSS_4.Sys.Reachable f nvi s →
      s.m_status >>> 2 < 3 ∧ s.m_status &&& 0x3 < 3 ∧ s.m_write_slot < 3
      ∧ (s.reading → s.r_read_slot < 3))
    ∧ (∀ s : NB_ARSS_4 T, NB_ARSS_4.Reachable f nvi s →
      s.m_status >>> 2 < 3 ∧ s.m_status &&& 0x3 < 3 ∧ s.m_write_slot < 3
      ∧ (∀ obj ts, (NB_ARSS_4.write f s obj ts).out ≠ .ub)
      ∧ (∀ fuel d, (NB_ARSS_4.read f fuel s d).out ≠ .ub)) := by
  refine ⟨fun s h => ?_, fun s h => ?_⟩
  · obtain ⟨h1, h2, h3, _, _, h8⟩ := reachable_ctl_nb3d f nvi s h
    rw [Nat.shiftRight_eq_div_pow, land_3]
    refine ⟨by omega, h2, h3, fun hr => ?_⟩
    have := h8 hr
    omega
  · have hv := reachable_valid_nb3d f nvi s h
    obtain ⟨h1, h2, h3⟩ := hv
    rw [Nat.shiftRight_eq_div_pow, land_3]
    refine ⟨by omega, h2, h3, fun obj ts => ?_, fun fuel d => ?_⟩
    · rw [write_eq_nb3d f s obj ts ⟨h1, h2, h3⟩]
      cases f.free_fnc _ <;> [skip; cases f.copy_fnc obj] <;> simp
    · rcases read_cases_nb3d f fuel s d ⟨h1, h2, h3⟩ with e | e
      · rw [e]; simp
      · rw [e, read_eq_nb3d f 0 s d ⟨h1, h2, h3⟩]
        cases f.get_fnc _ d <;> simp

/-- Instance of C31: in `NB_ARSS_4.Sys.retry` the status is 5 (latest 1, last
read 1), the write slot is 2 and the reader is on slot 1. -/
theorem slot_fields_valid_nb3d_witness :
    NB_ARSS_4.Sys.retry.m_status = 5 ∧ NB_ARSS_4.Sys.retry.m_write_slot = 2
    ∧ NB_ARSS_4.Sys.retry.reading ∧ NB_ARSS_4.Sys.retry.r_read_slot = 1
    ∧ NB_ARSS_4.Sys.retry.m_status >>> 2 < 3 ∧ NB_ARSS_4.Sys.retry.m_status &&& 0x3 < 3
    ∧ NB_ARSS_4.Sys.retry.m_write_slot < 3
    ∧ (NB_ARSS_4.Sys.retry.reading → NB_ARSS_4.Sys.retry.r_read_slot < 3) :=
  ⟨rfl, rfl, Or.inl rfl, rfl,
   (slot_fields_valid_nb3d Fncs.dflt (-1 : Int)).1 NB_ARSS_4.Sys.retry
     (reachable_of_run_nb3d Fncs.dflt (-1)
        [.write 42 1, .writer, .writer, .writer, .writer,
         .write 43 2, .writer, .writer, .writer, .read 0, .reader, .writer] _ _ .init
        (by rfl))⟩

end ART
